import Mathlib

/-!
The assembler of `src/main.c`: lexer, instruction parser, encoder and driver.

A shallow embedding of the assembler.  Conventions of the embedding:

* a C `char` is its integer code (`Nat`); the source text is the list of the
  bytes read from the file, and reading `text[p]` at `p = length` yields the
  terminating NUL written by `Assemble` (`text[srcFileSize] = 0`);
* `unsigned int` is 32 bits wide and `unsigned long` 64 bits wide (LP64);
  arithmetic that can wrap carries an explicit `% 2^32` or `% 2^64`;
* a `Token*` is the list of tokens from the pointed node on, following
  `next`; the null pointer is `[]`;
* a function whose C body dereferences a null pointer or indexes a table out
  of bounds at some input yields `none` there (undefined behaviour);
* `malloc` is assumed to succeed and to hand out zeroed tokens.
-/

namespace Microasm

/-! ## Data model -/

def MAX_OPCODE_LENGTH : Nat := 4

def NUM_OPCODES : Nat := 2

/-- Values of `enum _Opcode`: the index of a mnemonic in the format table. -/
def OPCODE_JUMP : Nat := 0

def OPCODE_LW : Nat := 1

inductive InstrType where
  | INSTR_TYPE_I
  | INSTR_TYPE_J
  | INSTR_TYPE_R
  deriving DecidableEq, Repr

structure InstrProperties where
  type : InstrType
  opcode : Nat
  name : List Nat
  deriving DecidableEq, Repr

inductive TokenType where
  | TOKEN_TYPE_INVALID
  | TOKEN_TYPE_OPCODE
  | TOKEN_TYPE_NUMBER
  | TOKEN_TYPE_REGISTER
  | TOKEN_TYPE_WHITESPACE
  | TOKEN_TYPE_COMMA
  | TOKEN_TYPE_NEW_LINE
  | TOKEN_TYPE_EOF
  deriving DecidableEq, Repr

open InstrType TokenType

/-- A node of the token chain without its `next` pointer.  `data` is the
`union TokenData` read as an `unsigned int` (`data.number`, `data.opcode`). -/
structure Token where
  type : TokenType
  lineNumber : Nat
  data : Nat
  deriving DecidableEq, Repr

/-- The bytes of a string literal. -/
def cstr (s : String) : List Nat := s.toList.map Char.toNat

/-- The table `instructionProperties`: J-type `J` (name bytes `[74]`) and
I-type `LW` (name bytes `[76, 87]`). -/
def instructionProperties : List InstrProperties :=
  [ { type := INSTR_TYPE_J, opcode := 2, name := [74] },
    { type := INSTR_TYPE_I, opcode := 35, name := [76, 87] } ]

/-- The character `text[p]`; index `length` holds the terminating NUL. -/
def charAt (text : List Nat) (p : Nat) : Nat := text.getD p 0

/-- The test `c == ' ' || c == '\t'` (space is 32, tab is 9). -/
def IsWhitespaceChar (c : Nat) : Bool := c == 32 || c == 9

/-- Letters `A..Z` (65..90), `a..z` (97..122) and digits `0..9` (48..57). -/
def IsValidNameChar (c : Nat) : Bool :=
  (65 ≤ c && c ≤ 90) || (97 ≤ c && c ≤ 122) || (48 ≤ c && c ≤ 57)

/-! ## The C library function `strtoul` -/

def ULONG_MAX : Nat := 2 ^ 64 - 1

/-- The C `isspace` in the "C" locale: space and `\t \n \v \f \r`. -/
def isspace (c : Nat) : Bool := c == 32 || (9 ≤ c && c ≤ 13)

/-- Value of a character as a digit (`0..9`, then letters of either case
from 10 on); 36 for a character that is no digit in any base. -/
def digitValue (c : Nat) : Nat :=
  if 48 ≤ c ∧ c ≤ 57 then c - 48
  else if 97 ≤ c ∧ c ≤ 122 then c - 97 + 10
  else if 65 ≤ c ∧ c ≤ 90 then c - 65 + 10
  else 36

/-- Accumulates the longest run of digits of `base`; returns the
mathematical value and the number of digits read. -/
def strtoulDigits (base : Nat) : List Nat → Nat → Nat → Nat × Nat
  | [], acc, n => (acc, n)
  | c :: cs, acc, n =>
    if digitValue c < base then strtoulDigits base cs (acc * base + digitValue c) (n + 1)
    else (acc, n)

/-- Whether the text opens with `0x` or `0X` followed by a hexadecimal digit. -/
def hexIntro : List Nat → Bool
  | 48 :: x :: h :: _ => (x == 120 || x == 88) && decide (digitValue h < 16)
  | _ => false

/-- The subject sequence of `strtoul` after white space and sign: an
optional `0x` or `0X` when the base is 0 or 16 and a hexadecimal digit
follows, then the digits; base 0 reads a leading `0` as octal and anything
else as decimal.  Returns the mathematical value and the number of
characters read, 0 when there is no digit. -/
def strtoulBody (s : List Nat) (base : Nat) : Nat × Nat :=
  let hex := (base == 0 || base == 16) && hexIntro s
  let pre := if hex then 2 else 0
  let b :=
    if hex then 16
    else if base == 0 then (if s.head? == some 48 then 8 else 10)
    else base
  let r := strtoulDigits b (s.drop pre) 0 0
  if r.2 = 0 then (0, 0) else (r.1, pre + r.2)

/-- Model of `strtoul(nptr, &end, base)` of ISO C for `base` 0, 10 or 16 on
an LP64 platform: returns the converted value and `end - nptr`, which is 0
when no conversion was performed.  Leading white space is skipped, a sign
(`-` is 45, `+` is 43) is accepted, a value above `ULONG_MAX` is clamped to
`ULONG_MAX`, and a leading minus sign negates the value in `unsigned long`. -/
def strtoul (nptr : List Nat) (base : Nat) : Nat × Nat :=
  let ws := (nptr.takeWhile isspace).length
  let s1 := nptr.drop ws
  let neg := s1.head? == some 45
  let sgn := if neg || s1.head? == some 43 then 1 else 0
  let r := strtoulBody (s1.drop sgn) base
  if r.2 = 0 then (0, 0)
  else
    (if r.1 > ULONG_MAX then ULONG_MAX
      else if neg then (2 ^ 64 - r.1) % 2 ^ 64
      else r.1,
     ws + sgn + r.2)

/-! ## Lexer -/

/-- Result of a lexer routine: the updated `*p` and `*token`. -/
structure LexOut where
  p : Nat
  token : Token
  deriving DecidableEq, Repr

def ParseRegisterToken (p : Nat) (text : List Nat) (token : Token) : LexOut :=
  let p1 := p + 1
  let r := strtoul (text.drop p1) 10
  let value := r.1 % 2 ^ 32
  if r.2 = 0 ∨ value > 31 then
    { p := p1, token := { token with type := TOKEN_TYPE_INVALID } }
  else
    { p := p1 + r.2, token := { token with type := TOKEN_TYPE_REGISTER, data := value } }

/-- The loop `while(IsWhitespaceChar(text[*p])) (*p)++`, run over the text
that remains from `*p` on. -/
def skipWhitespace : List Nat → Nat → Nat
  | [], p => p
  | c :: cs, p => if IsWhitespaceChar c then skipWhitespace cs (p + 1) else p

def ParseWhitespaceToken (p : Nat) (text : List Nat) (token : Token) : LexOut :=
  { p := skipWhitespace (text.drop p) p, token := { token with type := TOKEN_TYPE_WHITESPACE } }

def ParseNumberToken (p : Nat) (text : List Nat) (token : Token) : LexOut :=
  let r := strtoul (text.drop p) 0
  let value := r.1 % 2 ^ 32
  if r.2 = 0 then
    { p := p, token := { token with type := TOKEN_TYPE_INVALID } }
  else
    { p := p + r.2, token := { token with type := TOKEN_TYPE_NUMBER, data := value } }

/-- The first loop of `ParseOpcodeToken`, with `k = MAX_OPCODE_LENGTH - i`
iterations left: returns `*p` and the buffer `opcodeName`. -/
def readOpcodeName (text : List Nat) : Nat → Nat → Nat → List Nat → Nat × List Nat
  | 0, _, p, opcodeName => (p, opcodeName)
  | k + 1, i, p, opcodeName =>
    let readChar := charAt text p
    if IsValidNameChar readChar then
      readOpcodeName text k (i + 1) (p + 1) (opcodeName.set i readChar)
    else (p, opcodeName)

/-- The test `strcmp(a, b) == 0`: the bytes before the first NUL agree. -/
def strcmpEq (a b : List Nat) : Bool :=
  a.takeWhile (fun c => c != 0) == b.takeWhile (fun c => c != 0)

/-- The second loop of `ParseOpcodeToken`, with `k = NUM_OPCODES - i`
iterations left: the first table index whose name equals `opcodeName`. -/
def findOpcode (opcodeName : List Nat) : Nat → Nat → Option Nat
  | 0, _ => none
  | k + 1, i =>
    match instructionProperties.get? i with
    | none => none
    | some properties =>
      if strcmpEq opcodeName properties.name then some i
      else findOpcode opcodeName k (i + 1)

def ParseOpcodeToken (p : Nat) (text : List Nat) (token : Token) : LexOut :=
  let r := readOpcodeName text MAX_OPCODE_LENGTH 0 p (List.replicate MAX_OPCODE_LENGTH 0)
  match findOpcode r.2 NUM_OPCODES 0 with
  | some i => { p := r.1, token := { token with type := TOKEN_TYPE_OPCODE, data := i } }
  | none => { p := r.1, token := { token with type := TOKEN_TYPE_INVALID } }

/-- Result of `ParseToken`: the return value and the updated `*p`, `*token`
and `*lineNumber`.  On return value 1 the diagnostic
`Invalid token on line %d!` is printed with `token.lineNumber`. -/
structure ParseTokenOut where
  ret : Nat
  p : Nat
  token : Token
  lineNumber : Nat
  deriving DecidableEq, Repr

/-- The `switch` of `ParseToken`: `$` is 36, space 32, tab 9, comma 44,
newline 10, NUL 0. -/
def ParseTokenSwitch (p : Nat) (text : List Nat) (token : Token) (lineNumber : Nat) :
    LexOut × Nat :=
  let firstChar := charAt text p
  if firstChar = 36 then (ParseRegisterToken p text token, lineNumber)
  else if firstChar = 32 then (ParseWhitespaceToken p text token, lineNumber)
  else if firstChar = 9 then (ParseWhitespaceToken p text token, lineNumber)
  else if firstChar = 44 then
    ({ p := p + 1, token := { token with type := TOKEN_TYPE_COMMA } }, lineNumber)
  else if firstChar = 10 then
    ({ p := p + 1, token := { token with type := TOKEN_TYPE_NEW_LINE } },
      (lineNumber + 1) % 2 ^ 32)
  else if firstChar = 0 then
    ({ p := p + 1, token := { token with type := TOKEN_TYPE_EOF } }, lineNumber)
  else if 48 ≤ firstChar ∧ firstChar ≤ 57 then (ParseNumberToken p text token, lineNumber)
  else if (65 ≤ firstChar ∧ firstChar ≤ 90) ∨ (97 ≤ firstChar ∧ firstChar ≤ 122) then
    (ParseOpcodeToken p text token, lineNumber)
  else ({ p := p, token := { token with type := TOKEN_TYPE_INVALID } }, lineNumber)

def ParseToken (p : Nat) (text : List Nat) (token : Token) (lineNumber : Nat) :
    ParseTokenOut :=
  let r := ParseTokenSwitch p text { token with lineNumber := lineNumber } lineNumber
  { ret := if r.1.token.type = TOKEN_TYPE_INVALID then 1 else 0,
    p := r.1.p, token := r.1.token, lineNumber := r.2 }

/-- A freshly allocated token. -/
def freshToken : Token := { type := TOKEN_TYPE_INVALID, lineNumber := 0, data := 0 }

/-- The `do ... while` loop of `Tokenize` with a bound on the iterations
left: returns the result and the chain built from the current token on.
`none` only when the bound is used up. -/
def TokenizeLoop (text : List Nat) : Nat → Nat → Nat → Option (Nat × List Token)
  | 0, _, _ => none
  | fuel + 1, p, lineNumber =>
    let r := ParseToken p text freshToken lineNumber
    if r.ret = 1 then some (1, [r.token])
    else if r.token.type = TOKEN_TYPE_EOF then some (0, [r.token])
    else
      match TokenizeLoop text fuel r.p r.lineNumber with
      | none => none
      | some (result, rest) => some (result, r.token :: rest)

/-- The call `Tokenize(text, &rootToken)`: the return value and the chain from
`rootToken` on.  Every iteration that continues consumes a character, so
`length + 1` iterations suffice. -/
def Tokenize (text : List Nat) : Option (Nat × List Token) :=
  TokenizeLoop text (text.length + 1) 0 1

/-! ## Token sequence traversal -/

/-- The loop of `CountTokensOfType`; `count` is an `unsigned int`. -/
def CountTokensLoop (type : TokenType) : List Token → Nat → Option Nat
  | [], _ => none
  | t :: next, count =>
    if t.type = TOKEN_TYPE_EOF then some count
    else CountTokensLoop type next (if t.type = type then (count + 1) % 2 ^ 32 else count)

def CountTokensOfType (rootToken : List Token) (type : TokenType) : Option Nat :=
  CountTokensLoop type rootToken 0

/-- The `for` loop of `GetParams` with `k = numParams - i` iterations left.
`out` holds the current values of the variables `out[0..]` point to.
Returns the returned pointer (`[]` is the null pointer) and those values. -/
def GetParamsLoop (numParams : Nat) (types : List TokenType) :
    Nat → Nat → List Nat → List Token → Option (List Token × List Nat)
  | 0, _, out, token => some (token, out)
  | k + 1, i, out, token =>
    match types.get? i with
    | none => none
    | some type =>
      match token with
      | [] => none
      | t :: next =>
        if t.type ≠ type then some ([], out)
        else if i < numParams - 1 then
          match next with
          | [] => none
          | c :: next2 =>
            if c.type ≠ TOKEN_TYPE_COMMA then some ([], out.set i t.data)
            else
              match next2 with
              | [] => none
              | w :: next3 =>
                if w.type = TOKEN_TYPE_WHITESPACE then
                  GetParamsLoop numParams types k (i + 1) (out.set i t.data) next3
                else GetParamsLoop numParams types k (i + 1) (out.set i t.data) next2
        else GetParamsLoop numParams types k (i + 1) (out.set i t.data) next

def GetParams (numParams : Nat) (types : List TokenType) (out : List Nat)
    (token : List Token) : Option (List Token × List Nat) :=
  match token with
  | [] => none
  | _ :: next => GetParamsLoop numParams types numParams 0 out next

/-! ## Instruction parsers -/

/-- Returns the returned pointer and the values of `*rs`, `*rt`, `*imm`. -/
def ParseITypeInstr (rs rt imm : Nat) (token : List Token) :
    Option (List Token × Nat × Nat × Nat) :=
  match GetParams 3 [TOKEN_TYPE_REGISTER, TOKEN_TYPE_REGISTER, TOKEN_TYPE_NUMBER]
      [rs, rt, imm] token with
  | none => none
  | some (tok, out) =>
    if tok = [] then some ([], out.getD 0 0, out.getD 1 0, out.getD 2 0)
    else if out.getD 2 0 > 0xFFFF then some ([], out.getD 0 0, out.getD 1 0, out.getD 2 0)
    else some (tok, out.getD 0 0, out.getD 1 0, out.getD 2 0)

/-- Returns the returned pointer and the value of `*target`. -/
def ParseJTypeInstr (target : Nat) (token : List Token) : Option (List Token × Nat) :=
  match GetParams 1 [TOKEN_TYPE_NUMBER] [target] token with
  | none => none
  | some (tok, out) =>
    if tok = [] then some ([], out.getD 0 0)
    else if out.getD 0 0 > 0x3FFFFFF then some ([], out.getD 0 0)
    else some (tok, out.getD 0 0)

/-- Returns the returned pointer and the values of `*rs`, `*rt`, `*rd`,
`*shift`, `*function`. -/
def ParseRTypeInstr (rs rt rd shift function : Nat) (token : List Token) :
    Option (List Token × Nat × Nat × Nat × Nat × Nat) :=
  match GetParams 5
      [TOKEN_TYPE_REGISTER, TOKEN_TYPE_REGISTER, TOKEN_TYPE_REGISTER,
        TOKEN_TYPE_NUMBER, TOKEN_TYPE_NUMBER]
      [rs, rt, rd, shift, function] token with
  | none => none
  | some (tok, out) =>
    if tok = [] then
      some ([], out.getD 0 0, out.getD 1 0, out.getD 2 0, out.getD 3 0, out.getD 4 0)
    else if out.getD 3 0 > 0x1F then
      some ([], out.getD 0 0, out.getD 1 0, out.getD 2 0, out.getD 3 0, out.getD 4 0)
    else if out.getD 4 0 > 0x3F then
      some ([], out.getD 0 0, out.getD 1 0, out.getD 2 0, out.getD 3 0, out.getD 4 0)
    else some (tok, out.getD 0 0, out.getD 1 0, out.getD 2 0, out.getD 3 0, out.getD 4 0)

/-! ## Encoder -/

/-- Shifts are taken in `unsigned int`. -/
def CreateInstruction (opcode rs rt imm target rd shift function : Nat) (type : InstrType) :
    Nat :=
  match type with
  | INSTR_TYPE_I =>
    ((opcode <<< 26) % 2 ^ 32) ||| ((rs <<< 21) % 2 ^ 32) ||| ((rt <<< 16) % 2 ^ 32) ||| imm
  | INSTR_TYPE_J => ((opcode <<< 26) % 2 ^ 32) ||| target
  | INSTR_TYPE_R =>
    ((opcode <<< 26) % 2 ^ 32) ||| ((rs <<< 21) % 2 ^ 32) ||| ((rt <<< 16) % 2 ^ 32) |||
      ((rd <<< 11) % 2 ^ 32) ||| ((shift <<< 6) % 2 ^ 32) ||| function

/-! ## Driver -/

/-- The values of the operand variables of one iteration of
`GenerateMachineCode`, all initialised to 0. -/
structure Operands where
  rs : Nat := 0
  rt : Nat := 0
  imm : Nat := 0
  target : Nat := 0
  rd : Nat := 0
  shift : Nat := 0
  function : Nat := 0
  deriving DecidableEq, Repr

/-- The `switch(properties.type)` of `GenerateMachineCode`: the returned
pointer and the operand variables after the call. -/
def dispatchParser (type : InstrType) (token : List Token) : Option (List Token × Operands) :=
  match type with
  | INSTR_TYPE_I =>
    match ParseITypeInstr 0 0 0 token with
    | none => none
    | some (tok, rs, rt, imm) => some (tok, { rs := rs, rt := rt, imm := imm })
  | INSTR_TYPE_J =>
    match ParseJTypeInstr 0 token with
    | none => none
    | some (tok, target) => some (tok, { target := target })
  | INSTR_TYPE_R =>
    match ParseRTypeInstr 0 0 0 0 0 token with
    | none => none
    | some (tok, rs, rt, rd, shift, function) =>
      some (tok, { rs := rs, rt := rt, rd := rd, shift := shift, function := function })

/-- The `for` loop of `GenerateMachineCode` with `k = numInstr - i`
iterations left: the return value and the buffer `binary`. -/
def GenerateLoop : Nat → Nat → List Token → List Nat → Option (Nat × List Nat)
  | 0, _, _, binary => some (0, binary)
  | k + 1, i, token, binary =>
    match token with
    | [] => none
    | t :: next =>
      if t.type ≠ TOKEN_TYPE_OPCODE then some (1, binary)
      else
        match instructionProperties.get? t.data with
        | none => none
        | some properties =>
          match next with
          | [] => none
          | w :: _ =>
            if w.type ≠ TOKEN_TYPE_WHITESPACE then some (1, binary)
            else
              match dispatchParser properties.type next with
              | none => none
              | some ([], _) => some (1, binary)
              | some (e :: next2, v) =>
                let binary1 := binary.set i
                  (CreateInstruction properties.opcode v.rs v.rt v.imm v.target v.rd v.shift
                    v.function properties.type)
                if e.type = TOKEN_TYPE_EOF then some (0, binary1)
                else if e.type ≠ TOKEN_TYPE_NEW_LINE then some (1, binary1)
                else GenerateLoop k (i + 1) next2 binary1

def GenerateMachineCode (rootToken : List Token) (binary : List Nat) (numInstr : Nat) :
    Option (Nat × List Nat) :=
  GenerateLoop numInstr 0 rootToken binary

/-- The words `binary[0..numInstr)` that `WriteToDst` prints, one per line;
the destination file is assumed to open. -/
def WriteToDst (binary : List Nat) (numInstr : Nat) : Nat × List Nat :=
  (0, binary.take numInstr)

/-- The `return` statement by which `Assemble` leaves. -/
inductive AssembleExit where
  | lexFailed
  | emptyProgram
  | generateFailed
  | writerCalled
  deriving DecidableEq, Repr

/-- Outcome of `Assemble`: the exit status, the `return` taken, and the
words handed to `WriteToDst` (`none` when `WriteToDst` is not called). -/
structure AssembleOut where
  status : Nat
  exit : AssembleExit
  written : Option (List Nat)
  deriving DecidableEq, Repr

/-- The function `Assemble` from the point where the source file has been read into
`text`; `calloc` yields `numOpcodes` zero words. -/
def Assemble (text : List Nat) : Option AssembleOut :=
  match Tokenize text with
  | none => none
  | some (result, rootToken) =>
    if result = 1 then
      some { status := 1, exit := AssembleExit.lexFailed, written := none }
    else
      match CountTokensOfType rootToken TOKEN_TYPE_OPCODE with
      | none => none
      | some numOpcodes =>
        if numOpcodes = 0 then
          some { status := 1, exit := AssembleExit.emptyProgram, written := none }
        else
          match GenerateMachineCode rootToken (List.replicate numOpcodes 0) numOpcodes with
          | none => none
          | some (result1, binary) =>
            if result1 = 1 then
              some { status := 1, exit := AssembleExit.generateFailed, written := none }
            else
              some { status := (WriteToDst binary numOpcodes).1,
                     exit := AssembleExit.writerCalled,
                     written := some (WriteToDst binary numOpcodes).2 }

/-! ## Notions used to state the properties -/

/-- The decimal digits of `n`, most significant first, `f` bounding their
number. -/
def decimalDigits : Nat → Nat → List Nat
  | 0, _ => []
  | f + 1, n => if n < 10 then [48 + n] else decimalDigits f (n / 10) ++ [48 + n % 10]

/-- The decimal literal of `n` without leading zeros, as bytes. -/
def decimal (n : Nat) : List Nat := decimalDigits (n + 1) n

/-- The chain ends in an End-of-input token and holds no other one: every
token but the last has a successor. -/
def wellFormed : List Token → Bool
  | [] => false
  | [e] => e.type == TOKEN_TYPE_EOF
  | t :: u :: rest => t.type != TOKEN_TYPE_EOF && wellFormed (u :: rest)

/-- What the lexer guarantees of a token value: an Opcode token indexes the
format table and a Register token holds at most 31. -/
def tokenValid (t : Token) : Bool :=
  (t.type != TOKEN_TYPE_OPCODE || decide (t.data < NUM_OPCODES)) &&
    (t.type != TOKEN_TYPE_REGISTER || decide (t.data ≤ 31)) &&
    (t.type != TOKEN_TYPE_INVALID)

/-- The values of the Register and Number tokens of a line: those before the
next Newline, End-of-input or Opcode token. -/
def operandValues : List Token → List Nat
  | [] => []
  | t :: rest =>
    if t.type = TOKEN_TYPE_NEW_LINE ∨ t.type = TOKEN_TYPE_EOF ∨ t.type = TOKEN_TYPE_OPCODE then []
    else if t.type = TOKEN_TYPE_REGISTER ∨ t.type = TOKEN_TYPE_NUMBER then
      t.data :: operandValues rest
    else operandValues rest

/-- The instructions of a token sequence in source order: each Opcode token
with the operand values that follow it on its line. -/
def instructions : List Token → List (Nat × List Nat)
  | [] => []
  | t :: rest =>
    if t.type = TOKEN_TYPE_OPCODE then (t.data, operandValues rest) :: instructions rest
    else instructions rest

/-- The word of an instruction given as mnemonic index and operand values;
0 when the operands do not fit the shape. -/
def instructionWord (ins : Nat × List Nat) : Nat :=
  match instructionProperties.get? ins.1 with
  | none => 0
  | some properties =>
    match properties.type, ins.2 with
    | INSTR_TYPE_I, [rs, rt, imm] => CreateInstruction properties.opcode rs rt imm 0 0 0 0 INSTR_TYPE_I
    | INSTR_TYPE_J, [target] => CreateInstruction properties.opcode 0 0 0 target 0 0 0 INSTR_TYPE_J
    | INSTR_TYPE_R, [rs, rt, rd, shift, function] =>
      CreateInstruction properties.opcode rs rt 0 0 rd shift function INSTR_TYPE_R
    | _, _ => 0

/-- All ways in which tokens match `k_0 (Comma Whitespace? k_i)*` for the
kinds `k_0 .. k_{m-1}`: the values of the field tokens and the tokens that
remain after the last field. -/
def fieldMatches : List TokenType → List Token → List (List Nat × List Token)
  | [], _ => []
  | [k], toks =>
    match toks with
    | [] => []
    | t :: rest => if t.type = k then [([t.data], rest)] else []
  | k :: k2 :: ks, toks =>
    match toks with
    | t :: c :: after =>
      if t.type = k ∧ c.type = TOKEN_TYPE_COMMA then
        ((fieldMatches (k2 :: ks) after) ++
          (match after with
            | w :: after2 =>
              if w.type = TOKEN_TYPE_WHITESPACE then fieldMatches (k2 :: ks) after2 else []
            | [] => [])).map (fun m => (t.data :: m.1, m.2))
      else []
    | _ => []

/-- The variables `out[i..]` after the values `vals` were stored through
them in order. -/
def setFrom (out : List Nat) : Nat → List Nat → List Nat
  | _, [] => out
  | i, v :: vs => setFrom (out.set i v) (i + 1) vs

/-- The operands of an instruction fit the shape and the field widths of
its mnemonic: `LW` has `rs, rt <= 31` and `imm <= 0xFFFF`, `J` has
`target <= 0x3FFFFFF`. -/
def operandsFit (ins : Nat × List Nat) : Prop :=
  (ins.1 = OPCODE_LW ∧ ∃ rs rt imm, ins.2 = [rs, rt, imm] ∧ rs ≤ 31 ∧ rt ≤ 31 ∧ imm ≤ 0xFFFF) ∨
    (ins.1 = OPCODE_JUMP ∧ ∃ target, ins.2 = [target] ∧ target ≤ 0x3FFFFFF)

/-- The position and line counter of the lexer loop after `k` more tokens
were produced from position `p`, none of them Invalid or End-of-input. -/
def lexerStateFrom (text : List Nat) : Nat → Nat → Nat → Option (Nat × Nat)
  | 0, p, lineNumber => some (p, lineNumber)
  | k + 1, p, lineNumber =>
    let r := ParseToken p text freshToken lineNumber
    if r.ret = 1 then none
    else if r.token.type = TOKEN_TYPE_EOF then none
    else lexerStateFrom text k r.p r.lineNumber

/-- The source text `J <target>\nLW $<rs>, $<rt>, <imm>\n` with decimal
operands. -/
def sourceJLW (target rs rt imm : Nat) : List Nat :=
  cstr "J " ++ decimal target ++ cstr "\nLW $" ++ decimal rs ++ cstr ", $" ++ decimal rt ++
    cstr ", " ++ decimal imm ++ cstr "\n"

/-- The source text `LW $<rs>,$<rt>,<imm>`: no white space after the commas. -/
def sourceLWTight (rs rt imm : Nat) : List Nat :=
  cstr "LW $" ++ decimal rs ++ cstr ",$" ++ decimal rt ++ cstr "," ++ decimal imm

/-- The source text `LW $<rs>, $<rt>, <imm>`: one space after each comma. -/
def sourceLWSpaced (rs rt imm : Nat) : List Nat :=
  cstr "LW $" ++ decimal rs ++ cstr ", $" ++ decimal rt ++ cstr ", " ++ decimal imm

/-- The source text `LW$<rs>,$<rt>,<imm>`: no white space after the mnemonic. -/
def sourceLWGlued (rs rt imm : Nat) : List Nat :=
  cstr "LW$" ++ decimal rs ++ cstr ",$" ++ decimal rt ++ cstr "," ++ decimal imm

/-- The 1-based line of the character at `offset`: 1 plus the number of
newline characters before it. -/
def sourceLine (text : List Nat) (offset : Nat) : Nat := 1 + (text.take offset).count 10

/-- The source text `LW<run>$<rs>,$<rt>,<imm>`, where `run` stands between
the mnemonic and the first operand. -/
def sourceLWRun (run : List Nat) (rs rt imm : Nat) : List Nat :=
  cstr "LW" ++ run ++ cstr "$" ++ decimal rs ++ cstr ",$" ++ decimal rt ++ cstr "," ++ decimal imm

/-- The source text `J<run><target>`, where `run` stands between the
mnemonic and the operand. -/
def sourceJRun (run : List Nat) (target : Nat) : List Nat :=
  cstr "J" ++ run ++ decimal target

/-- The `types` array that the parser of a shape hands to `GetParams`: the
kinds of the operand tokens of an instruction of that shape, in order. -/
def shapeKinds : InstrType → List TokenType
  | INSTR_TYPE_I => [TOKEN_TYPE_REGISTER, TOKEN_TYPE_REGISTER, TOKEN_TYPE_NUMBER]
  | INSTR_TYPE_J => [TOKEN_TYPE_NUMBER]
  | INSTR_TYPE_R =>
    [TOKEN_TYPE_REGISTER, TOKEN_TYPE_REGISTER, TOKEN_TYPE_REGISTER, TOKEN_TYPE_NUMBER,
      TOKEN_TYPE_NUMBER]

/-- The last Opcode token of a token list together with the tokens that
stand behind it. -/
def afterLastOpcode : List Token → Option (Token × List Token)
  | [] => none
  | t :: rest =>
    match afterLastOpcode rest with
    | some r => some r
    | none => if t.type = TOKEN_TYPE_OPCODE then some (t, rest) else none

/-- For the tokens `pre` that stand before an Opcode token: the preceding
instruction, headed by the last Opcode token of `pre`, is followed by a
Whitespace token and the operand fields of its shape, and exactly one
Newline token stands between its last operand token and the end of `pre`. -/
def separatedByOneNewline (pre : List Token) : Bool :=
  match afterLastOpcode pre with
  | none => false
  | some (op, seg) =>
    match instructionProperties.get? op.data, seg with
    | some properties, w :: fields =>
      w.type == TOKEN_TYPE_WHITESPACE &&
        (fieldMatches (shapeKinds properties.type) fields).any
          (fun m =>
            match m.2 with
            | [nl] => nl.type == TOKEN_TYPE_NEW_LINE
            | _ => false)
    | _, _ => false

/-- Two texts that are equal, or that consist of a common part `a` followed
by the run `r1` in one and the run `r2` in the other and then by `post`. -/
def runVariants (r1 r2 post s1 s2 : List Nat) : Prop :=
  s1 = s2 ∨ ∃ a, s1 = a ++ (r1 ++ post) ∧ s2 = a ++ (r2 ++ post)

/-! ## Theorems -/

/-! ## The lexer reads only the text from `*p` on -/

theorem charAt_drop (text : List Nat) (p k : Nat) :
    charAt text (p + k) = charAt (text.drop p) k := by
  simp [charAt, List.getD_eq_getElem?_getD, List.getElem?_drop]

theorem charAt_eq_headD (text : List Nat) (p : Nat) :
    charAt text p = (text.drop p).headD 0 := by
  have h := charAt_drop text p 0
  rw [Nat.add_zero] at h
  rw [h]
  cases text.drop p <;> simp [charAt]

theorem skipWhitespace_shift (s : List Nat) (p : Nat) :
    skipWhitespace s p = p + skipWhitespace s 0 := by
  induction s generalizing p with
  | nil => simp [skipWhitespace]
  | cons c cs ih =>
    simp only [skipWhitespace]
    split
    · rw [ih (p + 1), ih (0 + 1)]; omega
    · rfl

theorem readOpcodeName_shift (text : List Nat) (k i p : Nat) (name : List Nat) :
    readOpcodeName text k i p name =
      (p + (readOpcodeName (text.drop p) k i 0 name).1,
        (readOpcodeName (text.drop p) k i 0 name).2) := by
  induction k generalizing i p name text with
  | zero => simp [readOpcodeName]
  | succ k ih =>
    simp only [readOpcodeName]
    have h0 : charAt (text.drop p) 0 = charAt text p := by
      rw [← charAt_drop, Nat.add_zero]
    rw [h0]
    split
    · rw [ih text (i + 1) (p + 1), ih (text.drop p) (i + 1) (0 + 1)]
      simp only [List.drop_drop, Nat.zero_add, Nat.add_assoc, Nat.add_comm 1 p]
    · rfl

theorem ParseTokenSwitch_shift (p : Nat) (text : List Nat) (token : Token) (line : Nat) :
    ParseTokenSwitch p text token line =
      ({ p := p + (ParseTokenSwitch 0 (text.drop p) token line).1.p,
         token := (ParseTokenSwitch 0 (text.drop p) token line).1.token },
        (ParseTokenSwitch 0 (text.drop p) token line).2) := by
  have h0 : charAt (text.drop p) 0 = charAt text p := by
    rw [← charAt_drop, Nat.add_zero]
  simp only [ParseTokenSwitch, h0]
  split_ifs
  · simp only [ParseRegisterToken, List.drop_drop, Nat.zero_add, Nat.add_comm 1 p]
    split_ifs <;> simp [Nat.add_assoc]
  · simp only [ParseWhitespaceToken, List.drop_zero]
    rw [skipWhitespace_shift]
  · simp only [ParseWhitespaceToken, List.drop_zero]
    rw [skipWhitespace_shift]
  · simp
  · simp
  · simp
  · simp only [ParseNumberToken, List.drop_zero]
    split_ifs <;> simp
  · simp only [ParseOpcodeToken, List.drop_zero]
    rw [readOpcodeName_shift]
    simp only []
    cases findOpcode _ _ _ <;> simp
  · simp

theorem ParseToken_shift (p : Nat) (text : List Nat) (token : Token) (line : Nat) :
    ParseToken p text token line =
      { ParseToken 0 (text.drop p) token line with
        p := p + (ParseToken 0 (text.drop p) token line).p } := by
  simp only [ParseToken]
  rw [ParseTokenSwitch_shift]

theorem TokenizeLoop_shift (text : List Nat) (fuel p line : Nat) :
    TokenizeLoop text fuel p line = TokenizeLoop (text.drop p) fuel 0 line := by
  induction fuel generalizing p line text with
  | zero => simp [TokenizeLoop]
  | succ f ih =>
    simp only [TokenizeLoop]
    rw [ParseToken_shift]
    simp only []
    rw [ih text, ih (text.drop p)]
    simp only [List.drop_drop]

/-! ## Bounds on what the lexer routines consume -/

theorem strtoulDigits_count (b : Nat) (s : List Nat) (acc n : Nat) :
    n ≤ (strtoulDigits b s acc n).2 ∧ (strtoulDigits b s acc n).2 ≤ n + s.length := by
  induction s generalizing acc n with
  | nil => simp [strtoulDigits]
  | cons c cs ih =>
    simp only [strtoulDigits]
    split
    · have := ih (acc * b + digitValue c) (n + 1)
      simp only [List.length_cons]
      omega
    · simp

theorem hexIntro_length (s : List Nat) (h : hexIntro s = true) : 3 ≤ s.length := by
  unfold hexIntro at h
  split at h
  · simp
  · simp at h

theorem strtoulBody_end_le (s : List Nat) (base : Nat) :
    (strtoulBody s base).2 ≤ s.length := by
  unfold strtoulBody
  simp only []
  by_cases hex : ((base == 0 || base == 16) && hexIntro s) = true
  · have hl := hexIntro_length s (by simp at hex; exact hex.2)
    have hc := (strtoulDigits_count 16 (List.drop 2 s) 0 0).2
    simp only [List.length_drop] at hc
    simp only [hex, if_true]
    split_ifs
    · exact Nat.zero_le _
    · simp only []; omega
  · have hc := fun b => (strtoulDigits_count b s 0 0).2
    simp only [hex, Bool.false_eq_true, if_false, List.drop_zero]
    split_ifs
    all_goals first
      | exact Nat.zero_le _
      | (simp only []
         have := hc 8
         have := hc 10
         have := hc base
         omega)

theorem strtoul_end_le (s : List Nat) (base : Nat) : (strtoul s base).2 ≤ s.length := by
  unfold strtoul
  simp only []
  generalize hws : (List.takeWhile isspace s).length = ws
  have h1 : ws ≤ s.length := hws ▸ (List.takeWhile_sublist _).length_le
  generalize hs1 : s.drop ws = s1
  have l1 : s1.length = s.length - ws := by rw [← hs1]; simp
  generalize hsgn : (if (s1.head? == some 45 || s1.head? == some 43) = true then 1 else 0) = sgn
  have h2 : sgn ≤ s1.length := by
    rw [← hsgn]
    cases s1 with
    | nil => simp
    | cons a t => simp only [List.length_cons]; split_ifs <;> omega
  have h3 := strtoulBody_end_le (s1.drop sgn) base
  simp only [List.length_drop] at h3
  split_ifs
  all_goals first
    | exact Nat.zero_le _
    | (simp only []; omega)

theorem skipWhitespace_le (s : List Nat) : skipWhitespace s 0 ≤ s.length := by
  induction s with
  | nil => simp [skipWhitespace]
  | cons c cs ih =>
    simp only [skipWhitespace, List.length_cons]
    split
    · rw [skipWhitespace_shift]; omega
    · omega

theorem charAt_ne_zero_lt (text : List Nat) (p : Nat) (h : charAt text p ≠ 0) :
    p < text.length := by
  by_contra hp
  apply h
  simp only [charAt, List.getD_eq_getElem?_getD]
  rw [List.getElem?_eq_none (by omega)]
  rfl

theorem readOpcodeName_bounds (text : List Nat) (k i p : Nat) (name : List Nat) :
    p ≤ (readOpcodeName text k i p name).1 ∧
      (p ≤ text.length → (readOpcodeName text k i p name).1 ≤ text.length) := by
  induction k generalizing i p name with
  | zero => simp [readOpcodeName]
  | succ k ih =>
    simp only [readOpcodeName]
    split
    · rename_i hv
      have hne : charAt text p ≠ 0 := by
        intro h0; rw [h0] at hv; simp [IsValidNameChar] at hv
      have hlt := charAt_ne_zero_lt text p hne
      have := ih (i + 1) (p + 1) (name.set i (charAt text p))
      constructor
      · omega
      · intro _; exact this.2 (by omega)
    · simp

theorem readOpcodeName_succ_valid (text : List Nat) (k i p : Nat) (name : List Nat)
    (h : IsValidNameChar (charAt text p) = true) :
    readOpcodeName text (k + 1) i p name =
      readOpcodeName text k (i + 1) (p + 1) (name.set i (charAt text p)) := by
  simp [readOpcodeName, h]

theorem findOpcode_lt (name : List Nat) (k i j : Nat) (h : findOpcode name k i = some j) :
    j < NUM_OPCODES := by
  induction k generalizing i with
  | zero => simp [findOpcode] at h
  | succ k ih =>
    simp only [findOpcode] at h
    split at h
    · simp at h
    · rename_i props hp
      split at h
      · simp only [Option.some.injEq] at h
        subst h
        have := List.get?_eq_some.1 hp
        obtain ⟨hlt, _⟩ := this
        simpa [instructionProperties, NUM_OPCODES] using hlt
      · exact ih _ h

/-- What one lexer step guarantees when it does not report an Invalid
token. -/
theorem ParseTokenSwitch_facts (p : Nat) (text : List Nat) (token : Token) (line : Nat)
    (h : (ParseTokenSwitch p text token line).1.token.type ≠ TOKEN_TYPE_INVALID) :
    tokenValid (ParseTokenSwitch p text token line).1.token = true ∧
      p < (ParseTokenSwitch p text token line).1.p ∧
      ((ParseTokenSwitch p text token line).1.token.type ≠ TOKEN_TYPE_EOF →
        (ParseTokenSwitch p text token line).1.p ≤ text.length) := by
  revert h
  simp only [ParseTokenSwitch]
  split_ifs with h1 h2 h3 h4 h5 h6 h7 h8
  · -- register
    have hp : p < text.length := charAt_ne_zero_lt text p (by omega)
    have he := strtoul_end_le (text.drop (p + 1)) 10
    simp only [List.length_drop] at he
    simp only [ParseRegisterToken]
    split_ifs with hr
    · simp
    · intro _
      simp only [not_or, not_lt] at hr
      refine ⟨?_, by simp only []; omega, fun _ => by simp only []; omega⟩
      simp [tokenValid]; omega
  · have hp : p < text.length := charAt_ne_zero_lt text p (by omega)
    have hh := charAt_eq_headD text p
    have hl := skipWhitespace_le (text.drop p)
    simp only [List.length_drop] at hl
    simp only [ParseWhitespaceToken]
    intro _
    rw [skipWhitespace_shift]
    refine ⟨by simp [tokenValid], ?_, fun _ => by omega⟩
    cases hd : text.drop p with
    | nil => rw [hd] at hh; simp at hh; omega
    | cons c cs =>
      rw [hd] at hh; simp at hh
      simp only [skipWhitespace]
      rw [← hh, h2]
      simp only [IsWhitespaceChar]
      rw [skipWhitespace_shift]
      simp
  · have hp : p < text.length := charAt_ne_zero_lt text p (by omega)
    have hh := charAt_eq_headD text p
    have hl := skipWhitespace_le (text.drop p)
    simp only [List.length_drop] at hl
    simp only [ParseWhitespaceToken]
    intro _
    rw [skipWhitespace_shift]
    refine ⟨by simp [tokenValid], ?_, fun _ => by omega⟩
    cases hd : text.drop p with
    | nil => rw [hd] at hh; simp at hh; omega
    | cons c cs =>
      rw [hd] at hh; simp at hh
      simp only [skipWhitespace]
      rw [← hh, h3]
      simp only [IsWhitespaceChar]
      rw [skipWhitespace_shift]
      simp
  · have hp : p < text.length := charAt_ne_zero_lt text p (by omega)
    intro _
    exact ⟨by simp [tokenValid], by simp, fun _ => by simp; omega⟩
  · have hp : p < text.length := charAt_ne_zero_lt text p (by omega)
    intro _
    exact ⟨by simp [tokenValid], by simp, fun _ => by simp; omega⟩
  · intro _
    exact ⟨by simp [tokenValid], by simp, fun h => by simp at h⟩
  · have hp : p < text.length := charAt_ne_zero_lt text p (by omega)
    have he := strtoul_end_le (text.drop p) 0
    simp only [List.length_drop] at he
    simp only [ParseNumberToken]
    split_ifs with hr
    · simp
    · intro _
      exact ⟨by simp [tokenValid], by simp; omega, fun _ => by simp; omega⟩
  · have hp : p < text.length := charAt_ne_zero_lt text p (by omega)
    have hb := readOpcodeName_bounds text MAX_OPCODE_LENGTH 0 p
      (List.replicate MAX_OPCODE_LENGTH 0)
    have hv : IsValidNameChar (charAt text p) = true := by
      simp only [IsValidNameChar]
      rcases h8 with h | h <;> simp [h]
    have hb1 : p + 1 ≤ (readOpcodeName text MAX_OPCODE_LENGTH 0 p
        (List.replicate MAX_OPCODE_LENGTH 0)).1 := by
      have h4 : MAX_OPCODE_LENGTH = 3 + 1 := rfl
      rw [h4, readOpcodeName_succ_valid _ _ _ _ _ hv]
      exact (readOpcodeName_bounds text _ _ _ _).1
    simp only [ParseOpcodeToken]
    cases hf : findOpcode _ _ _ with
    | none => simp
    | some j =>
      have hj := findOpcode_lt _ _ _ _ hf
      intro _
      refine ⟨by simp [tokenValid, hj], by simp only []; omega, fun _ => hb.2 (by omega)⟩
  · simp

/-! ## The token chain built by `Tokenize` -/

theorem ParseToken_ret (p : Nat) (text : List Nat) (token : Token) (line : Nat) :
    (ParseToken p text token line).ret =
      if (ParseToken p text token line).token.type = TOKEN_TYPE_INVALID then 1 else 0 := by
  simp [ParseToken]

theorem ParseToken_facts (p : Nat) (text : List Nat) (token : Token) (line : Nat)
    (h : (ParseToken p text token line).ret ≠ 1) :
    tokenValid (ParseToken p text token line).token = true ∧
      p < (ParseToken p text token line).p ∧
      ((ParseToken p text token line).token.type ≠ TOKEN_TYPE_EOF →
        (ParseToken p text token line).p ≤ text.length) := by
  rw [ParseToken_ret] at h
  have h' : (ParseToken p text token line).token.type ≠ TOKEN_TYPE_INVALID := by
    intro hc; rw [if_pos hc] at h; exact h rfl
  exact ParseTokenSwitch_facts p text _ line h'

theorem TokenizeLoop_total (text : List Nat) (fuel p line : Nat) (hp : p ≤ text.length)
    (hf : text.length + 1 ≤ fuel + p) : ∃ r, TokenizeLoop text fuel p line = some r := by
  induction fuel generalizing p line with
  | zero => omega
  | succ f ih =>
    simp only [TokenizeLoop]
    split_ifs with h1 h2
    · exact ⟨_, rfl⟩
    · exact ⟨_, rfl⟩
    · obtain ⟨_, hlt, hle⟩ := ParseToken_facts p text freshToken line h1
      obtain ⟨r, hr⟩ := ih (ParseToken p text freshToken line).p
        (ParseToken p text freshToken line).lineNumber (hle h2) (by omega)
      rw [hr]
      exact ⟨_, rfl⟩

theorem Tokenize_total (text : List Nat) : ∃ r, Tokenize text = some r :=
  TokenizeLoop_total text _ 0 1 (Nat.zero_le _) (by omega)

theorem TokenizeLoop_fuel (text : List Nat) (fuel k p line : Nat) (r : Nat × List Token)
    (h : TokenizeLoop text fuel p line = some r) :
    TokenizeLoop text (fuel + k) p line = some r := by
  induction fuel generalizing p line r with
  | zero => simp [TokenizeLoop] at h
  | succ f ih =>
    rw [Nat.add_right_comm]
    simp only [TokenizeLoop] at h ⊢
    split_ifs at h ⊢ with h1 h2
    · exact h
    · exact h
    · cases hr : TokenizeLoop text f (ParseToken p text freshToken line).p
          (ParseToken p text freshToken line).lineNumber with
      | none => rw [hr] at h; simp at h
      | some r' =>
        rw [hr] at h
        rw [ih _ _ _ hr]
        exact h

theorem wellFormed_cons (t : Token) (rest : List Token) (ht : t.type ≠ TOKEN_TYPE_EOF)
    (hr : wellFormed rest = true) : wellFormed (t :: rest) = true := by
  cases rest with
  | nil => simp [wellFormed] at hr
  | cons u rest => simp [wellFormed, ht, hr]

theorem TokenizeLoop_result (text : List Nat) (fuel p line res : Nat) (toks : List Token)
    (h : TokenizeLoop text fuel p line = some (res, toks)) : res = 0 ∨ res = 1 := by
  induction fuel generalizing p line res toks with
  | zero => simp [TokenizeLoop] at h
  | succ f ih =>
    simp only [TokenizeLoop] at h
    split_ifs at h with h1 h2
    · simp at h; omega
    · simp at h; omega
    · cases hr : TokenizeLoop text f (ParseToken p text freshToken line).p
          (ParseToken p text freshToken line).lineNumber with
      | none => rw [hr] at h; simp at h
      | some r' =>
        rw [hr] at h
        obtain ⟨res', rest⟩ := r'
        simp at h
        rw [← h.1]
        exact ih _ _ _ _ hr

/-- A chain built by a successful run of the lexer loop ends in its only
End-of-input token, and all its tokens carry values the lexer admits. -/
theorem TokenizeLoop_ok (text : List Nat) (fuel p line : Nat) (toks : List Token)
    (h : TokenizeLoop text fuel p line = some (0, toks)) :
    wellFormed toks = true ∧ toks.all tokenValid = true := by
  induction fuel generalizing p line toks with
  | zero => simp [TokenizeLoop] at h
  | succ f ih =>
    simp only [TokenizeLoop] at h
    split_ifs at h with h1 h2
    · simp at h
    · simp only [Option.some.injEq, Prod.mk.injEq, true_and] at h
      subst h
      obtain ⟨hv, _, _⟩ := ParseToken_facts p text freshToken line h1
      simp [wellFormed, h2, hv]
    · cases hr : TokenizeLoop text f (ParseToken p text freshToken line).p
          (ParseToken p text freshToken line).lineNumber with
      | none => rw [hr] at h; simp at h
      | some r' =>
        rw [hr] at h
        obtain ⟨res', rest⟩ := r'
        simp only [Option.some.injEq, Prod.mk.injEq] at h
        obtain ⟨h0, ht⟩ := h
        subst h0 ht
        obtain ⟨hw, ha⟩ := ih _ _ _ hr
        obtain ⟨hv, _, _⟩ := ParseToken_facts p text freshToken line h1
        exact ⟨wellFormed_cons _ _ h2 hw, by simp only [List.all_cons, hv, ha, Bool.and_self]⟩

theorem Tokenize_ok (text : List Nat) (toks : List Token) (h : Tokenize text = some (0, toks)) :
    wellFormed toks = true ∧ toks.all tokenValid = true :=
  TokenizeLoop_ok text _ 0 1 toks h

/-! ## Traversal of a well-formed chain -/

theorem wellFormed_tail (t : Token) (rest : List Token) (h : wellFormed (t :: rest) = true)
    (ht : t.type ≠ TOKEN_TYPE_EOF) : wellFormed rest = true := by
  cases rest with
  | nil => simp [wellFormed] at h; exact absurd h ht
  | cons u rest => simp [wellFormed] at h; exact h.2

theorem wellFormed_eof (t : Token) (rest : List Token) (h : wellFormed (t :: rest) = true)
    (ht : t.type = TOKEN_TYPE_EOF) : rest = [] := by
  cases rest with
  | nil => rfl
  | cons u rest => simp [wellFormed, ht] at h

theorem wellFormed_ne_nil (toks : List Token) (h : wellFormed toks = true) : toks ≠ [] := by
  intro hn; subst hn; simp [wellFormed] at h

theorem CountTokensLoop_opcode (toks : List Token) (count : Nat)
    (hw : wellFormed toks = true) (hc : count < 2 ^ 32) :
    CountTokensLoop TOKEN_TYPE_OPCODE toks count =
      some ((count + (instructions toks).length) % 2 ^ 32) := by
  induction toks generalizing count with
  | nil => simp [wellFormed] at hw
  | cons t rest ih =>
    simp only [CountTokensLoop, instructions]
    split_ifs with h1 h2 h3
    · rw [h1] at h2; simp at h2
    · have := wellFormed_eof t rest hw h1
      subst this
      simp [instructions]
      omega
    · rw [ih _ (wellFormed_tail t rest hw h1) (Nat.mod_lt _ (by norm_num))]
      simp only [List.length_cons]
      congr 1
      omega
    · exact ih _ (wellFormed_tail t rest hw h1) hc

theorem CountTokensOfType_opcode (toks : List Token) (hw : wellFormed toks = true) :
    CountTokensOfType toks TOKEN_TYPE_OPCODE = some ((instructions toks).length % 2 ^ 32) := by
  rw [CountTokensOfType, CountTokensLoop_opcode toks 0 hw (by norm_num), Nat.zero_add]

/-! ## Ordered-field-read against the pattern of fields -/

theorem fieldMatches_head_ne (k : TokenType) (ks : List TokenType) (t : Token)
    (rest : List Token) (h : t.type ≠ k) : fieldMatches (k :: ks) (t :: rest) = [] := by
  cases ks with
  | nil => simp [fieldMatches, h]
  | cons k2 ks =>
    cases rest with
    | nil => simp [fieldMatches]
    | cons c after => simp [fieldMatches, h]

theorem GetParamsLoop_spec (ks : List TokenType) :
    ∀ (before : List TokenType) (out : List Nat) (toks : List Token),
      ks ≠ [] → wellFormed toks = true →
      (∀ x ∈ ks, x ≠ TOKEN_TYPE_EOF) → (∀ x ∈ ks.tail, x ≠ TOKEN_TYPE_WHITESPACE) →
      (∃ o, GetParamsLoop (before.length + ks.length) (before ++ ks) ks.length before.length
            out toks = some ([], o) ∧ fieldMatches ks toks = []) ∨
        (∃ vals rest, GetParamsLoop (before.length + ks.length) (before ++ ks) ks.length
            before.length out toks = some (rest, setFrom out before.length vals) ∧
          fieldMatches ks toks = [(vals, rest)] ∧ wellFormed rest = true) := by
  induction ks with
  | nil => intro _ _ _ h; exact absurd rfl h
  | cons k ks ih =>
    intro before out toks _ hw hE hW
    have hget : (before ++ k :: ks).get? before.length = some k := by
      rw [List.get?_eq_getElem?, List.getElem?_append_right (le_refl _)]
      simp
    cases toks with
    | nil => simp [wellFormed] at hw
    | cons t next =>
      simp only [List.length_cons, GetParamsLoop, hget]
      by_cases ht : t.type = k
      · have htE : t.type ≠ TOKEN_TYPE_EOF := ht ▸ hE k (by simp)
        have hwn := wellFormed_tail t next hw htE
        simp only [ht, ne_eq, not_true_eq_false, if_false]
        cases ks with
        | nil =>
          right
          refine ⟨[t.data], next, ?_, ?_, hwn⟩
          · simp [GetParamsLoop, setFrom]
          · simp [fieldMatches, ht]
        | cons k2 ks2 =>
          have hlt : before.length < before.length + ((k2 :: ks2).length + 1) - 1 := by
            simp only [List.length_cons]; omega
          simp only [List.length_cons] at hlt
          simp only [List.length_cons, hlt, if_true]
          have hk2 : k2 ≠ TOKEN_TYPE_WHITESPACE := hW k2 (by simp)
          have hE2 : ∀ x ∈ k2 :: ks2, x ≠ TOKEN_TYPE_EOF := fun x hx =>
            hE x (List.mem_cons_of_mem _ hx)
          have hW2 : ∀ x ∈ (k2 :: ks2).tail, x ≠ TOKEN_TYPE_WHITESPACE := fun x hx =>
            hW x (List.mem_cons_of_mem _ hx)
          have hrw : before ++ k :: k2 :: ks2 = (before ++ [k]) ++ (k2 :: ks2) := by simp
          have hlen : before.length + (ks2.length + 1 + 1) =
              (before ++ [k]).length + (k2 :: ks2).length := by
            simp only [List.length_append, List.length_cons, List.length_nil]; omega
          have hi : before.length + 1 = (before ++ [k]).length := by simp
          cases next with
          | nil => simp [wellFormed] at hwn
          | cons c next2 =>
            by_cases hc : c.type = TOKEN_TYPE_COMMA
            · have hcE : c.type ≠ TOKEN_TYPE_EOF := by rw [hc]; decide
              have hwn2 := wellFormed_tail c next2 hwn hcE
              simp only [hc, ne_eq, not_true_eq_false, if_false]
              cases next2 with
              | nil => simp [wellFormed] at hwn2
              | cons w next3 =>
                simp only []
                by_cases hws : w.type = TOKEN_TYPE_WHITESPACE
                · have hwE : w.type ≠ TOKEN_TYPE_EOF := by rw [hws]; decide
                  have hwn3 := wellFormed_tail w next3 hwn2 hwE
                  have hnone : fieldMatches (k2 :: ks2) (w :: next3) = [] :=
                    fieldMatches_head_ne _ _ _ _ (by rw [hws]; exact fun h => hk2 h.symm)
                  simp only [hws, if_true]
                  rw [hrw, hlen, hi]
                  rcases ih (before ++ [k]) (out.set before.length t.data) next3 (by simp)
                    hwn3 hE2 hW2 with ⟨o, h1, h2⟩ | ⟨vals, rest, h1, h2, h3⟩
                  · left
                    refine ⟨o, ?_, ?_⟩
                    · simpa using h1
                    · simp [fieldMatches, ht, hc, hws, hnone, h2]
                  · right
                    refine ⟨t.data :: vals, rest, ?_, ?_, h3⟩
                    · simpa [setFrom] using h1
                    · simp [fieldMatches, ht, hc, hws, hnone, h2]
                · simp only [hws, if_false]
                  rw [hrw, hlen, hi]
                  rcases ih (before ++ [k]) (out.set before.length t.data) (w :: next3)
                    (by simp) hwn2 hE2 hW2 with ⟨o, h1, h2⟩ | ⟨vals, rest, h1, h2, h3⟩
                  · left
                    refine ⟨o, ?_, ?_⟩
                    · simpa using h1
                    · simp [fieldMatches, ht, hc, hws, h2]
                  · right
                    refine ⟨t.data :: vals, rest, ?_, ?_, h3⟩
                    · simpa [setFrom] using h1
                    · simp [fieldMatches, ht, hc, hws, h2]
            · left
              refine ⟨out.set before.length t.data, ?_, ?_⟩
              · simp [hc]
              · simp [fieldMatches, hc]
      · left
        refine ⟨out, ?_, fieldMatches_head_ne _ _ _ _ ht⟩
        simp [ht]

theorem operandValues_skip (t : Token) (rest : List Token)
    (h : t.type = TOKEN_TYPE_COMMA ∨ t.type = TOKEN_TYPE_WHITESPACE) :
    operandValues (t :: rest) = operandValues rest := by
  rcases h with h | h <;> simp [operandValues, h]

theorem operandValues_field (t : Token) (rest : List Token)
    (h : t.type = TOKEN_TYPE_REGISTER ∨ t.type = TOKEN_TYPE_NUMBER) :
    operandValues (t :: rest) = t.data :: operandValues rest := by
  rcases h with h | h <;> simp [operandValues, h]

theorem instructions_skip (t : Token) (rest : List Token) (h : t.type ≠ TOKEN_TYPE_OPCODE) :
    instructions (t :: rest) = instructions rest := by
  simp [instructions, h]

/-- A match of operand fields covers exactly the operand values of the line
read so far and contains no Opcode token. -/
theorem fieldMatches_mem (ks : List TokenType) :
    ∀ (toks : List Token) (vals : List Nat) (rest : List Token),
      (vals, rest) ∈ fieldMatches ks toks →
      (∀ k ∈ ks, k = TOKEN_TYPE_REGISTER ∨ k = TOKEN_TYPE_NUMBER) →
      toks.all tokenValid = true →
      operandValues toks = vals ++ operandValues rest ∧
        instructions toks = instructions rest ∧
        rest.all tokenValid = true ∧
        List.Forall₂ (fun k v => k = TOKEN_TYPE_REGISTER → v ≤ 31) ks vals := by
  induction ks with
  | nil => intro toks vals rest h; simp [fieldMatches] at h
  | cons k ks ih =>
    intro toks vals rest h hk hv
    have hk1 := hk k (by simp)
    cases ks with
    | nil =>
      cases toks with
      | nil => simp [fieldMatches] at h
      | cons t next =>
        simp only [fieldMatches] at h
        split_ifs at h with ht
        · simp only [List.mem_singleton, Prod.mk.injEq] at h
          obtain ⟨rfl, rfl⟩ := h
          simp only [List.all_cons, Bool.and_eq_true] at hv
          refine ⟨?_, ?_, hv.2, ?_⟩
          · rw [operandValues_field t _ (ht ▸ hk1)]; rfl
          · exact instructions_skip _ _ (by rcases hk1 with h | h <;> rw [ht, h] <;> decide)
          · refine List.Forall₂.cons ?_ List.Forall₂.nil
            intro hr
            have := hv.1
            simp [tokenValid, ht, hr] at this
            exact this
        · simp at h
    | cons k2 ks2 =>
      have hk' : ∀ x ∈ k2 :: ks2, x = TOKEN_TYPE_REGISTER ∨ x = TOKEN_TYPE_NUMBER :=
        fun x hx => hk x (List.mem_cons_of_mem _ hx)
      cases toks with
      | nil => simp [fieldMatches] at h
      | cons t next =>
        cases next with
        | nil => simp [fieldMatches] at h
        | cons c after =>
          simp only [fieldMatches] at h
          split_ifs at h with htc
          · obtain ⟨ht, hc⟩ := htc
            simp only [List.all_cons, Bool.and_eq_true] at hv
            obtain ⟨hvt, hvc, hva⟩ := hv
            simp only [List.mem_map, List.mem_append, Prod.mk.injEq] at h
            obtain ⟨m, hm, rfl, rfl⟩ := h
            have hnt : t.type ≠ TOKEN_TYPE_OPCODE := by
              rcases hk1 with h | h <;> rw [ht, h] <;> decide
            have hnc : c.type ≠ TOKEN_TYPE_OPCODE := by rw [hc]; decide
            have hreg : k = TOKEN_TYPE_REGISTER → t.data ≤ 31 := by
              intro hr
              simp [tokenValid, ht, hr] at hvt
              exact hvt
            rw [operandValues_field t _ (ht ▸ hk1), operandValues_skip c _ (Or.inl hc),
              instructions_skip _ _ hnt, instructions_skip _ _ hnc]
            rcases hm with hm | hm
            · obtain ⟨h1, h2, h3, h4⟩ := ih after m.1 m.2 hm hk' hva
              exact ⟨by rw [h1]; rfl, h2, h3, List.Forall₂.cons hreg h4⟩
            · cases after with
              | nil => simp at hm
              | cons w after2 =>
                simp only [] at hm
                split_ifs at hm with hw
                · simp only [List.all_cons, Bool.and_eq_true] at hva
                  obtain ⟨h1, h2, h3, h4⟩ := ih after2 m.1 m.2 hm hk' hva.2
                  have hnw : w.type ≠ TOKEN_TYPE_OPCODE := by rw [hw]; decide
                  rw [operandValues_skip w _ (Or.inr hw), instructions_skip _ _ hnw]
                  exact ⟨by rw [h1]; rfl, h2, h3, List.Forall₂.cons hreg h4⟩
                · simp at hm
          · simp at h

theorem fieldMatches_length (ks : List TokenType) :
    ∀ (toks : List Token) (vals : List Nat) (rest : List Token),
      (vals, rest) ∈ fieldMatches ks toks → vals.length = ks.length := by
  induction ks with
  | nil => intro toks vals rest h; simp [fieldMatches] at h
  | cons k ks ih =>
    intro toks vals rest h
    cases ks with
    | nil =>
      cases toks with
      | nil => simp [fieldMatches] at h
      | cons t next =>
        simp only [fieldMatches] at h
        split_ifs at h
        · simp only [List.mem_singleton, Prod.mk.injEq] at h
          rw [h.1]; rfl
        · simp at h
    | cons k2 ks2 =>
      cases toks with
      | nil => simp [fieldMatches] at h
      | cons t next =>
        cases next with
        | nil => simp [fieldMatches] at h
        | cons c after =>
          simp only [fieldMatches] at h
          split_ifs at h
          · simp only [List.mem_map, List.mem_append, Prod.mk.injEq] at h
            obtain ⟨m, hm, rfl, rfl⟩ := h
            rcases hm with hm | hm
            · simp [ih after m.1 m.2 hm]
            · cases after with
              | nil => simp at hm
              | cons w after2 =>
                simp only [] at hm
                split_ifs at hm
                · simp [ih after2 m.1 m.2 hm]
                · simp at hm
          · simp at h

theorem length_eq_three {α : Type} (l : List α) (h : l.length = 3) :
    ∃ a b c, l = [a, b, c] := by
  match l, h with
  | [a, b, c], _ => exact ⟨a, b, c, rfl⟩

theorem length_eq_five {α : Type} (l : List α) (h : l.length = 5) :
    ∃ a b c d e, l = [a, b, c, d, e] := by
  match l, h with
  | [a, b, c, d, e], _ => exact ⟨a, b, c, d, e, rfl⟩

/-- The parser `ParseITypeInstr` on a well-formed chain: it returns null when the
fields do not match, and otherwise according to the bound on `imm`. -/
theorem ParseITypeInstr_spec (a b c : Nat) (cur : Token) (toks : List Token)
    (hw : wellFormed toks = true) :
    (fieldMatches [TOKEN_TYPE_REGISTER, TOKEN_TYPE_REGISTER, TOKEN_TYPE_NUMBER] toks = [] ∧
        ∃ x, ParseITypeInstr a b c (cur :: toks) = some ([], x)) ∨
      (∃ rs rt imm rest,
        fieldMatches [TOKEN_TYPE_REGISTER, TOKEN_TYPE_REGISTER, TOKEN_TYPE_NUMBER] toks =
            [([rs, rt, imm], rest)] ∧
          wellFormed rest = true ∧
          ParseITypeInstr a b c (cur :: toks) =
            some (if imm > 0xFFFF then [] else rest, rs, rt, imm)) := by
  have h := GetParamsLoop_spec [TOKEN_TYPE_REGISTER, TOKEN_TYPE_REGISTER, TOKEN_TYPE_NUMBER]
    [] [a, b, c] toks (by simp) hw (by simp) (by simp)
  simp only [List.length_nil, List.length_cons, Nat.zero_add, List.nil_append] at h
  rcases h with ⟨o, h1, h2⟩ | ⟨vals, rest, h1, h2, h3⟩
  · left
    refine ⟨h2, ?_⟩
    simp only [ParseITypeInstr, GetParams, h1]
    simp
  · right
    have hl := fieldMatches_length _ toks vals rest (by rw [h2]; simp)
    obtain ⟨rs, rt, imm, rfl⟩ := length_eq_three vals hl
    refine ⟨rs, rt, imm, rest, h2, h3, ?_⟩
    have hne := wellFormed_ne_nil rest h3
    simp only [ParseITypeInstr, GetParams, h1]
    simp only [setFrom, List.set_cons_zero, List.set_cons_succ, hne, if_false, List.getD_cons_zero,
      List.getD_cons_succ]
    split_ifs <;> rfl

theorem ParseJTypeInstr_spec (a : Nat) (cur : Token) (toks : List Token)
    (hw : wellFormed toks = true) :
    (fieldMatches [TOKEN_TYPE_NUMBER] toks = [] ∧
        ∃ x, ParseJTypeInstr a (cur :: toks) = some ([], x)) ∨
      (∃ target rest,
        fieldMatches [TOKEN_TYPE_NUMBER] toks = [([target], rest)] ∧
          wellFormed rest = true ∧
          ParseJTypeInstr a (cur :: toks) =
            some (if target > 0x3FFFFFF then [] else rest, target)) := by
  have h := GetParamsLoop_spec [TOKEN_TYPE_NUMBER] [] [a] toks (by simp) hw (by simp) (by simp)
  simp only [List.length_nil, List.length_cons, Nat.zero_add, List.nil_append] at h
  rcases h with ⟨o, h1, h2⟩ | ⟨vals, rest, h1, h2, h3⟩
  · left
    refine ⟨h2, ?_⟩
    simp only [ParseJTypeInstr, GetParams, h1]
    simp
  · right
    have hl := fieldMatches_length _ toks vals rest (by rw [h2]; simp)
    obtain ⟨target, rfl⟩ := List.length_eq_one.1 hl
    refine ⟨target, rest, h2, h3, ?_⟩
    have hne := wellFormed_ne_nil rest h3
    simp only [ParseJTypeInstr, GetParams, h1]
    simp only [setFrom, List.set_cons_zero, hne, if_false, List.getD_cons_zero]
    split_ifs <;> rfl

theorem ParseRTypeInstr_spec (a b c d e : Nat) (cur : Token) (toks : List Token)
    (hw : wellFormed toks = true) :
    (fieldMatches [TOKEN_TYPE_REGISTER, TOKEN_TYPE_REGISTER, TOKEN_TYPE_REGISTER,
          TOKEN_TYPE_NUMBER, TOKEN_TYPE_NUMBER] toks = [] ∧
        ∃ x, ParseRTypeInstr a b c d e (cur :: toks) = some ([], x)) ∨
      (∃ rs rt rd shift function rest,
        fieldMatches [TOKEN_TYPE_REGISTER, TOKEN_TYPE_REGISTER, TOKEN_TYPE_REGISTER,
            TOKEN_TYPE_NUMBER, TOKEN_TYPE_NUMBER] toks =
            [([rs, rt, rd, shift, function], rest)] ∧
          wellFormed rest = true ∧
          ParseRTypeInstr a b c d e (cur :: toks) =
            some (if shift > 0x1F ∨ function > 0x3F then [] else rest,
              rs, rt, rd, shift, function)) := by
  have h := GetParamsLoop_spec [TOKEN_TYPE_REGISTER, TOKEN_TYPE_REGISTER, TOKEN_TYPE_REGISTER,
    TOKEN_TYPE_NUMBER, TOKEN_TYPE_NUMBER] [] [a, b, c, d, e] toks (by simp) hw (by simp)
    (by simp)
  simp only [List.length_nil, List.length_cons, Nat.zero_add, List.nil_append] at h
  rcases h with ⟨o, h1, h2⟩ | ⟨vals, rest, h1, h2, h3⟩
  · left
    refine ⟨h2, ?_⟩
    simp only [ParseRTypeInstr, GetParams, h1]
    simp
  · right
    have hl := fieldMatches_length _ toks vals rest (by rw [h2]; simp)
    obtain ⟨rs, rt, rd, shift, function, rfl⟩ := length_eq_five vals hl
    refine ⟨rs, rt, rd, shift, function, rest, h2, h3, ?_⟩
    have hne := wellFormed_ne_nil rest h3
    simp only [ParseRTypeInstr, GetParams, h1]
    simp only [setFrom, List.set_cons_zero, List.set_cons_succ, hne, if_false, List.getD_cons_zero,
      List.getD_cons_succ]
    split_ifs with h4 h5 h6 h7 <;> first | rfl | (exfalso; omega)

/-! ## One iteration of the driver -/

theorem instructionProperties_cases (d : Nat) (props : InstrProperties)
    (hp : instructionProperties.get? d = some props) :
    (d = 0 ∧ props = { type := INSTR_TYPE_J, opcode := 2, name := [74] }) ∨
      (d = 1 ∧ props = { type := INSTR_TYPE_I, opcode := 35, name := [76, 87] }) := by
  match d, hp with
  | 0, hp => left; simp [instructionProperties] at hp; exact ⟨rfl, hp.symm⟩
  | 1, hp => right; simp [instructionProperties] at hp; exact ⟨rfl, hp.symm⟩
  | n + 2, hp => simp [instructionProperties] at hp

theorem dispatchParser_spec (d : Nat) (props : InstrProperties)
    (hp : instructionProperties.get? d = some props) (w : Token) (next1 : List Token)
    (hw : wellFormed next1 = true) (hv : next1.all tokenValid = true) :
    ∃ tok v, dispatchParser props.type (w :: next1) = some (tok, v) ∧
      (tok ≠ [] → ∃ vals, wellFormed tok = true ∧ tok.all tokenValid = true ∧
        operandValues next1 = vals ++ operandValues tok ∧
        instructions next1 = instructions tok ∧
        CreateInstruction props.opcode v.rs v.rt v.imm v.target v.rd v.shift v.function
            props.type = instructionWord (d, vals) ∧
        operandsFit (d, vals)) := by
  rcases instructionProperties_cases d props hp with ⟨rfl, rfl⟩ | ⟨rfl, rfl⟩
  · rcases ParseJTypeInstr_spec 0 w next1 hw with ⟨_, x, hx⟩ | ⟨target, rest, hm, hwr, hx⟩
    · refine ⟨[], { target := x }, by simp [dispatchParser, hx], fun h => absurd rfl h⟩
    · by_cases ht : target > 0x3FFFFFF
      · refine ⟨[], { target := target }, by simp [dispatchParser, hx, ht],
          fun h => absurd rfl h⟩
      · refine ⟨rest, { target := target }, by simp [dispatchParser, hx, ht], fun _ => ?_⟩
        obtain ⟨h1, h2, h3, _⟩ := fieldMatches_mem _ next1 [target] rest (by rw [hm]; simp)
          (by simp) hv
        refine ⟨[target], hwr, h3, h1, h2, ?_, ?_⟩
        · simp [instructionWord, instructionProperties]
        · right
          exact ⟨rfl, target, rfl, by omega⟩
  · rcases ParseITypeInstr_spec 0 0 0 w next1 hw with
      ⟨_, x, hx⟩ | ⟨rs, rt, imm, rest, hm, hwr, hx⟩
    · refine ⟨[], { rs := x.1, rt := x.2.1, imm := x.2.2 }, by simp [dispatchParser, hx],
        fun h => absurd rfl h⟩
    · by_cases ht : imm > 0xFFFF
      · refine ⟨[], { rs := rs, rt := rt, imm := imm }, by simp [dispatchParser, hx, ht],
          fun h => absurd rfl h⟩
      · refine ⟨rest, { rs := rs, rt := rt, imm := imm }, by simp [dispatchParser, hx, ht],
          fun _ => ?_⟩
        obtain ⟨h1, h2, h3, h4⟩ := fieldMatches_mem _ next1 [rs, rt, imm] rest
          (by rw [hm]; simp) (by simp) hv
        refine ⟨[rs, rt, imm], hwr, h3, h1, h2, ?_, ?_⟩
        · simp [instructionWord, instructionProperties]
        · left
          simp only [List.forall₂_cons, true_implies] at h4
          exact ⟨rfl, rs, rt, imm, rfl, h4.1, h4.2.1, by omega⟩

theorem tokenValid_opcode (t : Token) (hv : tokenValid t = true)
    (ht : t.type = TOKEN_TYPE_OPCODE) :
    ∃ props, instructionProperties.get? t.data = some props := by
  simp [tokenValid, ht, NUM_OPCODES] at hv
  have h2 : t.data = 0 ∨ t.data = 1 := by omega
  rcases h2 with h | h <;> rw [h] <;> simp [instructionProperties]

/-- The words stored by a run of the driver loop that returns 0: the slots
`i .. i+k-1` hold the words of the next `k` instructions in source order,
every other slot is untouched, and the operands of these instructions fit
their shapes. -/
theorem GenerateLoop_spec (k : Nat) :
    ∀ (i : Nat) (token : List Token) (binary r : List Nat),
      wellFormed token = true → token.all tokenValid = true →
      k ≤ (instructions token).length → i + k ≤ binary.length →
      GenerateLoop k i token binary = some (0, r) →
      r = binary.take i ++ ((instructions token).take k).map instructionWord ++
          binary.drop (i + k) ∧
        ∀ ins ∈ (instructions token).take k, operandsFit ins := by
  induction k with
  | zero =>
    intro i token binary r _ _ _ _ h
    simp only [GenerateLoop, Option.some.injEq, Prod.mk.injEq, true_and] at h
    subst h
    simp
  | succ k ih =>
    intro i token binary r hw hv hk hi h
    cases token with
    | nil => simp [wellFormed] at hw
    | cons t next =>
      simp only [List.all_cons, Bool.and_eq_true] at hv
      obtain ⟨hvt, hvn⟩ := hv
      by_cases ht : t.type = TOKEN_TYPE_OPCODE
      · obtain ⟨props, hp⟩ := tokenValid_opcode t hvt ht
        have htE : t.type ≠ TOKEN_TYPE_EOF := by rw [ht]; decide
        have hwn := wellFormed_tail t next hw htE
        cases next with
        | nil => simp [wellFormed] at hwn
        | cons w next1 =>
          by_cases hws : w.type = TOKEN_TYPE_WHITESPACE
          · have hwE : w.type ≠ TOKEN_TYPE_EOF := by rw [hws]; decide
            have hwn1 := wellFormed_tail w next1 hwn hwE
            simp only [List.all_cons, Bool.and_eq_true] at hvn
            obtain ⟨tok, v, hd, hspec⟩ := dispatchParser_spec t.data props hp w next1 hwn1 hvn.2
            simp only [GenerateLoop, ht, hp, hws, hd, ne_eq, not_true_eq_false, if_false] at h
            cases tok with
            | nil => simp at h
            | cons e next2 =>
              obtain ⟨vals, hwt, hvt2, hov, hins, hword, hfit⟩ := hspec (by simp)
              simp only [] at h
              have hinsT : instructions (t :: w :: next1) =
                  (t.data, vals ++ operandValues (e :: next2)) :: instructions (e :: next2) := by
                rw [instructions, if_pos ht, operandValues_skip w _ (Or.inr hws), hov,
                  instructions_skip w _ (by rw [hws]; decide), hins]
              have hset : binary.set i (instructionWord (t.data, vals)) =
                  binary.take i ++ instructionWord (t.data, vals) :: binary.drop (i + 1) :=
                List.set_eq_take_cons_drop _ (by omega)
              rw [hword] at h
              by_cases he : e.type = TOKEN_TYPE_EOF
              · have hn2 := wellFormed_eof e next2 hwt he
                subst hn2
                simp only [he, if_true, Option.some.injEq, Prod.mk.injEq, true_and] at h
                subst h
                have hov0 : operandValues [e] = [] := by simp [operandValues, he]
                have hi0 : instructions [e] = [] := by simp [instructions, he]
                rw [hinsT, hov0, hi0, List.append_nil] at hk ⊢
                simp only [List.length_singleton] at hk
                have hk0 : k = 0 := by omega
                subst hk0
                refine ⟨?_, ?_⟩
                · rw [hset]; simp
                · intro ins hmem
                  simp only [Nat.zero_add, List.take_succ_cons, List.take_nil,
                    List.mem_singleton] at hmem
                  rw [hmem]; exact hfit
              · by_cases hnl : e.type = TOKEN_TYPE_NEW_LINE
                · simp only [he, hnl, if_false, ne_eq, not_true_eq_false] at h
                  have hov0 : operandValues (e :: next2) = [] := by simp [operandValues, hnl]
                  have hi0 : instructions (e :: next2) = instructions next2 :=
                    instructions_skip e _ (by rw [hnl]; decide)
                  rw [hinsT, hov0, hi0, List.append_nil] at hk ⊢
                  simp only [List.length_cons] at hk
                  simp only [List.all_cons, Bool.and_eq_true] at hvt2
                  obtain ⟨h1, h2⟩ := ih (i + 1) next2 _ r (wellFormed_tail e next2 hwt he)
                    hvt2.2 (by omega) (by rw [List.length_set]; omega) h
                  refine ⟨?_, ?_⟩
                  · rw [h1, List.take_succ_cons, List.map_cons]
                    have e1 : List.take (i + 1) (binary.set i (instructionWord (t.data, vals))) =
                        binary.take i ++ [instructionWord (t.data, vals)] := by
                      rw [hset, List.take_append_eq_append_take]
                      have : (List.take i binary).length = i := by
                        rw [List.length_take]; omega
                      simp [this, List.take_of_length_le]
                    have e2 : List.drop (i + 1 + k) (binary.set i (instructionWord (t.data, vals))) =
                        binary.drop (i + (k + 1)) := by
                      rw [List.drop_set_of_lt _ _ (by omega)]
                      congr 1; omega
                    rw [e1, e2]
                    simp
                  · intro ins hmem
                    simp only [List.take_succ_cons, List.mem_cons] at hmem
                    rcases hmem with rfl | hmem
                    · exact hfit
                    · exact h2 ins hmem
                · simp [he, hnl] at h
          · simp only [GenerateLoop, ht, hp, hws, ne_eq, not_true_eq_false, not_false_eq_true,
              if_true, if_false] at h
            simp at h
      · simp [GenerateLoop, ht] at h

/-- The driver loop never dereferences a null pointer on a well-formed chain
of lexed tokens, and returns 0 or 1. -/
theorem GenerateLoop_total (k : Nat) :
    ∀ (i : Nat) (token : List Token) (binary : List Nat),
      wellFormed token = true → token.all tokenValid = true →
      ∃ res r, GenerateLoop k i token binary = some (res, r) ∧ (res = 0 ∨ res = 1) := by
  induction k with
  | zero => intro i token binary _ _; exact ⟨0, binary, rfl, Or.inl rfl⟩
  | succ k ih =>
    intro i token binary hw hv
    cases token with
    | nil => simp [wellFormed] at hw
    | cons t next =>
      simp only [List.all_cons, Bool.and_eq_true] at hv
      obtain ⟨hvt, hvn⟩ := hv
      by_cases ht : t.type = TOKEN_TYPE_OPCODE
      · obtain ⟨props, hp⟩ := tokenValid_opcode t hvt ht
        have htE : t.type ≠ TOKEN_TYPE_EOF := by rw [ht]; decide
        have hwn := wellFormed_tail t next hw htE
        cases next with
        | nil => simp [wellFormed] at hwn
        | cons w next1 =>
          by_cases hws : w.type = TOKEN_TYPE_WHITESPACE
          · have hwE : w.type ≠ TOKEN_TYPE_EOF := by rw [hws]; decide
            have hwn1 := wellFormed_tail w next1 hwn hwE
            simp only [List.all_cons, Bool.and_eq_true] at hvn
            obtain ⟨tok, v, hd, hspec⟩ := dispatchParser_spec t.data props hp w next1 hwn1 hvn.2
            simp only [GenerateLoop, ht, hp, hws, hd, ne_eq, not_true_eq_false, if_false]
            cases tok with
            | nil => exact ⟨1, binary, rfl, Or.inr rfl⟩
            | cons e next2 =>
              obtain ⟨vals, hwt, hvt2, _⟩ := hspec (by simp)
              simp only []
              by_cases he : e.type = TOKEN_TYPE_EOF
              · simp only [he, if_true]
                exact ⟨0, _, rfl, Or.inl rfl⟩
              · by_cases hnl : e.type = TOKEN_TYPE_NEW_LINE
                · simp only [he, hnl, if_false, ne_eq, not_true_eq_false]
                  simp only [List.all_cons, Bool.and_eq_true] at hvt2
                  exact ih _ _ _ (wellFormed_tail e next2 hwt he) hvt2.2
                · simp only [he, hnl, if_false, ne_eq, not_false_eq_true, if_true]
                  exact ⟨1, _, rfl, Or.inr rfl⟩
          · refine ⟨1, binary, ?_, Or.inr rfl⟩
            simp only [GenerateLoop, ht, hp, hws, ne_eq, not_true_eq_false, not_false_eq_true,
              if_true, if_false]
      · exact ⟨1, binary, by simp [GenerateLoop, ht], Or.inr rfl⟩

/-! ## Bit fields of the encoded word -/

theorem CreateInstruction_I (op rs rt imm : Nat) (h1 : op < 64) (h2 : rs < 32) (h3 : rt < 32)
    (h4 : imm < 65536) :
    CreateInstruction op rs rt imm 0 0 0 0 INSTR_TYPE_I =
      op * 2 ^ 26 + rs * 2 ^ 21 + rt * 2 ^ 16 + imm := by
  simp only [CreateInstruction, Nat.shiftLeft_eq]
  rw [Nat.mod_eq_of_lt (by omega), Nat.mod_eq_of_lt (by omega), Nat.mod_eq_of_lt (by omega)]
  have e1 : rt * 2 ^ 16 + imm = rt * 2 ^ 16 ||| imm := by
    rw [Nat.mul_comm]; exact Nat.mul_add_lt_is_or (by omega) _
  have e2 : rs * 2 ^ 21 + (rt * 2 ^ 16 + imm) = rs * 2 ^ 21 ||| (rt * 2 ^ 16 + imm) := by
    rw [Nat.mul_comm]; exact Nat.mul_add_lt_is_or (by omega) _
  have e3 : op * 2 ^ 26 + (rs * 2 ^ 21 + (rt * 2 ^ 16 + imm)) =
      op * 2 ^ 26 ||| (rs * 2 ^ 21 + (rt * 2 ^ 16 + imm)) := by
    rw [Nat.mul_comm]; exact Nat.mul_add_lt_is_or (by omega) _
  rw [Nat.add_assoc, Nat.add_assoc, e3, e2, e1, Nat.lor_assoc, Nat.lor_assoc]

theorem CreateInstruction_J (op target : Nat) (h1 : op < 64) (h2 : target < 2 ^ 26) :
    CreateInstruction op 0 0 0 target 0 0 0 INSTR_TYPE_J = op * 2 ^ 26 + target := by
  simp only [CreateInstruction, Nat.shiftLeft_eq]
  rw [Nat.mod_eq_of_lt (by omega), Nat.mul_comm]
  exact (Nat.mul_add_lt_is_or h2 _).symm

theorem and_mask (x n : Nat) : x &&& (2 ^ n - 1) = x % 2 ^ n :=
  Nat.and_pow_two_sub_one_eq_mod x n

/-- Decoding the word of an instruction whose operands fit gives back the
opcode bits and the operands. -/
theorem instructionWord_decode (ins : Nat × List Nat) (h : operandsFit ins) :
    (ins.1 = OPCODE_LW ∧ ∃ rs rt imm, ins.2 = [rs, rt, imm] ∧
        instructionWord ins >>> 26 = 0b100011 ∧
        (instructionWord ins >>> 21) &&& 0x1F = rs ∧
        (instructionWord ins >>> 16) &&& 0x1F = rt ∧
        instructionWord ins &&& 0xFFFF = imm) ∨
      (ins.1 = OPCODE_JUMP ∧ ∃ target, ins.2 = [target] ∧
        instructionWord ins >>> 26 = 0b000010 ∧
        instructionWord ins &&& 0x3FFFFFF = target) := by
  obtain ⟨op, args⟩ := ins
  rcases h with ⟨h1, rs, rt, imm, h2, h3, h4, h5⟩ | ⟨h1, target, h2, h3⟩
  · left
    simp only at h1 h2
    subst h1 h2
    refine ⟨rfl, rs, rt, imm, rfl, ?_⟩
    have hw : instructionWord (OPCODE_LW, [rs, rt, imm]) =
        35 * 2 ^ 26 + rs * 2 ^ 21 + rt * 2 ^ 16 + imm := by
      simp only [instructionWord, OPCODE_LW, instructionProperties, List.get?]
      exact CreateInstruction_I 35 rs rt imm (by omega) (by omega) (by omega) (by omega)
    rw [hw]
    have m5 := and_mask ((35 * 2 ^ 26 + rs * 2 ^ 21 + rt * 2 ^ 16 + imm) >>> 21) 5
    have m5' := and_mask ((35 * 2 ^ 26 + rs * 2 ^ 21 + rt * 2 ^ 16 + imm) >>> 16) 5
    have m16 := and_mask (35 * 2 ^ 26 + rs * 2 ^ 21 + rt * 2 ^ 16 + imm) 16
    simp only [Nat.shiftRight_eq_div_pow] at m5 m5' m16 ⊢
    norm_num at m5 m5' m16 ⊢
    rw [m5, m5', m16]
    omega
  · right
    simp only at h1 h2
    subst h1 h2
    refine ⟨rfl, target, rfl, ?_⟩
    have hw : instructionWord (OPCODE_JUMP, [target]) = 2 * 2 ^ 26 + target := by
      simp only [instructionWord, OPCODE_JUMP, instructionProperties, List.get?]
      exact CreateInstruction_J 2 target (by omega) (by omega)
    rw [hw]
    have m26 := and_mask (2 * 2 ^ 26 + target) 26
    simp only [Nat.shiftRight_eq_div_pow] at m26 ⊢
    norm_num at m26 ⊢
    rw [m26]
    omega

theorem GenerateMachineCode_spec (text : List Nat) (toks : List Token) (n : Nat)
    (binary r : List Nat) (hlex : Tokenize text = some (0, toks))
    (hcount : CountTokensOfType toks TOKEN_TYPE_OPCODE = some n) (hb : binary.length = n)
    (hgen : GenerateMachineCode toks binary n = some (0, r)) :
    n ≤ (instructions toks).length ∧
      r = ((instructions toks).take n).map instructionWord ∧
      ∀ ins ∈ (instructions toks).take n, operandsFit ins := by
  obtain ⟨hw, hv⟩ := Tokenize_ok text toks hlex
  rw [CountTokensOfType_opcode toks hw] at hcount
  simp only [Option.some.injEq] at hcount
  have hn : n ≤ (instructions toks).length := by
    rw [← hcount]; exact Nat.mod_le _ _
  obtain ⟨h1, h2⟩ := GenerateLoop_spec n 0 toks binary r hw hv hn (by omega) hgen
  refine ⟨hn, ?_, h2⟩
  rw [h1, Nat.zero_add, List.drop_of_length_le (by omega)]
  simp

theorem IsValidNameChar_ne_zero (c : Nat) (h : IsValidNameChar c = true) : c ≠ 0 := by
  rintro rfl; simp [IsValidNameChar] at h

/-- The outcome of the two loops of `ParseOpcodeToken` in terms of the
maximal run of name characters at the start of the remaining text. -/
theorem opcode_run (s : List Nat) :
    findOpcode (readOpcodeName s MAX_OPCODE_LENGTH 0 0 (List.replicate MAX_OPCODE_LENGTH 0)).2
        NUM_OPCODES 0 =
      (if s.takeWhile IsValidNameChar = [74] then some 0
        else if s.takeWhile IsValidNameChar = [76, 87] then some 1 else none) ∧
    (readOpcodeName s MAX_OPCODE_LENGTH 0 0 (List.replicate MAX_OPCODE_LENGTH 0)).1 =
      min (s.takeWhile IsValidNameChar).length 4 := by
  simp only [MAX_OPCODE_LENGTH, NUM_OPCODES, List.replicate]
  have hz : IsValidNameChar 0 = false := by decide
  rcases s with _ | ⟨c0, s⟩
  · simp [readOpcodeName, charAt, hz, findOpcode, instructionProperties, strcmpEq]
  by_cases h0 : IsValidNameChar c0 = true
  swap
  · simp [readOpcodeName, charAt, h0, findOpcode, instructionProperties, strcmpEq]
  have n0 := IsValidNameChar_ne_zero c0 h0
  rcases s with _ | ⟨c1, s⟩
  · simp [readOpcodeName, charAt, h0, n0, hz, findOpcode, instructionProperties,
      strcmpEq]
  by_cases h1 : IsValidNameChar c1 = true
  swap
  · simp [readOpcodeName, charAt, h0, h1, n0, findOpcode, instructionProperties, strcmpEq]
  have n1 := IsValidNameChar_ne_zero c1 h1
  rcases s with _ | ⟨c2, s⟩
  · simp [readOpcodeName, charAt, h0, h1, n0, n1, hz, findOpcode,
      instructionProperties, strcmpEq]
  by_cases h2 : IsValidNameChar c2 = true
  swap
  · simp [readOpcodeName, charAt, h0, h1, h2, n0, n1, findOpcode, instructionProperties,
      strcmpEq]
  have n2 := IsValidNameChar_ne_zero c2 h2
  rcases s with _ | ⟨c3, s⟩
  · simp [readOpcodeName, charAt, h0, h1, h2, n0, n1, n2, hz, findOpcode,
      instructionProperties, strcmpEq]
  by_cases h3 : IsValidNameChar c3 = true
  swap
  · simp [readOpcodeName, charAt, h0, h1, h2, h3, n0, n1, n2, findOpcode,
      instructionProperties, strcmpEq]
  have n3 := IsValidNameChar_ne_zero c3 h3
  simp [readOpcodeName, charAt, h0, h1, h2, h3, n0, n1, n2, n3, findOpcode,
    instructionProperties, strcmpEq]

theorem ParseOpcodeToken_run (p : Nat) (text : List Nat) (token : Token) :
    ParseOpcodeToken p text token =
      (if (text.drop p).takeWhile IsValidNameChar = [74] then
          { p := p + 1, token := { token with type := TOKEN_TYPE_OPCODE, data := OPCODE_JUMP } }
        else if (text.drop p).takeWhile IsValidNameChar = [76, 87] then
          { p := p + 2, token := { token with type := TOKEN_TYPE_OPCODE, data := OPCODE_LW } }
        else
          { p := p + min ((text.drop p).takeWhile IsValidNameChar).length 4,
            token := { token with type := TOKEN_TYPE_INVALID } }) := by
  obtain ⟨h1, h2⟩ := opcode_run (text.drop p)
  simp only [ParseOpcodeToken]
  rw [readOpcodeName_shift]
  simp only [h1, h2]
  split_ifs with ha hb
  · simp [ha, OPCODE_JUMP]
  · simp [hb, OPCODE_LW]
  · rfl

theorem ParseToken_letter (p : Nat) (text : List Nat) (token : Token) (line : Nat)
    (hletter : (65 ≤ charAt text p ∧ charAt text p ≤ 90) ∨
      (97 ≤ charAt text p ∧ charAt text p ≤ 122)) :
    ParseToken p text token line =
      { ret := if (ParseOpcodeToken p text { token with lineNumber := line }).token.type =
            TOKEN_TYPE_INVALID then 1 else 0,
        p := (ParseOpcodeToken p text { token with lineNumber := line }).p,
        token := (ParseOpcodeToken p text { token with lineNumber := line }).token,
        lineNumber := line } := by
  simp only [ParseToken, ParseTokenSwitch]
  have h1 : charAt text p ≠ 36 := by omega
  have h2 : charAt text p ≠ 32 := by omega
  have h3 : charAt text p ≠ 9 := by omega
  have h4 : charAt text p ≠ 44 := by omega
  have h5 : charAt text p ≠ 10 := by omega
  have h6 : charAt text p ≠ 0 := by omega
  have h7 : ¬ (48 ≤ charAt text p ∧ charAt text p ≤ 57) := by omega
  simp only [h1, h2, h3, h4, h5, h6, h7, hletter, if_true, if_false]

/-! ## Reaching a position of the text -/

theorem Tokenize_of_fuel (text : List Nat) (fuel : Nat) (r : Nat × List Token)
    (h : TokenizeLoop text fuel 0 1 = some r) : Tokenize text = some r := by
  obtain ⟨r', hr'⟩ := Tokenize_total text
  rcases Nat.le_total fuel (text.length + 1) with hle | hle
  · have := TokenizeLoop_fuel text fuel (text.length + 1 - fuel) 0 1 r h
    rw [Nat.add_sub_cancel' hle] at this
    exact this
  · have := TokenizeLoop_fuel text (text.length + 1) (fuel - (text.length + 1)) 0 1 r' hr'
    rw [Nat.add_sub_cancel' hle, h] at this
    rw [hr', ← Option.some.inj this]

theorem TokenizeLoop_reach (text : List Nat) (k : Nat) :
    ∀ (p0 l0 p l : Nat), lexerStateFrom text k p0 l0 = some (p, l) →
      p0 + k ≤ p ∧ ∃ before : List Token, before.length = k ∧
        (∀ t ∈ before, t.type ≠ TOKEN_TYPE_INVALID ∧ t.type ≠ TOKEN_TYPE_EOF) ∧
        ∀ f res toks, TokenizeLoop text f p l = some (res, toks) →
          TokenizeLoop text (k + f) p0 l0 = some (res, before ++ toks) := by
  induction k with
  | zero =>
    intro p0 l0 p l h
    simp only [lexerStateFrom, Option.some.injEq, Prod.mk.injEq] at h
    obtain ⟨rfl, rfl⟩ := h
    exact ⟨le_refl _, [], rfl, by simp, fun f res toks hf => by simpa using hf⟩
  | succ k ih =>
    intro p0 l0 p l h
    simp only [lexerStateFrom] at h
    split_ifs at h with h1 h2
    obtain ⟨hle, before, hlen, hall, hloop⟩ := ih _ _ _ _ h
    obtain ⟨_, hlt, _⟩ := ParseToken_facts p0 text freshToken l0 h1
    have hinv : (ParseToken p0 text freshToken l0).token.type ≠ TOKEN_TYPE_INVALID := by
      intro hc
      rw [ParseToken_ret, if_pos hc] at h1
      exact h1 rfl
    refine ⟨by omega, (ParseToken p0 text freshToken l0).token :: before, by simp [hlen], ?_, ?_⟩
    · intro t ht
      rcases List.mem_cons.1 ht with rfl | ht
      · exact ⟨hinv, h2⟩
      · exact hall t ht
    · intro f res toks hf
      have := hloop f res toks hf
      rw [Nat.add_right_comm]
      simp only [TokenizeLoop, h1, h2, if_false, this, List.cons_append]

/-! ## Lexing decimal literals -/

theorem decimalDigits_head (f : Nat) :
    ∀ n, n < f → ∃ d ds, decimalDigits f n = d :: ds ∧ 48 ≤ d ∧ d ≤ 57 ∧ (0 < n → d ≠ 48) := by
  induction f with
  | zero => intro n h; omega
  | succ f ih =>
    intro n h
    simp only [decimalDigits]
    split_ifs with h10
    · exact ⟨48 + n, [], rfl, by omega, by omega, by omega⟩
    · obtain ⟨d, ds, hd, h1, h2, h3⟩ := ih (n / 10) (by omega)
      exact ⟨d, ds ++ [48 + n % 10], by rw [hd]; rfl, h1, h2, fun _ => h3 (by omega)⟩

theorem decimal_head (n : Nat) :
    ∃ d ds, decimal n = d :: ds ∧ 48 ≤ d ∧ d ≤ 57 ∧ (0 < n → d ≠ 48) :=
  decimalDigits_head (n + 1) n (by omega)

theorem strtoulDigits_decimal (f : Nat) :
    ∀ (n : Nat) (rest : List Nat) (acc k : Nat), n < f →
      strtoulDigits 10 (decimalDigits f n ++ rest) acc k =
        strtoulDigits 10 rest (acc * 10 ^ (decimalDigits f n).length + n)
          (k + (decimalDigits f n).length) := by
  induction f with
  | zero => intro n rest acc k h; omega
  | succ f ih =>
    intro n rest acc k h
    simp only [decimalDigits]
    split_ifs with h10
    · have hd : digitValue (48 + n) = n := by simp [digitValue]; omega
      simp [strtoulDigits, hd, h10]
    · have hd : digitValue (48 + n % 10) = n % 10 := by simp [digitValue]; omega
      have hlt : n % 10 < 10 := Nat.mod_lt _ (by omega)
      rw [List.append_assoc, ih (n / 10) _ acc k (by omega)]
      simp only [List.singleton_append, strtoulDigits, hd, hlt, if_true, List.length_append,
        List.length_singleton]
      congr 1
      · rw [Nat.pow_succ, ← Nat.mul_assoc, Nat.add_mul, Nat.add_assoc]
        congr 1
        omega

theorem strtoulDigits_stop (b : Nat) (rest : List Nat) (acc k : Nat)
    (h : b ≤ digitValue (rest.headD 0)) : strtoulDigits b rest acc k = (acc, k) := by
  cases rest with
  | nil => rfl
  | cons c cs =>
    simp only [List.headD_cons] at h
    simp only [strtoulDigits]
    rw [if_neg (by omega)]

theorem decimal_scan (n : Nat) (rest : List Nat) (h : 10 ≤ digitValue (rest.headD 0)) :
    strtoulDigits 10 (decimal n ++ rest) 0 0 = (n, (decimal n).length) := by
  rw [decimal, strtoulDigits_decimal (n + 1) n rest 0 0 (by omega),
    strtoulDigits_stop 10 rest _ _ h]
  simp

theorem isspace_digit (d : Nat) (h1 : 48 ≤ d) (_h2 : d ≤ 57) : isspace d = false := by
  simp [isspace]; omega

/-- The function `strtoul` in base 10 on a decimal literal followed by no further digit. -/
theorem strtoul_decimal_ten (n : Nat) (rest : List Nat) (hn : n ≤ ULONG_MAX)
    (h : 10 ≤ digitValue (rest.headD 0)) :
    strtoul (decimal n ++ rest) 10 = (n, (decimal n).length) := by
  obtain ⟨d, ds, hd, h1, h2, _⟩ := decimal_head n
  have hscan := decimal_scan n rest h
  have hlen : (decimal n).length ≠ 0 := by rw [hd]; simp
  rw [hd] at hscan ⊢
  have hsp := isspace_digit d h1 h2
  have e45 : d ≠ 45 := by omega
  have e43 : d ≠ 43 := by omega
  simp only [strtoul, List.cons_append, List.takeWhile_cons, hsp, Bool.false_eq_true, if_false,
    List.length_nil, List.drop_zero, List.head?_cons]
  have hneg : (some d == some 45) = false := by simp [e45]
  have hpos : (some d == some 43) = false := by simp [e43]
  simp only [hneg, hpos, Bool.or_false, Bool.false_eq_true, if_false, List.drop_zero]
  have hbody : strtoulBody (d :: (ds ++ rest)) 10 = (n, (d :: ds).length) := by
    simp only [strtoulBody]
    have : ((10 : Nat) == 0 || (10 : Nat) == 16) = false := by decide
    simp only [this, Bool.false_and, Bool.false_eq_true, if_false, List.drop_zero]
    have h0 : ((10 : Nat) == 0) = false := by decide
    simp only [h0, Bool.false_eq_true, if_false]
    rw [List.cons_append] at hscan
    rw [hscan]
    simp
  rw [hbody]
  simp only [hd] at hlen
  simp only [hlen, if_false]
  have : ¬ n > ULONG_MAX := by omega
  simp [this]

/-- The function `strtoul` in base 0 on a decimal literal followed by a character that
is neither a digit nor a letter. -/
theorem strtoul_decimal_zero (n : Nat) (rest : List Nat) (hn : n ≤ ULONG_MAX)
    (h : 36 ≤ digitValue (rest.headD 0)) :
    strtoul (decimal n ++ rest) 0 = (n, (decimal n).length) := by
  obtain ⟨d, ds, hd, h1, h2, h3⟩ := decimal_head n
  have hscan := decimal_scan n rest (by omega)
  have hlen : (decimal n).length ≠ 0 := by rw [hd]; simp
  have hsp := isspace_digit d h1 h2
  have e45 : d ≠ 45 := by omega
  have e43 : d ≠ 43 := by omega
  have hneg : (some d == some 45) = false := by simp [e45]
  have hpos : (some d == some 43) = false := by simp [e43]
  have hbody : strtoulBody (decimal n ++ rest) 0 = (n, (decimal n).length) := by
    by_cases hz : n = 0
    · subst hz
      have hdec : decimal 0 = [48] := by decide
      rw [hdec]
      simp only [List.singleton_append, List.length_singleton]
      have hx : hexIntro (48 :: rest) = false := by
        rcases rest with _ | ⟨c, _ | ⟨c2, r⟩⟩
        · rfl
        · rfl
        · simp only [List.headD_cons] at h
          simp only [hexIntro]
          have : (c == 120 || c == 88) = false := by
            by_contra hc
            simp only [Bool.not_eq_false, Bool.or_eq_true, beq_iff_eq] at hc
            rcases hc with rfl | rfl <;> simp [digitValue] at h
          simp [this]
      simp only [strtoulBody, hx, Bool.and_false, Bool.false_eq_true, if_false, List.drop_zero]
      have h8 : strtoulDigits 8 (48 :: rest) 0 0 = (0, 1) := by
        simp only [strtoulDigits]
        have : digitValue 48 < 8 := by decide
        simp only [this, if_true]
        rw [strtoulDigits_stop 8 rest _ _ (by omega)]
        rfl
      simp [h8]
    · have hd48 : d ≠ 48 := h3 (by omega)
      have hx : hexIntro (decimal n ++ rest) = false := by
        rw [hd]
        simp only [List.cons_append]
        unfold hexIntro
        split
        · rename_i heq
          simp only [List.cons.injEq] at heq
          exact absurd heq.1 hd48
        · rfl
      have hh : ((decimal n ++ rest).head? == some 48) = false := by
        rw [hd]; simp [hd48]
      simp only [strtoulBody, hx, Bool.and_false, Bool.false_eq_true, if_false, List.drop_zero,
        hh, beq_self_eq_true, if_true, hscan]
      simp [hlen]
  rw [hd] at hbody hlen ⊢
  simp only [strtoul, List.cons_append, List.takeWhile_cons, hsp, Bool.false_eq_true, if_false,
    List.length_nil, List.drop_zero, List.head?_cons, hneg, hpos, Bool.or_false]
  rw [List.cons_append] at hbody
  rw [hbody]
  simp only [hlen, if_false]
  have : ¬ n > ULONG_MAX := by omega
  simp [this]

/-! ## Steps of the lexer on the text that remains -/

theorem TokenizeLoop_step (s : List Nat) (f line : Nat) (out : ParseTokenOut)
    (hp : ParseToken 0 s freshToken line = out) (hret : out.ret = 0)
    (hne : out.token.type ≠ TOKEN_TYPE_EOF) :
    TokenizeLoop s (f + 1) 0 line =
      (TokenizeLoop (s.drop out.p) f 0 out.lineNumber).map
        (fun r => (r.1, out.token :: r.2)) := by
  simp only [TokenizeLoop, hp]
  rw [if_neg (by omega), if_neg hne, TokenizeLoop_shift]
  cases TokenizeLoop (s.drop out.p) f 0 out.lineNumber <;> rfl

theorem takeWhile_stop (s : List Nat) (h : IsValidNameChar (s.headD 0) = false) :
    s.takeWhile IsValidNameChar = [] := by
  cases s with
  | nil => rfl
  | cons c cs =>
    simp only [List.headD_cons] at h
    simp [List.takeWhile_cons, h]

theorem step_J (s : List Nat) (f line : Nat) (h : IsValidNameChar (s.headD 0) = false) :
    TokenizeLoop (74 :: s) (f + 1) 0 line =
      (TokenizeLoop s f 0 line).map
        (fun r => (r.1, { type := TOKEN_TYPE_OPCODE, lineNumber := line, data := OPCODE_JUMP } :: r.2)) := by
  have hrun : (List.drop 0 (74 :: s)).takeWhile IsValidNameChar = [74] := by
    have h74 : IsValidNameChar 74 = true := by decide
    simp [List.takeWhile_cons, h74, takeWhile_stop s h]
  have hp : ParseToken 0 (74 :: s) freshToken line =
      { ret := 0, p := 1,
        token := { type := TOKEN_TYPE_OPCODE, lineNumber := line, data := OPCODE_JUMP },
        lineNumber := line } := by
    rw [ParseToken_letter 0 _ _ _ (by simp [charAt]), ParseOpcodeToken_run, if_pos hrun]
    rfl
  exact TokenizeLoop_step _ f line _ hp rfl (by simp)

theorem step_LW (s : List Nat) (f line : Nat) (h : IsValidNameChar (s.headD 0) = false) :
    TokenizeLoop (76 :: 87 :: s) (f + 1) 0 line =
      (TokenizeLoop s f 0 line).map
        (fun r => (r.1, { type := TOKEN_TYPE_OPCODE, lineNumber := line, data := OPCODE_LW } :: r.2)) := by
  have hrun : (List.drop 0 (76 :: 87 :: s)).takeWhile IsValidNameChar = [76, 87] := by
    have h76 : IsValidNameChar 76 = true := by decide
    have h87 : IsValidNameChar 87 = true := by decide
    simp [List.takeWhile_cons, h76, h87, takeWhile_stop s h]
  have hne : (List.drop 0 (76 :: 87 :: s)).takeWhile IsValidNameChar ≠ [74] := by
    rw [hrun]; decide
  have hp : ParseToken 0 (76 :: 87 :: s) freshToken line =
      { ret := 0, p := 2,
        token := { type := TOKEN_TYPE_OPCODE, lineNumber := line, data := OPCODE_LW },
        lineNumber := line } := by
    rw [ParseToken_letter 0 _ _ _ (by simp [charAt]), ParseOpcodeToken_run, if_neg hne,
      if_pos hrun]
    rfl
  exact TokenizeLoop_step _ f line _ hp rfl (by simp)

theorem step_space (s : List Nat) (f line : Nat) (h : IsWhitespaceChar (s.headD 0) = false) :
    TokenizeLoop (32 :: s) (f + 1) 0 line =
      (TokenizeLoop s f 0 line).map
        (fun r => (r.1, { type := TOKEN_TYPE_WHITESPACE, lineNumber := line, data := 0 } :: r.2)) := by
  have hskip : skipWhitespace s 1 = 1 := by
    cases s with
    | nil => rfl
    | cons c cs =>
      simp only [List.headD_cons] at h
      simp [skipWhitespace, h]
  have hp : ParseToken 0 (32 :: s) freshToken line =
      { ret := 0, p := 1,
        token := { type := TOKEN_TYPE_WHITESPACE, lineNumber := line, data := 0 },
        lineNumber := line } := by
    simp [ParseToken, ParseTokenSwitch, charAt, ParseWhitespaceToken, skipWhitespace,
      IsWhitespaceChar, hskip, freshToken]
  exact TokenizeLoop_step _ f line _ hp rfl (by simp)

theorem step_comma (s : List Nat) (f line : Nat) :
    TokenizeLoop (44 :: s) (f + 1) 0 line =
      (TokenizeLoop s f 0 line).map
        (fun r => (r.1, { type := TOKEN_TYPE_COMMA, lineNumber := line, data := 0 } :: r.2)) :=
  TokenizeLoop_step _ f line
    { ret := 0, p := 1, token := { type := TOKEN_TYPE_COMMA, lineNumber := line, data := 0 },
      lineNumber := line } rfl rfl (by simp)

theorem step_newline (s : List Nat) (f line : Nat) :
    TokenizeLoop (10 :: s) (f + 1) 0 line =
      (TokenizeLoop s f 0 ((line + 1) % 2 ^ 32)).map
        (fun r => (r.1, { type := TOKEN_TYPE_NEW_LINE, lineNumber := line, data := 0 } :: r.2)) :=
  TokenizeLoop_step _ f line
    { ret := 0, p := 1, token := { type := TOKEN_TYPE_NEW_LINE, lineNumber := line, data := 0 },
      lineNumber := (line + 1) % 2 ^ 32 } rfl rfl (by simp)

theorem step_end (f line : Nat) :
    TokenizeLoop [] (f + 1) 0 line =
      some (0, [{ type := TOKEN_TYPE_EOF, lineNumber := line, data := 0 }]) := rfl

theorem step_number (n : Nat) (rest : List Nat) (f line : Nat) (hn : n < 2 ^ 32)
    (h : 36 ≤ digitValue (rest.headD 0)) :
    TokenizeLoop (decimal n ++ rest) (f + 1) 0 line =
      (TokenizeLoop rest f 0 line).map
        (fun r => (r.1, { type := TOKEN_TYPE_NUMBER, lineNumber := line, data := n } :: r.2)) := by
  obtain ⟨d, ds, hd, h1, h2, _⟩ := decimal_head n
  have hstr := strtoul_decimal_zero n rest (by simp only [ULONG_MAX]; omega) h
  have hlen : (decimal n).length ≠ 0 := by rw [hd]; simp
  have hc : charAt (decimal n ++ rest) 0 = d := by rw [hd]; simp [charAt]
  have hp : ParseToken 0 (decimal n ++ rest) freshToken line =
      { ret := 0, p := (decimal n).length,
        token := { type := TOKEN_TYPE_NUMBER, lineNumber := line, data := n },
        lineNumber := line } := by
    simp only [ParseToken, ParseTokenSwitch, hc]
    have e1 : d ≠ 36 := by omega
    have e2 : d ≠ 32 := by omega
    have e3 : d ≠ 9 := by omega
    have e4 : d ≠ 44 := by omega
    have e5 : d ≠ 10 := by omega
    have e6 : d ≠ 0 := by omega
    simp only [e1, e2, e3, e4, e5, e6, h1, h2, and_self, if_true, if_false, ParseNumberToken,
      List.drop_zero, hstr, hlen, Nat.mod_eq_of_lt hn, Nat.zero_add, freshToken]
    rfl
  have := TokenizeLoop_step _ f line _ hp rfl (by simp)
  simpa using this

theorem step_register (n : Nat) (rest : List Nat) (f line : Nat) (hn : n ≤ 31)
    (h : 10 ≤ digitValue (rest.headD 0)) :
    TokenizeLoop (36 :: (decimal n ++ rest)) (f + 1) 0 line =
      (TokenizeLoop rest f 0 line).map
        (fun r => (r.1, { type := TOKEN_TYPE_REGISTER, lineNumber := line, data := n } :: r.2)) := by
  have hstr := strtoul_decimal_ten n rest (by simp only [ULONG_MAX]; omega) h
  obtain ⟨d, ds, hd, _, _, _⟩ := decimal_head n
  have hlen : (decimal n).length ≠ 0 := by rw [hd]; simp
  have hmod : n % 2 ^ 32 = n := Nat.mod_eq_of_lt (by omega)
  have hp : ParseToken 0 (36 :: (decimal n ++ rest)) freshToken line =
      { ret := 0, p := 1 + (decimal n).length,
        token := { type := TOKEN_TYPE_REGISTER, lineNumber := line, data := n },
        lineNumber := line } := by
    have hc : charAt (36 :: (decimal n ++ rest)) 0 = 36 := rfl
    have hgt : ¬ (n > 31) := by omega
    simp only [ParseToken, ParseTokenSwitch, hc, if_true, ParseRegisterToken, Nat.zero_add,
      List.drop_succ_cons, List.drop_zero, hstr, hlen, hmod, hgt, or_self, if_false, freshToken]
    rfl
  have := TokenizeLoop_step _ f line _ hp rfl (by simp)
  simpa [Nat.add_comm 1] using this

/-! ## The character codes and literals used above -/

/-- The codes of the characters the lexer and `strtoul` compare with. -/
theorem character_codes :
    cstr "$ \t,\n09AZaz+-xXJLW\x0b\x0c\r" =
      [36, 32, 9, 44, 10, 48, 57, 65, 90, 97, 122, 43, 45, 120, 88, 74, 76, 87, 11, 12, 13] := by
  decide

theorem digitChar_toNat (d : Nat) (h : d < 10) : (Nat.digitChar d).toNat = 48 + d := by
  interval_cases d <;> rfl

theorem toDigitsCore_decimal (f : Nat) :
    ∀ (n : Nat) (ds : List Char), n < f →
      (Nat.toDigitsCore 10 f n ds).map Char.toNat = decimalDigits f n ++ ds.map Char.toNat := by
  induction f with
  | zero => intro n ds h; omega
  | succ f ih =>
    intro n ds h
    have hd := digitChar_toNat (n % 10) (Nat.mod_lt _ (by omega))
    simp only [Nat.toDigitsCore, decimalDigits]
    by_cases h10 : n < 10
    · have h0 : n / 10 = 0 := by omega
      have hm : n % 10 = n := by omega
      rw [hm] at hd
      simp [h0, h10, hd, hm]
    · have h0 : n / 10 ≠ 0 := by omega
      simp only [h0, h10, if_false]
      rw [ih (n / 10) _ (by omega)]
      simp [hd]

/-- The bytes of `decimal n` are those of the usual decimal rendering of
`n`. -/
theorem decimal_eq_repr (n : Nat) : decimal n = cstr (toString n) := by
  have h := toDigitsCore_decimal (n + 1) n [] (by omega)
  simp only [List.map_nil, List.append_nil] at h
  rw [decimal, ← h]
  rfl

theorem setFrom_append (vals : List Nat) :
    ∀ (before out : List Nat), vals.length ≤ out.length →
      setFrom (before ++ out) before.length vals = before ++ vals ++ out.drop vals.length := by
  induction vals with
  | nil => intro before out _; simp [setFrom]
  | cons v vs ih =>
    intro before out h
    cases out with
    | nil => simp at h
    | cons o out =>
      simp only [List.length_cons, Nat.add_le_add_iff_right] at h
      have hset : (before ++ o :: out).set before.length v = (before ++ [v]) ++ out := by
        rw [List.set_append_right _ _ (le_refl _)]
        simp
      have hlen : before.length + 1 = (before ++ [v]).length := by simp
      rw [setFrom, hset, hlen, ih (before ++ [v]) out h]
      simp

theorem setFrom_all (out vals : List Nat) (h : out.length = vals.length) :
    setFrom out 0 vals = vals := by
  have := setFrom_append vals [] out (by omega)
  simp only [List.nil_append, List.length_nil] at this
  rw [this, List.drop_of_length_le (by omega)]
  simp

/-! ## Claims on the pipeline -/

/-- C1 (round trip).  When `Tokenize` succeeds on a source text and
`GenerateMachineCode`, run as `Assemble` runs it on a buffer of `n` words for
the Opcode count `n`, returns 0, the buffer holds `n` words and the `i`-th
word decodes to the operands of the `i`-th instruction: for `LW` with operand
tokens `(rs, rt, imm)` the fields `word>>26`, `(word>>21)&0x1F`,
`(word>>16)&0x1F`, `word&0xFFFF` are `0b100011`, `rs`, `rt`, `imm`; for `J`
with operand token `target` the fields `word>>26`, `word&0x3FFFFFF` are
`0b000010`, `target`. -/
theorem round_trip (text : List Nat) (toks : List Token) (n : Nat) (binary0 binary : List Nat)
    (hlex : Tokenize text = some (0, toks))
    (hcount : CountTokensOfType toks TOKEN_TYPE_OPCODE = some n)
    (hbuf : binary0.length = n)
    (hgen : GenerateMachineCode toks binary0 n = some (0, binary)) :
    binary.length = n ∧
      ∀ i, i < n → ∃ ins word, (instructions toks)[i]? = some ins ∧ binary[i]? = some word ∧
        ((ins.1 = OPCODE_LW ∧ ∃ rs rt imm, ins.2 = [rs, rt, imm] ∧
            word >>> 26 = 0b100011 ∧ (word >>> 21) &&& 0x1F = rs ∧
            (word >>> 16) &&& 0x1F = rt ∧ word &&& 0xFFFF = imm) ∨
          (ins.1 = OPCODE_JUMP ∧ ∃ target, ins.2 = [target] ∧
            word >>> 26 = 0b000010 ∧ word &&& 0x3FFFFFF = target)) := by
  obtain ⟨hn, hr, hfit⟩ := GenerateMachineCode_spec text toks n binary0 binary hlex hcount hbuf hgen
  subst hr
  refine ⟨by simp [hn], fun i hi => ?_⟩
  have hi' : i < (instructions toks).length := by omega
  refine ⟨(instructions toks)[i], instructionWord (instructions toks)[i],
    List.getElem?_eq_getElem hi', ?_, ?_⟩
  · rw [List.getElem?_map, List.getElem?_take_of_lt hi, List.getElem?_eq_getElem hi']
    rfl
  · apply instructionWord_decode
    apply hfit
    rw [List.mem_iff_getElem?]
    exact ⟨i, by rw [List.getElem?_take_of_lt hi, List.getElem?_eq_getElem hi']⟩

theorem round_trip_witness :
    ([134217738, 2351038564] : List Nat).length = 2 ∧
      ∀ i, i < 2 → ∃ ins word,
        (instructions
          [⟨TOKEN_TYPE_OPCODE, 1, 0⟩, ⟨TOKEN_TYPE_WHITESPACE, 1, 0⟩, ⟨TOKEN_TYPE_NUMBER, 1, 10⟩,
            ⟨TOKEN_TYPE_NEW_LINE, 1, 0⟩, ⟨TOKEN_TYPE_OPCODE, 2, 1⟩,
            ⟨TOKEN_TYPE_WHITESPACE, 2, 0⟩, ⟨TOKEN_TYPE_REGISTER, 2, 1⟩,
            ⟨TOKEN_TYPE_COMMA, 2, 0⟩, ⟨TOKEN_TYPE_WHITESPACE, 2, 0⟩,
            ⟨TOKEN_TYPE_REGISTER, 2, 2⟩, ⟨TOKEN_TYPE_COMMA, 2, 0⟩,
            ⟨TOKEN_TYPE_WHITESPACE, 2, 0⟩, ⟨TOKEN_TYPE_NUMBER, 2, 100⟩,
            ⟨TOKEN_TYPE_NEW_LINE, 2, 0⟩, ⟨TOKEN_TYPE_EOF, 3, 0⟩])[i]? = some ins ∧
        ([134217738, 2351038564] : List Nat)[i]? = some word ∧
        ((ins.1 = OPCODE_LW ∧ ∃ rs rt imm, ins.2 = [rs, rt, imm] ∧
            word >>> 26 = 0b100011 ∧ (word >>> 21) &&& 0x1F = rs ∧
            (word >>> 16) &&& 0x1F = rt ∧ word &&& 0xFFFF = imm) ∨
          (ins.1 = OPCODE_JUMP ∧ ∃ target, ins.2 = [target] ∧
            word >>> 26 = 0b000010 ∧ word &&& 0x3FFFFFF = target)) :=
  round_trip (cstr "J 10\nLW $1, $2, 100\n") _ 2 [0, 0] [134217738, 2351038564]
    (by decide) (by decide) (by decide) (by decide)

/-- C7 (empty program).  When a source text lexes to a token sequence
without any Opcode token, `Assemble` returns exit status 1 from the
empty-program check and `WriteToDst` is not called. -/
theorem empty_program (text : List Nat) (toks : List Token)
    (hlex : Tokenize text = some (0, toks))
    (hnone : ∀ t ∈ toks, t.type ≠ TOKEN_TYPE_OPCODE) :
    Assemble text =
      some { status := 1, exit := AssembleExit.emptyProgram, written := none } := by
  have hw := (Tokenize_ok text toks hlex).1
  have hins : instructions toks = [] := by
    clear hw hlex
    induction toks with
    | nil => rfl
    | cons t rest ih =>
      rw [instructions_skip t rest (hnone t (by simp))]
      exact ih (fun u hu => hnone u (List.mem_cons_of_mem _ hu))
  simp only [Assemble, hlex, CountTokensOfType_opcode toks hw, hins]
  rfl

theorem empty_program_witness :
    Assemble (cstr "\n ,7 $3\n") =
      some { status := 1, exit := AssembleExit.emptyProgram, written := none } :=
  empty_program (cstr "\n ,7 $3\n")
    [⟨TOKEN_TYPE_NEW_LINE, 1, 0⟩, ⟨TOKEN_TYPE_WHITESPACE, 2, 0⟩, ⟨TOKEN_TYPE_COMMA, 2, 0⟩,
      ⟨TOKEN_TYPE_NUMBER, 2, 7⟩, ⟨TOKEN_TYPE_WHITESPACE, 2, 0⟩, ⟨TOKEN_TYPE_REGISTER, 2, 3⟩,
      ⟨TOKEN_TYPE_NEW_LINE, 2, 0⟩, ⟨TOKEN_TYPE_EOF, 3, 0⟩]
    (by decide) (by decide)

/-- C8 (no partial result).  `Assemble` returns on every source text; the
writer is called if and only if `Tokenize` returned 0, the Opcode count is
non-zero and `GenerateMachineCode` returned 0; when the writer is not called
the exit status is 1; a lexing failure and a failure of
`GenerateMachineCode`, whatever it had stored in the buffer, both give exit
status 1 with no word handed to the writer. -/
theorem assemble_all_or_nothing (text : List Nat) :
    ∃ out, Assemble text = some out ∧
      (out.written.isSome = true ↔
        ∃ toks n r, Tokenize text = some (0, toks) ∧
          CountTokensOfType toks TOKEN_TYPE_OPCODE = some n ∧ n ≠ 0 ∧
          GenerateMachineCode toks (List.replicate n 0) n = some (0, r)) ∧
      (out.written = none → out.status = 1) ∧
      (∀ toks, Tokenize text = some (1, toks) →
        out = { status := 1, exit := AssembleExit.lexFailed, written := none }) ∧
      (∀ toks n r, Tokenize text = some (0, toks) →
        CountTokensOfType toks TOKEN_TYPE_OPCODE = some n → n ≠ 0 →
        GenerateMachineCode toks (List.replicate n 0) n = some (1, r) →
        out = { status := 1, exit := AssembleExit.generateFailed, written := none }) := by
  obtain ⟨⟨res, toks⟩, hlex⟩ := Tokenize_total text
  rcases TokenizeLoop_result text _ 0 1 res toks hlex with rfl | rfl
  · obtain ⟨hw, hv⟩ := Tokenize_ok text toks hlex
    have hcount := CountTokensOfType_opcode toks hw
    by_cases hn : (instructions toks).length % 2 ^ 32 = 0
    · refine ⟨{ status := 1, exit := AssembleExit.emptyProgram, written := none }, ?_, ?_, ?_,
        ?_, ?_⟩
      · simp only [Assemble, hlex, hcount, hn]
        rfl
      · simp only [Option.isSome_none, Bool.false_eq_true, false_iff, not_exists, not_and]
        intro toks' n r h1 h2 h3
        rw [hlex] at h1
        simp only [Option.some.injEq, Prod.mk.injEq, true_and] at h1
        subst h1
        rw [hcount] at h2
        simp only [Option.some.injEq] at h2
        omega
      · intro _; rfl
      · intro toks' h1; rw [hlex] at h1; simp at h1
      · intro toks' n r h1 h2 h3
        rw [hlex] at h1
        simp only [Option.some.injEq, Prod.mk.injEq, true_and] at h1
        subst h1
        rw [hcount] at h2
        simp only [Option.some.injEq] at h2
        omega
    · obtain ⟨gres, r, hgen, hg01⟩ := GenerateLoop_total ((instructions toks).length % 2 ^ 32) 0
        toks (List.replicate ((instructions toks).length % 2 ^ 32) 0) hw hv
      rcases hg01 with rfl | rfl
      · refine ⟨{ status := 0, exit := AssembleExit.writerCalled,
                  written := some (r.take ((instructions toks).length % 2 ^ 32)) },
          ?_, ?_, ?_, ?_, ?_⟩
        · simp only [Assemble, hlex, hcount, hn, GenerateMachineCode, hgen, WriteToDst]
          rfl
        · simp only [Option.isSome_some, true_iff]
          exact ⟨toks, _, r, hlex, hcount, hn, hgen⟩
        · intro h; simp at h
        · intro toks' h1; rw [hlex] at h1; simp at h1
        · intro toks' n r' h1 h2 h3 h4
          rw [hlex] at h1
          simp only [Option.some.injEq, Prod.mk.injEq, true_and] at h1
          subst h1
          rw [hcount] at h2
          simp only [Option.some.injEq] at h2
          subst h2
          rw [GenerateMachineCode, hgen] at h4
          simp at h4
      · refine ⟨{ status := 1, exit := AssembleExit.generateFailed, written := none }, ?_, ?_,
          ?_, ?_, ?_⟩
        · simp only [Assemble, hlex, hcount, hn, GenerateMachineCode, hgen]
          rfl
        · simp only [Option.isSome_none, Bool.false_eq_true, false_iff, not_exists, not_and]
          intro toks' n r' h1 h2 h3 h4
          rw [hlex] at h1
          simp only [Option.some.injEq, Prod.mk.injEq, true_and] at h1
          subst h1
          rw [hcount] at h2
          simp only [Option.some.injEq] at h2
          subst h2
          rw [GenerateMachineCode, hgen] at h4
          simp at h4
        · intro _; rfl
        · intro toks' h1; rw [hlex] at h1; simp at h1
        · intro _ _ _ _ _ _ _; rfl
  · refine ⟨{ status := 1, exit := AssembleExit.lexFailed, written := none }, ?_, ?_, ?_, ?_, ?_⟩
    · simp [Assemble, hlex]
    · simp only [Option.isSome_none, Bool.false_eq_true, false_iff, not_exists, not_and]
      intro toks' n r h1
      rw [hlex] at h1; simp at h1
    · intro _; rfl
    · intro _ _; rfl
    · intro toks' n r h1
      rw [hlex] at h1; simp at h1

/-- C4 (field bounds at parse time).  On a well-formed chain whose tokens
after the cursor match the operand kinds and separators of the shape,
`ParseITypeInstr` returns null if and only if `imm > 0xFFFF`,
`ParseJTypeInstr` if and only if `target > 0x3FFFFFF`, and `ParseRTypeInstr`
if and only if `shift > 0x1F` or `function > 0x3F`; otherwise each returns
the token after the last operand together with the operand values. -/
theorem field_bounds (cur : Token) (toks : List Token)
    (hw : wellFormed (cur :: toks) = true) :
    (∀ rs rt imm rest a b c,
        ([rs, rt, imm], rest) ∈
          fieldMatches [TOKEN_TYPE_REGISTER, TOKEN_TYPE_REGISTER, TOKEN_TYPE_NUMBER] toks →
        ((∃ x, ParseITypeInstr a b c (cur :: toks) = some ([], x)) ↔ imm > 0xFFFF) ∧
          (imm ≤ 0xFFFF → rest ≠ [] ∧
            ParseITypeInstr a b c (cur :: toks) = some (rest, rs, rt, imm))) ∧
      (∀ target rest a,
        ([target], rest) ∈ fieldMatches [TOKEN_TYPE_NUMBER] toks →
        ((∃ x, ParseJTypeInstr a (cur :: toks) = some ([], x)) ↔ target > 0x3FFFFFF) ∧
          (target ≤ 0x3FFFFFF → rest ≠ [] ∧
            ParseJTypeInstr a (cur :: toks) = some (rest, target))) ∧
      (∀ rs rt rd shift function rest a b c d e,
        ([rs, rt, rd, shift, function], rest) ∈
          fieldMatches [TOKEN_TYPE_REGISTER, TOKEN_TYPE_REGISTER, TOKEN_TYPE_REGISTER,
            TOKEN_TYPE_NUMBER, TOKEN_TYPE_NUMBER] toks →
        ((∃ x, ParseRTypeInstr a b c d e (cur :: toks) = some ([], x)) ↔
            (shift > 0x1F ∨ function > 0x3F)) ∧
          (shift ≤ 0x1F → function ≤ 0x3F → rest ≠ [] ∧
            ParseRTypeInstr a b c d e (cur :: toks) =
              some (rest, rs, rt, rd, shift, function))) := by
  refine ⟨?_, ?_, ?_⟩
  · intro rs rt imm rest a b c hm
    have hne : toks ≠ [] := by rintro rfl; simp [fieldMatches] at hm
    have hct : cur.type ≠ TOKEN_TYPE_EOF := fun h => hne (wellFormed_eof cur toks hw h)
    rcases ParseITypeInstr_spec a b c cur toks (wellFormed_tail cur toks hw hct) with
      ⟨h0, _⟩ | ⟨rs', rt', imm', rest', h1, h2, h3⟩
    · rw [h0] at hm; simp at hm
    · rw [h1] at hm
      simp only [List.mem_singleton, Prod.mk.injEq, List.cons.injEq, and_true] at hm
      obtain ⟨⟨rfl, rfl, rfl⟩, rfl⟩ := hm
      have hr := wellFormed_ne_nil _ h2
      rw [h3]
      refine ⟨⟨?_, ?_⟩, ?_⟩
      · rintro ⟨x, hx⟩
        by_contra hle
        simp only [hle, if_false, Option.some.injEq, Prod.mk.injEq] at hx
        exact hr hx.1
      · intro hgt; exact ⟨_, by rw [if_pos hgt]⟩
      · intro hle
        exact ⟨hr, by rw [if_neg (by omega)]⟩
  · intro target rest a hm
    have hne : toks ≠ [] := by rintro rfl; simp [fieldMatches] at hm
    have hct : cur.type ≠ TOKEN_TYPE_EOF := fun h => hne (wellFormed_eof cur toks hw h)
    rcases ParseJTypeInstr_spec a cur toks (wellFormed_tail cur toks hw hct) with
      ⟨h0, _⟩ | ⟨target', rest', h1, h2, h3⟩
    · rw [h0] at hm; simp at hm
    · rw [h1] at hm
      simp only [List.mem_singleton, Prod.mk.injEq, List.cons.injEq, and_true] at hm
      obtain ⟨rfl, rfl⟩ := hm
      have hr := wellFormed_ne_nil _ h2
      rw [h3]
      refine ⟨⟨?_, ?_⟩, ?_⟩
      · rintro ⟨x, hx⟩
        by_contra hle
        simp only [hle, if_false, Option.some.injEq, Prod.mk.injEq] at hx
        exact hr hx.1
      · intro hgt; exact ⟨_, by rw [if_pos hgt]⟩
      · intro hle
        exact ⟨hr, by rw [if_neg (by omega)]⟩
  · intro rs rt rd shift function rest a b c d e hm
    have hne : toks ≠ [] := by rintro rfl; simp [fieldMatches] at hm
    have hct : cur.type ≠ TOKEN_TYPE_EOF := fun h => hne (wellFormed_eof cur toks hw h)
    rcases ParseRTypeInstr_spec a b c d e cur toks (wellFormed_tail cur toks hw hct) with
      ⟨h0, _⟩ | ⟨rs', rt', rd', shift', function', rest', h1, h2, h3⟩
    · rw [h0] at hm; simp at hm
    · rw [h1] at hm
      simp only [List.mem_singleton, Prod.mk.injEq, List.cons.injEq, and_true] at hm
      obtain ⟨⟨rfl, rfl, rfl, rfl, rfl⟩, rfl⟩ := hm
      have hr := wellFormed_ne_nil _ h2
      rw [h3]
      refine ⟨⟨?_, ?_⟩, ?_⟩
      · rintro ⟨x, hx⟩
        by_contra hle
        simp only [hle, if_false, Option.some.injEq, Prod.mk.injEq] at hx
        exact hr hx.1
      · intro hgt; exact ⟨_, by rw [if_pos hgt]⟩
      · intro h1 h2
        exact ⟨hr, by rw [if_neg (by omega)]⟩

/-- C6 (unknown mnemonic).  At a position the lexer reaches where the text
starts with a letter, `ParseOpcodeToken` yields an Opcode token if and only
if the maximal run of letter/digit characters there is exactly `J` (then
`OPCODE_JUMP`) or exactly `LW` (then `OPCODE_LW`); for every other run
`Tokenize` returns 1 and its chain ends with the Invalid token of that
position, so that no token is produced for the text after it. -/
theorem unknown_mnemonic (text : List Nat) (k p line : Nat) (token : Token)
    (hreach : lexerStateFrom text k 0 1 = some (p, line))
    (hletter : (65 ≤ charAt text p ∧ charAt text p ≤ 90) ∨
      (97 ≤ charAt text p ∧ charAt text p ≤ 122)) :
    ((ParseOpcodeToken p text token).token.type = TOKEN_TYPE_OPCODE ↔
        ((text.drop p).takeWhile IsValidNameChar = [74] ∨
          (text.drop p).takeWhile IsValidNameChar = [76, 87])) ∧
      ((text.drop p).takeWhile IsValidNameChar = [74] →
        ParseOpcodeToken p text token =
          { p := p + 1,
            token := { token with type := TOKEN_TYPE_OPCODE, data := OPCODE_JUMP } }) ∧
      ((text.drop p).takeWhile IsValidNameChar = [76, 87] →
        ParseOpcodeToken p text token =
          { p := p + 2,
            token := { token with type := TOKEN_TYPE_OPCODE, data := OPCODE_LW } }) ∧
      ((text.drop p).takeWhile IsValidNameChar ≠ [74] →
        (text.drop p).takeWhile IsValidNameChar ≠ [76, 87] →
        (ParseOpcodeToken p text token).token.type = TOKEN_TYPE_INVALID ∧
          ∃ before : List Token, before.length = k ∧
            (∀ t ∈ before, t.type ≠ TOKEN_TYPE_INVALID ∧ t.type ≠ TOKEN_TYPE_EOF) ∧
            Tokenize text =
              some (1, before ++ [{ type := TOKEN_TYPE_INVALID, lineNumber := line, data := 0 }])) := by
  have hrun := ParseOpcodeToken_run p text
  refine ⟨?_, ?_, ?_, ?_⟩
  · rw [hrun token]
    split_ifs with ha hb
    · simp [ha]
    · simp [hb]
    · simp [ha, hb]
  · intro ha
    rw [hrun token, if_pos ha]
  · intro hb
    have ha : (text.drop p).takeWhile IsValidNameChar ≠ [74] := by rw [hb]; decide
    rw [hrun token, if_neg ha, if_pos hb]
  · intro ha hb
    refine ⟨by rw [hrun token, if_neg ha, if_neg hb], ?_⟩
    obtain ⟨_, before, hlen, hall, hloop⟩ := TokenizeLoop_reach text k 0 1 p line hreach
    refine ⟨before, hlen, hall, ?_⟩
    apply Tokenize_of_fuel text (k + 1)
    apply hloop 1
    simp only [TokenizeLoop, ParseToken_letter p text freshToken line hletter, hrun,
      if_neg ha, if_neg hb, if_true]
    rfl

theorem unknown_mnemonic_witness :
    (ParseOpcodeToken 5 (cstr "J 10\nlw $1, $2, 3\n") freshToken).token.type =
        TOKEN_TYPE_INVALID ∧
      ∃ before : List Token, before.length = 4 ∧
        (∀ t ∈ before, t.type ≠ TOKEN_TYPE_INVALID ∧ t.type ≠ TOKEN_TYPE_EOF) ∧
        Tokenize (cstr "J 10\nlw $1, $2, 3\n") =
          some (1, before ++ [{ type := TOKEN_TYPE_INVALID, lineNumber := 2, data := 0 }]) :=
  (unknown_mnemonic (cstr "J 10\nlw $1, $2, 3\n") 4 5 2 freshToken (by decide)
    (by decide)).2.2.2 (by decide) (by decide)

/-- C5 (register bound), evaluated on the code: the register literal
`$4294967296` exceeds 31, yet `Tokenize` returns 0 and produces a Register
token of value 0 for it, because the `unsigned long` result of `strtoul` is
cut to `unsigned int` before it is compared with 31; and in `"$\n5 $32"` the
newline inside the first register literal is not counted, so that the
Invalid token of `$32`, which stands on line 2, carries line 1. -/
theorem register_bound_divergence :
    Tokenize (cstr "$4294967296") =
        some (0, [{ type := TOKEN_TYPE_REGISTER, lineNumber := 1, data := 0 },
          { type := TOKEN_TYPE_EOF, lineNumber := 1, data := 0 }]) ∧
      Tokenize (cstr "$\n5 $32") =
        some (1, [{ type := TOKEN_TYPE_REGISTER, lineNumber := 1, data := 5 },
          { type := TOKEN_TYPE_WHITESPACE, lineNumber := 1, data := 0 },
          { type := TOKEN_TYPE_INVALID, lineNumber := 1, data := 0 }]) := by
  constructor <;> decide

/-- C10 as stated fails: with the kinds Number, Whitespace the tokens
`5 , <space>` match the pattern of fields (the white space being the second
field) but `GetParams` returns null, and with the kind End-of-input the
sentinel matches but `GetParams` returns its null successor. -/
theorem ordered_field_read_counterexample :
    fieldMatches [TOKEN_TYPE_NUMBER, TOKEN_TYPE_WHITESPACE]
        [⟨TOKEN_TYPE_NUMBER, 1, 5⟩, ⟨TOKEN_TYPE_COMMA, 1, 0⟩, ⟨TOKEN_TYPE_WHITESPACE, 1, 0⟩,
          ⟨TOKEN_TYPE_EOF, 1, 0⟩] = [([5, 0], [⟨TOKEN_TYPE_EOF, 1, 0⟩])] ∧
      GetParams 2 [TOKEN_TYPE_NUMBER, TOKEN_TYPE_WHITESPACE] [0, 0]
        [⟨TOKEN_TYPE_WHITESPACE, 1, 0⟩, ⟨TOKEN_TYPE_NUMBER, 1, 5⟩, ⟨TOKEN_TYPE_COMMA, 1, 0⟩,
          ⟨TOKEN_TYPE_WHITESPACE, 1, 0⟩, ⟨TOKEN_TYPE_EOF, 1, 0⟩] = some ([], [5, 0]) ∧
      fieldMatches [TOKEN_TYPE_EOF] [⟨TOKEN_TYPE_EOF, 1, 0⟩] = [([0], [])] ∧
      GetParams 1 [TOKEN_TYPE_EOF] [7]
        [⟨TOKEN_TYPE_WHITESPACE, 1, 0⟩, ⟨TOKEN_TYPE_EOF, 1, 0⟩] = some ([], [0]) := by
  refine ⟨?_, ?_, ?_, ?_⟩ <;> decide

/-- C10 amended (ordered-field-read).  For a non-empty list of expected
kinds none of which is End-of-input and none after the first Whitespace, and
a cursor token followed by a well-formed chain, `GetParams` returns, and it
returns a non-null cursor if and only if the tokens after the cursor match
`k_0 (Comma Whitespace? k_i)*`; then the match is unique, the returned cursor
is the token after the last field token, and the variables hold the values
of the field tokens in order. -/
theorem ordered_field_read (kinds : List TokenType) (out : List Nat) (cur : Token)
    (toks : List Token) (hk : kinds ≠ [])
    (hE : ∀ k ∈ kinds, k ≠ TOKEN_TYPE_EOF)
    (hW : ∀ k ∈ kinds.tail, k ≠ TOKEN_TYPE_WHITESPACE)
    (hw : wellFormed toks = true) :
    ∃ rest o, GetParams kinds.length kinds out (cur :: toks) = some (rest, o) ∧
      (rest ≠ [] ↔ fieldMatches kinds toks ≠ []) ∧
      (rest ≠ [] → ∃ vals, fieldMatches kinds toks = [(vals, rest)] ∧
        o = setFrom out 0 vals ∧ (out.length = kinds.length → o = vals)) := by
  have h := GetParamsLoop_spec kinds [] out toks hk hw hE hW
  simp only [List.length_nil, Nat.zero_add, List.nil_append] at h
  rcases h with ⟨o, h1, h2⟩ | ⟨vals, rest, h1, h2, h3⟩
  · exact ⟨[], o, h1, by simp [h2], fun h => absurd rfl h⟩
  · have hne := wellFormed_ne_nil rest h3
    refine ⟨rest, _, h1, by simp [h2, hne], fun _ => ⟨vals, h2, rfl, fun hl => ?_⟩⟩
    have := fieldMatches_length kinds toks vals rest (by rw [h2]; simp)
    exact setFrom_all out vals (by omega)

theorem ordered_field_read_witness :
    ∃ rest o,
      GetParams 3 [TOKEN_TYPE_REGISTER, TOKEN_TYPE_REGISTER, TOKEN_TYPE_NUMBER] [0, 0, 0]
          [⟨TOKEN_TYPE_WHITESPACE, 1, 0⟩, ⟨TOKEN_TYPE_REGISTER, 1, 1⟩, ⟨TOKEN_TYPE_COMMA, 1, 0⟩,
            ⟨TOKEN_TYPE_WHITESPACE, 1, 0⟩, ⟨TOKEN_TYPE_REGISTER, 1, 2⟩,
            ⟨TOKEN_TYPE_COMMA, 1, 0⟩, ⟨TOKEN_TYPE_NUMBER, 1, 100⟩,
            ⟨TOKEN_TYPE_NEW_LINE, 1, 0⟩, ⟨TOKEN_TYPE_EOF, 2, 0⟩] = some (rest, o) ∧
        (rest ≠ [] ↔
          fieldMatches [TOKEN_TYPE_REGISTER, TOKEN_TYPE_REGISTER, TOKEN_TYPE_NUMBER]
            [⟨TOKEN_TYPE_REGISTER, 1, 1⟩, ⟨TOKEN_TYPE_COMMA, 1, 0⟩,
              ⟨TOKEN_TYPE_WHITESPACE, 1, 0⟩, ⟨TOKEN_TYPE_REGISTER, 1, 2⟩,
              ⟨TOKEN_TYPE_COMMA, 1, 0⟩, ⟨TOKEN_TYPE_NUMBER, 1, 100⟩,
              ⟨TOKEN_TYPE_NEW_LINE, 1, 0⟩, ⟨TOKEN_TYPE_EOF, 2, 0⟩] ≠ []) ∧
        (rest ≠ [] → ∃ vals,
          fieldMatches [TOKEN_TYPE_REGISTER, TOKEN_TYPE_REGISTER, TOKEN_TYPE_NUMBER]
            [⟨TOKEN_TYPE_REGISTER, 1, 1⟩, ⟨TOKEN_TYPE_COMMA, 1, 0⟩,
              ⟨TOKEN_TYPE_WHITESPACE, 1, 0⟩, ⟨TOKEN_TYPE_REGISTER, 1, 2⟩,
              ⟨TOKEN_TYPE_COMMA, 1, 0⟩, ⟨TOKEN_TYPE_NUMBER, 1, 100⟩,
              ⟨TOKEN_TYPE_NEW_LINE, 1, 0⟩, ⟨TOKEN_TYPE_EOF, 2, 0⟩] = [(vals, rest)] ∧
          o = setFrom [0, 0, 0] 0 vals ∧
          (([0, 0, 0] : List Nat).length =
              [TOKEN_TYPE_REGISTER, TOKEN_TYPE_REGISTER, TOKEN_TYPE_NUMBER].length →
            o = vals)) :=
  ordered_field_read [TOKEN_TYPE_REGISTER, TOKEN_TYPE_REGISTER, TOKEN_TYPE_NUMBER] [0, 0, 0]
    ⟨TOKEN_TYPE_WHITESPACE, 1, 0⟩ _ (by decide) (by decide) (by decide) (by decide)

theorem field_bounds_witness :
    ((∃ x, ParseITypeInstr 0 0 0
          [⟨TOKEN_TYPE_WHITESPACE, 1, 0⟩, ⟨TOKEN_TYPE_REGISTER, 1, 1⟩, ⟨TOKEN_TYPE_COMMA, 1, 0⟩,
            ⟨TOKEN_TYPE_REGISTER, 1, 2⟩, ⟨TOKEN_TYPE_COMMA, 1, 0⟩,
            ⟨TOKEN_TYPE_NUMBER, 1, 65536⟩, ⟨TOKEN_TYPE_EOF, 1, 0⟩] = some ([], x)) ↔
        65536 > 0xFFFF) ∧
      ((∃ x, ParseJTypeInstr 0
          [⟨TOKEN_TYPE_WHITESPACE, 1, 0⟩, ⟨TOKEN_TYPE_NUMBER, 1, 67108863⟩,
            ⟨TOKEN_TYPE_EOF, 1, 0⟩] = some ([], x)) ↔ 67108863 > 0x3FFFFFF) ∧
      ((∃ x, ParseRTypeInstr 0 0 0 0 0
          [⟨TOKEN_TYPE_WHITESPACE, 1, 0⟩, ⟨TOKEN_TYPE_REGISTER, 1, 1⟩, ⟨TOKEN_TYPE_COMMA, 1, 0⟩,
            ⟨TOKEN_TYPE_REGISTER, 1, 2⟩, ⟨TOKEN_TYPE_COMMA, 1, 0⟩,
            ⟨TOKEN_TYPE_REGISTER, 1, 3⟩, ⟨TOKEN_TYPE_COMMA, 1, 0⟩,
            ⟨TOKEN_TYPE_NUMBER, 1, 31⟩, ⟨TOKEN_TYPE_COMMA, 1, 0⟩,
            ⟨TOKEN_TYPE_NUMBER, 1, 64⟩, ⟨TOKEN_TYPE_EOF, 1, 0⟩] = some ([], x)) ↔
        (31 > 0x1F ∨ 64 > 0x3F)) :=
  ⟨((field_bounds ⟨TOKEN_TYPE_WHITESPACE, 1, 0⟩ _ (by decide)).1 1 2 65536
      [⟨TOKEN_TYPE_EOF, 1, 0⟩] 0 0 0 (by decide)).1,
    ((field_bounds ⟨TOKEN_TYPE_WHITESPACE, 1, 0⟩ _ (by decide)).2.1 67108863
      [⟨TOKEN_TYPE_EOF, 1, 0⟩] 0 (by decide)).1,
    ((field_bounds ⟨TOKEN_TYPE_WHITESPACE, 1, 0⟩ _ (by decide)).2.2 1 2 3 31 64
      [⟨TOKEN_TYPE_EOF, 1, 0⟩] 0 0 0 0 0 (by decide)).1⟩

/-! ## Assembling sources with arbitrary decimal operands -/

theorem decimal_headD (n : Nat) (rest : List Nat) :
    48 ≤ (decimal n ++ rest).headD 0 ∧ (decimal n ++ rest).headD 0 ≤ 57 := by
  obtain ⟨d, ds, hd, h1, h2, _⟩ := decimal_head n
  rw [hd]
  exact ⟨h1, h2⟩

theorem decimal_not_space (n : Nat) (rest : List Nat) :
    IsWhitespaceChar ((decimal n ++ rest).headD 0) = false := by
  obtain ⟨h1, _⟩ := decimal_headD n rest
  simp only [IsWhitespaceChar, Bool.or_eq_false_iff, beq_eq_false_iff_ne]
  omega

theorem Tokenize_sourceJLW (target rs rt imm : Nat) (ht : target ≤ 0x3FFFFFF) (hrs : rs ≤ 31)
    (hrt : rt ≤ 31) (himm : imm ≤ 0xFFFF) :
    Tokenize (sourceJLW target rs rt imm) =
      some (0,
        [⟨TOKEN_TYPE_OPCODE, 1, OPCODE_JUMP⟩, ⟨TOKEN_TYPE_WHITESPACE, 1, 0⟩,
          ⟨TOKEN_TYPE_NUMBER, 1, target⟩, ⟨TOKEN_TYPE_NEW_LINE, 1, 0⟩,
          ⟨TOKEN_TYPE_OPCODE, 2, OPCODE_LW⟩, ⟨TOKEN_TYPE_WHITESPACE, 2, 0⟩,
          ⟨TOKEN_TYPE_REGISTER, 2, rs⟩, ⟨TOKEN_TYPE_COMMA, 2, 0⟩, ⟨TOKEN_TYPE_WHITESPACE, 2, 0⟩,
          ⟨TOKEN_TYPE_REGISTER, 2, rt⟩, ⟨TOKEN_TYPE_COMMA, 2, 0⟩, ⟨TOKEN_TYPE_WHITESPACE, 2, 0⟩,
          ⟨TOKEN_TYPE_NUMBER, 2, imm⟩, ⟨TOKEN_TYPE_NEW_LINE, 2, 0⟩,
          ⟨TOKEN_TYPE_EOF, 3, 0⟩]) := by
  have c1 : cstr "J " = [74, 32] := by decide
  have c2 : cstr "\nLW $" = [10, 76, 87, 32, 36] := by decide
  have c3 : cstr ", $" = [44, 32, 36] := by decide
  have c4 : cstr ", " = [44, 32] := by decide
  have c5 : cstr "\n" = [10] := by decide
  have htext : sourceJLW target rs rt imm =
      74 :: 32 :: (decimal target ++ 10 :: 76 :: 87 :: 32 :: 36 :: (decimal rs ++
        44 :: 32 :: 36 :: (decimal rt ++ 44 :: 32 :: (decimal imm ++ 10 :: [])))) := by
    simp only [sourceJLW, c1, c2, c3, c4, c5, List.append_assoc, List.cons_append,
      List.nil_append]
  apply Tokenize_of_fuel _ 15
  rw [htext, step_J _ _ _ (by rfl), step_space _ _ _ (decimal_not_space _ _),
    step_number _ _ _ _ (by omega) (by simp [digitValue]), step_newline,
    step_LW _ _ _ (by rfl), step_space _ _ _ (by rfl),
    step_register _ _ _ _ hrs (by simp [digitValue]), step_comma, step_space _ _ _ (by rfl),
    step_register _ _ _ _ hrt (by simp [digitValue]), step_comma,
    step_space _ _ _ (decimal_not_space _ _),
    step_number _ _ _ _ (by omega) (by simp [digitValue]), step_newline, step_end]
  rfl

theorem word_J (target : Nat) :
    CreateInstruction 2 0 0 0 target 0 0 0 INSTR_TYPE_J = (0b000010 <<< 26) ||| target := by
  simp [CreateInstruction]

theorem word_LW (rs rt imm : Nat) (hrs : rs ≤ 31) (hrt : rt ≤ 31) :
    CreateInstruction 35 rs rt imm 0 0 0 0 INSTR_TYPE_I =
      (0b100011 <<< 26) ||| (rs <<< 21) ||| (rt <<< 16) ||| imm := by
  simp only [CreateInstruction]
  rw [Nat.mod_eq_of_lt (by decide : 35 <<< 26 < 2 ^ 32),
    Nat.mod_eq_of_lt (by rw [Nat.shiftLeft_eq]; omega : rs <<< 21 < 2 ^ 32),
    Nat.mod_eq_of_lt (by rw [Nat.shiftLeft_eq]; omega : rt <<< 16 < 2 ^ 32)]

theorem two_instruction_words (target rs rt imm : Nat) (ht : target ≤ 0x3FFFFFF)
    (himm : imm ≤ 0xFFFF) :
    GenerateMachineCode
        [⟨TOKEN_TYPE_OPCODE, 1, OPCODE_JUMP⟩, ⟨TOKEN_TYPE_WHITESPACE, 1, 0⟩,
          ⟨TOKEN_TYPE_NUMBER, 1, target⟩, ⟨TOKEN_TYPE_NEW_LINE, 1, 0⟩,
          ⟨TOKEN_TYPE_OPCODE, 2, OPCODE_LW⟩, ⟨TOKEN_TYPE_WHITESPACE, 2, 0⟩,
          ⟨TOKEN_TYPE_REGISTER, 2, rs⟩, ⟨TOKEN_TYPE_COMMA, 2, 0⟩, ⟨TOKEN_TYPE_WHITESPACE, 2, 0⟩,
          ⟨TOKEN_TYPE_REGISTER, 2, rt⟩, ⟨TOKEN_TYPE_COMMA, 2, 0⟩, ⟨TOKEN_TYPE_WHITESPACE, 2, 0⟩,
          ⟨TOKEN_TYPE_NUMBER, 2, imm⟩, ⟨TOKEN_TYPE_NEW_LINE, 2, 0⟩,
          ⟨TOKEN_TYPE_EOF, 3, 0⟩] (List.replicate 2 0) 2 =
      some (0, [CreateInstruction 2 0 0 0 target 0 0 0 INSTR_TYPE_J,
        CreateInstruction 35 rs rt imm 0 0 0 0 INSTR_TYPE_I]) := by
  have hgt : ¬ (65535 < imm) := by omega
  have hgt2 : ¬ (67108863 < target) := by omega
  simp [GenerateMachineCode, GenerateLoop, instructionProperties, OPCODE_LW, OPCODE_JUMP,
    dispatchParser, ParseITypeInstr, ParseJTypeInstr, GetParams, GetParamsLoop, hgt, hgt2]

/-- C2 (two-instruction scenario).  For all operands within their bounds,
the source `J <target>\nLW $<rs>, $<rt>, <imm>\n` with decimal operands is
accepted by `Tokenize`, has Opcode count 2, `GenerateMachineCode` returns 0,
and the output is the two words `(0b000010<<26)|target` and
`(0b100011<<26)|(rs<<21)|(rt<<16)|imm`, which `Assemble` hands to the
writer with exit status 0. -/
theorem two_instruction_scenario (target rs rt imm : Nat) (ht : target ≤ 0x3FFFFFF)
    (hrs : rs ≤ 31) (hrt : rt ≤ 31) (himm : imm ≤ 0xFFFF) :
    ∃ toks, Tokenize (sourceJLW target rs rt imm) = some (0, toks) ∧
      CountTokensOfType toks TOKEN_TYPE_OPCODE = some 2 ∧
      GenerateMachineCode toks (List.replicate 2 0) 2 =
        some (0, [(0b000010 <<< 26) ||| target,
          (0b100011 <<< 26) ||| (rs <<< 21) ||| (rt <<< 16) ||| imm]) ∧
      Assemble (sourceJLW target rs rt imm) =
        some { status := 0, exit := AssembleExit.writerCalled,
               written := some [(0b000010 <<< 26) ||| target,
                 (0b100011 <<< 26) ||| (rs <<< 21) ||| (rt <<< 16) ||| imm] } := by
  have hlex := Tokenize_sourceJLW target rs rt imm ht hrs hrt himm
  have hgen := two_instruction_words target rs rt imm ht himm
  rw [word_J, word_LW rs rt imm hrs hrt] at hgen
  refine ⟨_, hlex, rfl, hgen, ?_⟩
  have hcount : CountTokensOfType
      [⟨TOKEN_TYPE_OPCODE, 1, OPCODE_JUMP⟩, ⟨TOKEN_TYPE_WHITESPACE, 1, 0⟩,
        ⟨TOKEN_TYPE_NUMBER, 1, target⟩, ⟨TOKEN_TYPE_NEW_LINE, 1, 0⟩,
        ⟨TOKEN_TYPE_OPCODE, 2, OPCODE_LW⟩, ⟨TOKEN_TYPE_WHITESPACE, 2, 0⟩,
        ⟨TOKEN_TYPE_REGISTER, 2, rs⟩, ⟨TOKEN_TYPE_COMMA, 2, 0⟩, ⟨TOKEN_TYPE_WHITESPACE, 2, 0⟩,
        ⟨TOKEN_TYPE_REGISTER, 2, rt⟩, ⟨TOKEN_TYPE_COMMA, 2, 0⟩, ⟨TOKEN_TYPE_WHITESPACE, 2, 0⟩,
        ⟨TOKEN_TYPE_NUMBER, 2, imm⟩, ⟨TOKEN_TYPE_NEW_LINE, 2, 0⟩,
        ⟨TOKEN_TYPE_EOF, 3, 0⟩] TOKEN_TYPE_OPCODE = some 2 := rfl
  simp only [Assemble, hlex, hcount, hgen]
  rfl

theorem two_instruction_scenario_witness :
    sourceJLW 10 1 2 100 = cstr "J 10\nLW $1, $2, 100\n" ∧
      ∃ toks, Tokenize (cstr "J 10\nLW $1, $2, 100\n") = some (0, toks) ∧
        CountTokensOfType toks TOKEN_TYPE_OPCODE = some 2 ∧
        GenerateMachineCode toks (List.replicate 2 0) 2 = some (0, [0x0800000A, 0x8C220064]) ∧
        Assemble (cstr "J 10\nLW $1, $2, 100\n") =
          some { status := 0, exit := AssembleExit.writerCalled,
                 written := some [0x0800000A, 0x8C220064] } :=
  ⟨by decide, two_instruction_scenario 10 1 2 100 (by decide) (by decide) (by decide)
    (by decide)⟩

theorem Tokenize_sourceLWTight (rs rt imm : Nat) (hrs : rs ≤ 31) (hrt : rt ≤ 31)
    (himm : imm ≤ 0xFFFF) :
    Tokenize (sourceLWTight rs rt imm) =
      some (0,
        [⟨TOKEN_TYPE_OPCODE, 1, OPCODE_LW⟩, ⟨TOKEN_TYPE_WHITESPACE, 1, 0⟩,
          ⟨TOKEN_TYPE_REGISTER, 1, rs⟩, ⟨TOKEN_TYPE_COMMA, 1, 0⟩,
          ⟨TOKEN_TYPE_REGISTER, 1, rt⟩, ⟨TOKEN_TYPE_COMMA, 1, 0⟩,
          ⟨TOKEN_TYPE_NUMBER, 1, imm⟩, ⟨TOKEN_TYPE_EOF, 1, 0⟩]) := by
  have c1 : cstr "LW $" = [76, 87, 32, 36] := by decide
  have c2 : cstr ",$" = [44, 36] := by decide
  have c3 : cstr "," = [44] := by decide
  have htext : sourceLWTight rs rt imm =
      76 :: 87 :: 32 :: 36 :: (decimal rs ++ 44 :: 36 :: (decimal rt ++
        44 :: (decimal imm ++ []))) := by
    simp only [sourceLWTight, c1, c2, c3, List.append_assoc, List.cons_append,
      List.nil_append, List.append_nil]
  apply Tokenize_of_fuel _ 8
  rw [htext, step_LW _ _ _ (by rfl), step_space _ _ _ (by rfl),
    step_register _ _ _ _ hrs (by simp [digitValue]), step_comma,
    step_register _ _ _ _ hrt (by simp [digitValue]), step_comma,
    step_number _ _ _ _ (by omega) (by simp [digitValue]), step_end]
  rfl

theorem Tokenize_sourceLWSpaced (rs rt imm : Nat) (hrs : rs ≤ 31) (hrt : rt ≤ 31)
    (himm : imm ≤ 0xFFFF) :
    Tokenize (sourceLWSpaced rs rt imm) =
      some (0,
        [⟨TOKEN_TYPE_OPCODE, 1, OPCODE_LW⟩, ⟨TOKEN_TYPE_WHITESPACE, 1, 0⟩,
          ⟨TOKEN_TYPE_REGISTER, 1, rs⟩, ⟨TOKEN_TYPE_COMMA, 1, 0⟩, ⟨TOKEN_TYPE_WHITESPACE, 1, 0⟩,
          ⟨TOKEN_TYPE_REGISTER, 1, rt⟩, ⟨TOKEN_TYPE_COMMA, 1, 0⟩, ⟨TOKEN_TYPE_WHITESPACE, 1, 0⟩,
          ⟨TOKEN_TYPE_NUMBER, 1, imm⟩, ⟨TOKEN_TYPE_EOF, 1, 0⟩]) := by
  have c1 : cstr "LW $" = [76, 87, 32, 36] := by decide
  have c2 : cstr ", $" = [44, 32, 36] := by decide
  have c3 : cstr ", " = [44, 32] := by decide
  have htext : sourceLWSpaced rs rt imm =
      76 :: 87 :: 32 :: 36 :: (decimal rs ++ 44 :: 32 :: 36 :: (decimal rt ++
        44 :: 32 :: (decimal imm ++ []))) := by
    simp only [sourceLWSpaced, c1, c2, c3, List.append_assoc, List.cons_append,
      List.nil_append, List.append_nil]
  apply Tokenize_of_fuel _ 10
  rw [htext, step_LW _ _ _ (by rfl), step_space _ _ _ (by rfl),
    step_register _ _ _ _ hrs (by simp [digitValue]), step_comma, step_space _ _ _ (by rfl),
    step_register _ _ _ _ hrt (by simp [digitValue]), step_comma,
    step_space _ _ _ (decimal_not_space _ _),
    step_number _ _ _ _ (by omega) (by simp [digitValue]), step_end]
  rfl

theorem Tokenize_sourceLWGlued (rs rt imm : Nat) (hrs : rs ≤ 31) (hrt : rt ≤ 31)
    (himm : imm ≤ 0xFFFF) :
    Tokenize (sourceLWGlued rs rt imm) =
      some (0,
        [⟨TOKEN_TYPE_OPCODE, 1, OPCODE_LW⟩,
          ⟨TOKEN_TYPE_REGISTER, 1, rs⟩, ⟨TOKEN_TYPE_COMMA, 1, 0⟩,
          ⟨TOKEN_TYPE_REGISTER, 1, rt⟩, ⟨TOKEN_TYPE_COMMA, 1, 0⟩,
          ⟨TOKEN_TYPE_NUMBER, 1, imm⟩, ⟨TOKEN_TYPE_EOF, 1, 0⟩]) := by
  have c1 : cstr "LW$" = [76, 87, 36] := by decide
  have c2 : cstr ",$" = [44, 36] := by decide
  have c3 : cstr "," = [44] := by decide
  have htext : sourceLWGlued rs rt imm =
      76 :: 87 :: 36 :: (decimal rs ++ 44 :: 36 :: (decimal rt ++
        44 :: (decimal imm ++ []))) := by
    simp only [sourceLWGlued, c1, c2, c3, List.append_assoc, List.cons_append,
      List.nil_append, List.append_nil]
  apply Tokenize_of_fuel _ 7
  rw [htext, step_LW _ _ _ (by rfl),
    step_register _ _ _ _ hrs (by simp [digitValue]), step_comma,
    step_register _ _ _ _ hrt (by simp [digitValue]), step_comma,
    step_number _ _ _ _ (by omega) (by simp [digitValue]), step_end]
  rfl

/-- C3 (whitespace flexibility).  For all operands within their bounds,
`LW $rs,$rt,imm` and `LW $rs, $rt, imm` both assemble with exit status 0 to
the single word `(0b100011<<26)|(rs<<21)|(rt<<16)|imm`, while for
`LW$rs,$rt,imm` lexing succeeds, `GenerateMachineCode` returns 1 and
`Assemble` fails without calling the writer. -/
theorem whitespace_flexibility (rs rt imm : Nat) (hrs : rs ≤ 31) (hrt : rt ≤ 31)
    (himm : imm ≤ 0xFFFF) :
    Assemble (sourceLWTight rs rt imm) =
        some { status := 0, exit := AssembleExit.writerCalled,
               written := some [(0b100011 <<< 26) ||| (rs <<< 21) ||| (rt <<< 16) ||| imm] } ∧
      Assemble (sourceLWSpaced rs rt imm) =
        some { status := 0, exit := AssembleExit.writerCalled,
               written := some [(0b100011 <<< 26) ||| (rs <<< 21) ||| (rt <<< 16) ||| imm] } ∧
      (∃ toks binary, Tokenize (sourceLWGlued rs rt imm) = some (0, toks) ∧
        CountTokensOfType toks TOKEN_TYPE_OPCODE = some 1 ∧
        GenerateMachineCode toks (List.replicate 1 0) 1 = some (1, binary)) ∧
      Assemble (sourceLWGlued rs rt imm) =
        some { status := 1, exit := AssembleExit.generateFailed, written := none } := by
  have hgt : ¬ (65535 < imm) := by omega
  have hw := word_LW rs rt imm hrs hrt
  have l1 := Tokenize_sourceLWTight rs rt imm hrs hrt himm
  have l2 := Tokenize_sourceLWSpaced rs rt imm hrs hrt himm
  have l3 := Tokenize_sourceLWGlued rs rt imm hrs hrt himm
  have n1 : CountTokensOfType
      [⟨TOKEN_TYPE_OPCODE, 1, OPCODE_LW⟩, ⟨TOKEN_TYPE_WHITESPACE, 1, 0⟩,
        ⟨TOKEN_TYPE_REGISTER, 1, rs⟩, ⟨TOKEN_TYPE_COMMA, 1, 0⟩,
        ⟨TOKEN_TYPE_REGISTER, 1, rt⟩, ⟨TOKEN_TYPE_COMMA, 1, 0⟩,
        ⟨TOKEN_TYPE_NUMBER, 1, imm⟩, ⟨TOKEN_TYPE_EOF, 1, 0⟩] TOKEN_TYPE_OPCODE = some 1 := rfl
  have n2 : CountTokensOfType
      [⟨TOKEN_TYPE_OPCODE, 1, OPCODE_LW⟩, ⟨TOKEN_TYPE_WHITESPACE, 1, 0⟩,
        ⟨TOKEN_TYPE_REGISTER, 1, rs⟩, ⟨TOKEN_TYPE_COMMA, 1, 0⟩, ⟨TOKEN_TYPE_WHITESPACE, 1, 0⟩,
        ⟨TOKEN_TYPE_REGISTER, 1, rt⟩, ⟨TOKEN_TYPE_COMMA, 1, 0⟩, ⟨TOKEN_TYPE_WHITESPACE, 1, 0⟩,
        ⟨TOKEN_TYPE_NUMBER, 1, imm⟩, ⟨TOKEN_TYPE_EOF, 1, 0⟩] TOKEN_TYPE_OPCODE = some 1 := rfl
  have n3 : CountTokensOfType
      [⟨TOKEN_TYPE_OPCODE, 1, OPCODE_LW⟩,
        ⟨TOKEN_TYPE_REGISTER, 1, rs⟩, ⟨TOKEN_TYPE_COMMA, 1, 0⟩,
        ⟨TOKEN_TYPE_REGISTER, 1, rt⟩, ⟨TOKEN_TYPE_COMMA, 1, 0⟩,
        ⟨TOKEN_TYPE_NUMBER, 1, imm⟩, ⟨TOKEN_TYPE_EOF, 1, 0⟩] TOKEN_TYPE_OPCODE = some 1 := rfl
  have g1 : GenerateMachineCode
      [⟨TOKEN_TYPE_OPCODE, 1, OPCODE_LW⟩, ⟨TOKEN_TYPE_WHITESPACE, 1, 0⟩,
        ⟨TOKEN_TYPE_REGISTER, 1, rs⟩, ⟨TOKEN_TYPE_COMMA, 1, 0⟩,
        ⟨TOKEN_TYPE_REGISTER, 1, rt⟩, ⟨TOKEN_TYPE_COMMA, 1, 0⟩,
        ⟨TOKEN_TYPE_NUMBER, 1, imm⟩, ⟨TOKEN_TYPE_EOF, 1, 0⟩] (List.replicate 1 0) 1 =
      some (0, [(0b100011 <<< 26) ||| (rs <<< 21) ||| (rt <<< 16) ||| imm]) := by
    rw [← hw]
    simp [GenerateMachineCode, GenerateLoop, instructionProperties, OPCODE_LW, dispatchParser,
      ParseITypeInstr, GetParams, GetParamsLoop, hgt]
  have g2 : GenerateMachineCode
      [⟨TOKEN_TYPE_OPCODE, 1, OPCODE_LW⟩, ⟨TOKEN_TYPE_WHITESPACE, 1, 0⟩,
        ⟨TOKEN_TYPE_REGISTER, 1, rs⟩, ⟨TOKEN_TYPE_COMMA, 1, 0⟩, ⟨TOKEN_TYPE_WHITESPACE, 1, 0⟩,
        ⟨TOKEN_TYPE_REGISTER, 1, rt⟩, ⟨TOKEN_TYPE_COMMA, 1, 0⟩, ⟨TOKEN_TYPE_WHITESPACE, 1, 0⟩,
        ⟨TOKEN_TYPE_NUMBER, 1, imm⟩, ⟨TOKEN_TYPE_EOF, 1, 0⟩] (List.replicate 1 0) 1 =
      some (0, [(0b100011 <<< 26) ||| (rs <<< 21) ||| (rt <<< 16) ||| imm]) := by
    rw [← hw]
    simp [GenerateMachineCode, GenerateLoop, instructionProperties, OPCODE_LW, dispatchParser,
      ParseITypeInstr, GetParams, GetParamsLoop, hgt]
  have g3 : GenerateMachineCode
      [⟨TOKEN_TYPE_OPCODE, 1, OPCODE_LW⟩,
        ⟨TOKEN_TYPE_REGISTER, 1, rs⟩, ⟨TOKEN_TYPE_COMMA, 1, 0⟩,
        ⟨TOKEN_TYPE_REGISTER, 1, rt⟩, ⟨TOKEN_TYPE_COMMA, 1, 0⟩,
        ⟨TOKEN_TYPE_NUMBER, 1, imm⟩, ⟨TOKEN_TYPE_EOF, 1, 0⟩] (List.replicate 1 0) 1 =
      some (1, [0]) := by
    simp [GenerateMachineCode, GenerateLoop, instructionProperties, OPCODE_LW]
  refine ⟨?_, ?_, ⟨_, _, l3, n3, g3⟩, ?_⟩
  · simp only [Assemble, l1, n1, g1]
    rfl
  · simp only [Assemble, l2, n2, g2]
    rfl
  · simp only [Assemble, l3, n3, g3]
    rfl

theorem whitespace_flexibility_witness :
    (sourceLWTight 1 2 100 = cstr "LW $1,$2,100" ∧
        sourceLWSpaced 1 2 100 = cstr "LW $1, $2, 100" ∧
        sourceLWGlued 1 2 100 = cstr "LW$1,$2,100") ∧
      Assemble (cstr "LW $1,$2,100") =
        some { status := 0, exit := AssembleExit.writerCalled, written := some [0x8C220064] } ∧
      Assemble (cstr "LW $1, $2, 100") =
        some { status := 0, exit := AssembleExit.writerCalled, written := some [0x8C220064] } ∧
      (∃ toks binary, Tokenize (cstr "LW$1,$2,100") = some (0, toks) ∧
        CountTokensOfType toks TOKEN_TYPE_OPCODE = some 1 ∧
        GenerateMachineCode toks (List.replicate 1 0) 1 = some (1, binary)) ∧
      Assemble (cstr "LW$1,$2,100") =
        some { status := 1, exit := AssembleExit.generateFailed, written := none } :=
  ⟨by decide, whitespace_flexibility 1 2 100 (by decide) (by decide) (by decide)⟩

/-! ## Field packing of the three shapes -/

theorem lor_eq_add (a b i : Nat) (h : b < 2 ^ i) : a <<< i ||| b = a * 2 ^ i + b := by
  rw [Nat.shiftLeft_eq, Nat.mul_comm]
  exact (Nat.mul_add_lt_is_or h a).symm

theorem pack_I (op rs rt imm : Nat) (h2 : rs ≤ 31) (h3 : rt ≤ 31) (h4 : imm ≤ 0xFFFF) :
    (op <<< 26) ||| (rs <<< 21) ||| (rt <<< 16) ||| imm =
      op * 2 ^ 26 + rs * 2 ^ 21 + rt * 2 ^ 16 + imm := by
  have e1 : rt <<< 16 ||| imm = rt * 2 ^ 16 + imm := lor_eq_add _ _ _ (by omega)
  have e2 : rs <<< 21 ||| (rt * 2 ^ 16 + imm) = rs * 2 ^ 21 + (rt * 2 ^ 16 + imm) :=
    lor_eq_add _ _ _ (by omega)
  have e3 : op <<< 26 ||| (rs * 2 ^ 21 + (rt * 2 ^ 16 + imm)) =
      op * 2 ^ 26 + (rs * 2 ^ 21 + (rt * 2 ^ 16 + imm)) := lor_eq_add _ _ _ (by omega)
  rw [Nat.lor_assoc, Nat.lor_assoc, e1, e2, e3]
  omega

theorem pack_J (op target : Nat) (h : target ≤ 0x3FFFFFF) :
    (op <<< 26) ||| target = op * 2 ^ 26 + target := lor_eq_add _ _ _ (by omega)

theorem pack_R (op rs rt rd shift function : Nat) (h2 : rs ≤ 31) (h3 : rt ≤ 31)
    (h4 : rd ≤ 31) (h5 : shift ≤ 0x1F) (h6 : function ≤ 0x3F) :
    (op <<< 26) ||| (rs <<< 21) ||| (rt <<< 16) ||| (rd <<< 11) ||| (shift <<< 6) ||| function =
      op * 2 ^ 26 + rs * 2 ^ 21 + rt * 2 ^ 16 + rd * 2 ^ 11 + shift * 2 ^ 6 + function := by
  have e0 : shift <<< 6 ||| function = shift * 2 ^ 6 + function := lor_eq_add _ _ _ (by omega)
  have e1 : rd <<< 11 ||| (shift * 2 ^ 6 + function) = rd * 2 ^ 11 + (shift * 2 ^ 6 + function) :=
    lor_eq_add _ _ _ (by omega)
  have e2 : rt <<< 16 ||| (rd * 2 ^ 11 + (shift * 2 ^ 6 + function)) =
      rt * 2 ^ 16 + (rd * 2 ^ 11 + (shift * 2 ^ 6 + function)) := lor_eq_add _ _ _ (by omega)
  have e3 : rs <<< 21 ||| (rt * 2 ^ 16 + (rd * 2 ^ 11 + (shift * 2 ^ 6 + function))) =
      rs * 2 ^ 21 + (rt * 2 ^ 16 + (rd * 2 ^ 11 + (shift * 2 ^ 6 + function))) :=
    lor_eq_add _ _ _ (by omega)
  have e4 : op <<< 26 ||| (rs * 2 ^ 21 + (rt * 2 ^ 16 + (rd * 2 ^ 11 + (shift * 2 ^ 6 + function)))) =
      op * 2 ^ 26 + (rs * 2 ^ 21 + (rt * 2 ^ 16 + (rd * 2 ^ 11 + (shift * 2 ^ 6 + function)))) :=
    lor_eq_add _ _ _ (by omega)
  rw [Nat.lor_assoc, Nat.lor_assoc, Nat.lor_assoc, Nat.lor_assoc, e0, e1, e2, e3, e4]
  omega

theorem shift_mod (a i : Nat) (h : a * 2 ^ i < 2 ^ 32) : (a <<< i) % 2 ^ 32 = a <<< i := by
  rw [Nat.shiftLeft_eq]
  exact Nat.mod_eq_of_lt h

theorem field_at (w i n : Nat) : (w >>> i) &&& (2 ^ n - 1) = w / 2 ^ i % 2 ^ n := by
  rw [Nat.and_pow_two_sub_one_eq_mod, Nat.shiftRight_eq_div_pow]

theorem sum_I (op rs rt imm x1 x2 x3 x4 : Nat) (hop : op < 64) (h2 : rs ≤ 31) (h3 : rt ≤ 31)
    (h4 : imm ≤ 0xFFFF) :
    CreateInstruction op rs rt imm x1 x2 x3 x4 INSTR_TYPE_I =
      op * 2 ^ 26 + rs * 2 ^ 21 + rt * 2 ^ 16 + imm := by
  simp only [CreateInstruction, shift_mod op 26 (by omega), shift_mod rs 21 (by omega),
    shift_mod rt 16 (by omega)]
  exact pack_I op rs rt imm h2 h3 h4

theorem sum_J (op target x1 x2 x3 x4 x5 x6 : Nat) (hop : op < 64) (h : target ≤ 0x3FFFFFF) :
    CreateInstruction op x1 x2 x3 target x4 x5 x6 INSTR_TYPE_J = op * 2 ^ 26 + target := by
  simp only [CreateInstruction, shift_mod op 26 (by omega)]
  exact pack_J op target h

theorem sum_R (op rs rt rd shift function x1 x2 : Nat) (hop : op < 64) (h2 : rs ≤ 31)
    (h3 : rt ≤ 31) (h4 : rd ≤ 31) (h5 : shift ≤ 0x1F) (h6 : function ≤ 0x3F) :
    CreateInstruction op rs rt x1 x2 rd shift function INSTR_TYPE_R =
      op * 2 ^ 26 + rs * 2 ^ 21 + rt * 2 ^ 16 + rd * 2 ^ 11 + shift * 2 ^ 6 + function := by
  simp only [CreateInstruction, shift_mod op 26 (by omega), shift_mod rs 21 (by omega),
    shift_mod rt 16 (by omega), shift_mod rd 11 (by omega), shift_mod shift 6 (by omega)]
  exact pack_R op rs rt rd shift function h2 h3 h4 h5 h6

/-- C13 (encoder field packing).  For `opcode < 64`, registers at most 31
and `imm`, `target`, `shift`, `function` within their widths,
`CreateInstruction` returns the packing of its shape (whatever the operands
its shape does not use), the word is below `2^32`, its high-order 6 bits are
`opcode`, and every operand is recovered by shifting and masking at its
position; two calls of one shape on such fields that return the same word
have the same opcode and operands. -/
theorem encoder_field_packing (opcode rs rt rd imm target shift function : Nat)
    (hop : opcode < 64) (hrs : rs ≤ 31) (hrt : rt ≤ 31) (hrd : rd ≤ 31) (himm : imm ≤ 0xFFFF)
    (htarget : target ≤ 0x3FFFFFF) (hshift : shift ≤ 0x1F) (hfunction : function ≤ 0x3F) :
    (∀ x1 x2 x3 x4,
      CreateInstruction opcode rs rt imm x1 x2 x3 x4 INSTR_TYPE_I =
          (opcode <<< 26) ||| (rs <<< 21) ||| (rt <<< 16) ||| imm ∧
        (opcode <<< 26) ||| (rs <<< 21) ||| (rt <<< 16) ||| imm < 2 ^ 32 ∧
        ((opcode <<< 26) ||| (rs <<< 21) ||| (rt <<< 16) ||| imm) >>> 26 = opcode ∧
        (((opcode <<< 26) ||| (rs <<< 21) ||| (rt <<< 16) ||| imm) >>> 21) &&& 0x1F = rs ∧
        (((opcode <<< 26) ||| (rs <<< 21) ||| (rt <<< 16) ||| imm) >>> 16) &&& 0x1F = rt ∧
        ((opcode <<< 26) ||| (rs <<< 21) ||| (rt <<< 16) ||| imm) &&& 0xFFFF = imm) ∧
      (∀ x1 x2 x3 x4 x5 x6,
        CreateInstruction opcode x1 x2 x3 target x4 x5 x6 INSTR_TYPE_J =
            (opcode <<< 26) ||| target ∧
          (opcode <<< 26) ||| target < 2 ^ 32 ∧
          ((opcode <<< 26) ||| target) >>> 26 = opcode ∧
          ((opcode <<< 26) ||| target) &&& 0x3FFFFFF = target) ∧
      (∀ x1 x2,
        CreateInstruction opcode rs rt x1 x2 rd shift function INSTR_TYPE_R =
            (opcode <<< 26) ||| (rs <<< 21) ||| (rt <<< 16) ||| (rd <<< 11) ||| (shift <<< 6) |||
              function ∧
          (opcode <<< 26) ||| (rs <<< 21) ||| (rt <<< 16) ||| (rd <<< 11) ||| (shift <<< 6) |||
              function < 2 ^ 32 ∧
          ((opcode <<< 26) ||| (rs <<< 21) ||| (rt <<< 16) ||| (rd <<< 11) ||| (shift <<< 6) |||
              function) >>> 26 = opcode ∧
          (((opcode <<< 26) ||| (rs <<< 21) ||| (rt <<< 16) ||| (rd <<< 11) ||| (shift <<< 6) |||
              function) >>> 21) &&& 0x1F = rs ∧
          (((opcode <<< 26) ||| (rs <<< 21) ||| (rt <<< 16) ||| (rd <<< 11) ||| (shift <<< 6) |||
              function) >>> 16) &&& 0x1F = rt ∧
          (((opcode <<< 26) ||| (rs <<< 21) ||| (rt <<< 16) ||| (rd <<< 11) ||| (shift <<< 6) |||
              function) >>> 11) &&& 0x1F = rd ∧
          (((opcode <<< 26) ||| (rs <<< 21) ||| (rt <<< 16) ||| (rd <<< 11) ||| (shift <<< 6) |||
              function) >>> 6) &&& 0x1F = shift ∧
          ((opcode <<< 26) ||| (rs <<< 21) ||| (rt <<< 16) ||| (rd <<< 11) ||| (shift <<< 6) |||
              function) &&& 0x3F = function) ∧
      (∀ opcode' rs' rt' rd' imm' target' shift' function', opcode' < 64 → rs' ≤ 31 →
        rt' ≤ 31 → rd' ≤ 31 → imm' ≤ 0xFFFF → target' ≤ 0x3FFFFFF → shift' ≤ 0x1F →
        function' ≤ 0x3F →
        (CreateInstruction opcode rs rt imm 0 0 0 0 INSTR_TYPE_I =
            CreateInstruction opcode' rs' rt' imm' 0 0 0 0 INSTR_TYPE_I →
          opcode = opcode' ∧ rs = rs' ∧ rt = rt' ∧ imm = imm') ∧
        (CreateInstruction opcode 0 0 0 target 0 0 0 INSTR_TYPE_J =
            CreateInstruction opcode' 0 0 0 target' 0 0 0 INSTR_TYPE_J →
          opcode = opcode' ∧ target = target') ∧
        (CreateInstruction opcode rs rt 0 0 rd shift function INSTR_TYPE_R =
            CreateInstruction opcode' rs' rt' 0 0 rd' shift' function' INSTR_TYPE_R →
          opcode = opcode' ∧ rs = rs' ∧ rt = rt' ∧ rd = rd' ∧ shift = shift' ∧
            function = function')) := by
  have m5 : ∀ w i, (w >>> i) &&& 0x1F = w / 2 ^ i % 2 ^ 5 := fun w i => field_at w i 5
  have m6 : ∀ w, w &&& 0x3F = w % 2 ^ 6 := fun w => Nat.and_pow_two_sub_one_eq_mod w 6
  have m16 : ∀ w, w &&& 0xFFFF = w % 2 ^ 16 := fun w => Nat.and_pow_two_sub_one_eq_mod w 16
  have m26 : ∀ w, w &&& 0x3FFFFFF = w % 2 ^ 26 := fun w => Nat.and_pow_two_sub_one_eq_mod w 26
  have s26 := shift_mod opcode 26 (by omega)
  have s21 := shift_mod rs 21 (by omega)
  have s16 := shift_mod rt 16 (by omega)
  have s11 := shift_mod rd 11 (by omega)
  have s6 := shift_mod shift 6 (by omega)
  refine ⟨fun x1 x2 x3 x4 => ?_, fun x1 x2 x3 x4 x5 x6 => ?_, fun x1 x2 => ?_, ?_⟩
  · refine ⟨by simp only [CreateInstruction, s26, s21, s16], ?_⟩
    rw [m5, m5, m16, Nat.shiftRight_eq_div_pow, pack_I opcode rs rt imm hrs hrt himm]
    omega
  · refine ⟨by simp only [CreateInstruction, s26], ?_⟩
    rw [m26, Nat.shiftRight_eq_div_pow, pack_J opcode target htarget]
    omega
  · refine ⟨by simp only [CreateInstruction, s26, s21, s16, s11, s6], ?_⟩
    rw [m5, m5, m5, m5, m6, Nat.shiftRight_eq_div_pow,
      pack_R opcode rs rt rd shift function hrs hrt hrd hshift hfunction]
    omega
  · intro opcode' rs' rt' rd' imm' target' shift' function' g1 g2 g3 g4 g5 g6 g7 g8
    rw [sum_I opcode rs rt imm 0 0 0 0 hop hrs hrt himm, sum_I opcode' rs' rt' imm' 0 0 0 0 g1 g2 g3 g5,
      sum_J opcode target 0 0 0 0 0 0 hop htarget, sum_J opcode' target' 0 0 0 0 0 0 g1 g6,
      sum_R opcode rs rt rd shift function 0 0 hop hrs hrt hrd hshift hfunction,
      sum_R opcode' rs' rt' rd' shift' function' 0 0 g1 g2 g3 g4 g7 g8]
    refine ⟨fun h => ?_, fun h => ?_, fun h => ?_⟩ <;> omega

theorem encoder_field_packing_witness :
    CreateInstruction 35 1 2 100 7 7 7 7 INSTR_TYPE_I = 0x8C220064 ∧
      CreateInstruction 2 7 7 7 10 7 7 7 INSTR_TYPE_J = 0x0800000A ∧
      CreateInstruction 0 1 2 7 7 3 4 32 INSTR_TYPE_R = 0x00221920 ∧
      (0x00221920 >>> 11) &&& 0x1F = 3 :=
  ⟨((encoder_field_packing 35 1 2 3 100 10 4 32 (by decide) (by decide) (by decide) (by decide)
      (by decide) (by decide) (by decide) (by decide)).1 7 7 7 7).1,
    ((encoder_field_packing 2 1 2 3 100 10 4 32 (by decide) (by decide) (by decide) (by decide)
      (by decide) (by decide) (by decide) (by decide)).2.1 7 7 7 7 7 7).1,
    ((encoder_field_packing 0 1 2 3 100 10 4 32 (by decide) (by decide) (by decide) (by decide)
      (by decide) (by decide) (by decide) (by decide)).2.2.1 7 7).1,
    ((encoder_field_packing 0 1 2 3 100 10 4 32 (by decide) (by decide) (by decide) (by decide)
      (by decide) (by decide) (by decide) (by decide)).2.2.1 7 7).2.2.2.2.2.1⟩

/-! ## Register and number literals as the code reads them -/

/-- C11 (token line numbers), evaluated on the code: in `"$\n5 7"` the
number `7` starts at offset 4, on line 2, yet its token carries line 1,
because the newline that `strtoul` skips inside the register literal `$\n5`
is not counted. -/
theorem token_line_divergence :
    Tokenize (cstr "$\n5 7") =
        some (0, [{ type := TOKEN_TYPE_REGISTER, lineNumber := 1, data := 5 },
          { type := TOKEN_TYPE_WHITESPACE, lineNumber := 1, data := 0 },
          { type := TOKEN_TYPE_NUMBER, lineNumber := 1, data := 7 },
          { type := TOKEN_TYPE_EOF, lineNumber := 1, data := 0 }]) ∧
      lexerStateFrom (cstr "$\n5 7") 2 0 1 = some (4, 1) ∧
      sourceLine (cstr "$\n5 7") 4 = 2 := by
  refine ⟨?_, ?_, ?_⟩ <;> decide

/-- C14 (register literal shape), evaluated on the code: with a space, a
tab and a newline, a plus sign or a minus sign between the `$` and the
digits `ParseRegisterToken` produces a Register token that also consumes
those characters, and the literal `$4294967296` produces the Register token
of value 0. -/
theorem register_shape_divergence :
    ParseRegisterToken 0 (cstr "$ 5") freshToken =
        { p := 3, token := { type := TOKEN_TYPE_REGISTER, lineNumber := 0, data := 5 } } ∧
      ParseRegisterToken 0 (cstr "$\t\n7") freshToken =
        { p := 4, token := { type := TOKEN_TYPE_REGISTER, lineNumber := 0, data := 7 } } ∧
      ParseRegisterToken 0 (cstr "$+5") freshToken =
        { p := 3, token := { type := TOKEN_TYPE_REGISTER, lineNumber := 0, data := 5 } } ∧
      ParseRegisterToken 0 (cstr "$-0") freshToken =
        { p := 3, token := { type := TOKEN_TYPE_REGISTER, lineNumber := 0, data := 0 } } ∧
      ParseRegisterToken 0 (cstr "$4294967296") freshToken =
        { p := 11, token := { type := TOKEN_TYPE_REGISTER, lineNumber := 0, data := 0 } } ∧
      Assemble (cstr "LW $ 1,$+2,100") =
        some { status := 0, exit := AssembleExit.writerCalled, written := some [0x8C220064] } := by
  refine ⟨?_, ?_, ?_, ?_, ?_, ?_⟩ <;> decide

/-- C15 (number literal value), evaluated on the code: the literal
`4294967306` denotes `2^32 + 10`, above the 26-bit bound of a jump target,
yet `ParseNumberToken` produces the value 10 and `J 4294967306` assembles to
the word of `J 10`; the literal `18446744073709551616` denotes `2^64` and
produces the value `2^32 - 1`. -/
theorem number_value_divergence :
    ParseNumberToken 2 (cstr "J 4294967306\n") freshToken =
        { p := 12, token := { type := TOKEN_TYPE_NUMBER, lineNumber := 0, data := 10 } } ∧
      Assemble (cstr "J 4294967306\n") =
        some { status := 0, exit := AssembleExit.writerCalled, written := some [0x0800000A] } ∧
      ParseNumberToken 0 (cstr "18446744073709551616") freshToken =
        { p := 20, token := { type := TOKEN_TYPE_NUMBER, lineNumber := 0, data := 4294967295 } } := by
  refine ⟨?_, ?_, ?_⟩ <;> decide

/-- C16 as stated fails: with two spaces after `LW`, and with a space and a
tab after `J`, the line assembles. -/
theorem mnemonic_spacing_counterexample :
    Assemble (cstr "LW  $1,$2,100") =
        some { status := 0, exit := AssembleExit.writerCalled, written := some [0x8C220064] } ∧
      Assemble (cstr "J \t10") =
        some { status := 0, exit := AssembleExit.writerCalled, written := some [0x0800000A] } := by
  constructor <;> decide

/-! ## Runs of spaces and tabs -/

theorem skipWhitespace_run (run s : List Nat) (p : Nat) (hrun : ∀ c ∈ run, c = 32 ∨ c = 9)
    (hs : IsWhitespaceChar (s.headD 0) = false) :
    skipWhitespace (run ++ s) p = p + run.length := by
  induction run generalizing p with
  | nil =>
    cases s with
    | nil => rfl
    | cons c cs =>
      simp only [List.headD_cons] at hs
      simp [skipWhitespace, hs]
  | cons c cs ih =>
    have hc : IsWhitespaceChar c = true := by
      rcases hrun c (by simp) with rfl | rfl <;> decide
    show skipWhitespace (c :: (cs ++ s)) p = p + (cs.length + 1)
    simp only [skipWhitespace, hc, if_true]
    rw [ih (p + 1) (fun x hx => hrun x (List.mem_cons_of_mem _ hx))]
    omega

theorem step_run (run s : List Nat) (f line : Nat) (hne : run ≠ [])
    (hrun : ∀ c ∈ run, c = 32 ∨ c = 9) (hs : IsWhitespaceChar (s.headD 0) = false) :
    TokenizeLoop (run ++ s) (f + 1) 0 line =
      (TokenizeLoop s f 0 line).map
        (fun r => (r.1, { type := TOKEN_TYPE_WHITESPACE, lineNumber := line, data := 0 } :: r.2)) := by
  have hskip := skipWhitespace_run run s 0 hrun hs
  rw [Nat.zero_add] at hskip
  have hp : ParseToken 0 (run ++ s) freshToken line =
      { ret := 0, p := run.length,
        token := { type := TOKEN_TYPE_WHITESPACE, lineNumber := line, data := 0 },
        lineNumber := line } := by
    cases run with
    | nil => exact absurd rfl hne
    | cons c cs =>
      have hc : charAt (c :: (cs ++ s)) 0 = c := rfl
      simp only [List.cons_append] at hskip ⊢
      rcases hrun c (by simp) with rfl | rfl <;>
        simp [ParseToken, ParseTokenSwitch, hc, ParseWhitespaceToken, hskip, freshToken]
  have := TokenizeLoop_step _ f line _ hp rfl (by simp)
  simpa using this

theorem run_headD (run s : List Nat) (hne : run ≠ []) (hrun : ∀ c ∈ run, c = 32 ∨ c = 9) :
    (run ++ s).headD 0 = 32 ∨ (run ++ s).headD 0 = 9 := by
  cases run with
  | nil => exact absurd rfl hne
  | cons c cs => exact hrun c (by simp)

theorem Tokenize_sourceLWRun (run : List Nat) (rs rt imm : Nat) (hne : run ≠ [])
    (hrun : ∀ c ∈ run, c = 32 ∨ c = 9) (hrs : rs ≤ 31) (hrt : rt ≤ 31) (himm : imm ≤ 0xFFFF) :
    Tokenize (sourceLWRun run rs rt imm) =
      some (0,
        [⟨TOKEN_TYPE_OPCODE, 1, OPCODE_LW⟩, ⟨TOKEN_TYPE_WHITESPACE, 1, 0⟩,
          ⟨TOKEN_TYPE_REGISTER, 1, rs⟩, ⟨TOKEN_TYPE_COMMA, 1, 0⟩,
          ⟨TOKEN_TYPE_REGISTER, 1, rt⟩, ⟨TOKEN_TYPE_COMMA, 1, 0⟩,
          ⟨TOKEN_TYPE_NUMBER, 1, imm⟩, ⟨TOKEN_TYPE_EOF, 1, 0⟩]) := by
  have c1 : cstr "LW" = [76, 87] := by decide
  have c2 : cstr ",$" = [44, 36] := by decide
  have c3 : cstr "," = [44] := by decide
  have c4 : cstr "$" = [36] := by decide
  have htext : sourceLWRun run rs rt imm =
      76 :: 87 :: (run ++ 36 :: (decimal rs ++ 44 :: 36 :: (decimal rt ++
        44 :: (decimal imm ++ [])))) := by
    simp only [sourceLWRun, c1, c2, c3, c4, List.append_assoc, List.cons_append,
      List.nil_append, List.append_nil]
  have hv : IsValidNameChar ((run ++ 36 :: (decimal rs ++ 44 :: 36 :: (decimal rt ++
      44 :: (decimal imm ++ [])))).headD 0) = false := by
    rcases run_headD run _ hne hrun with h | h <;> rw [h] <;> decide
  apply Tokenize_of_fuel _ 8
  rw [htext, step_LW _ _ _ hv, step_run _ _ _ _ hne hrun (by rfl),
    step_register _ _ _ _ hrs (by simp [digitValue]), step_comma,
    step_register _ _ _ _ hrt (by simp [digitValue]), step_comma,
    step_number _ _ _ _ (by omega) (by simp [digitValue]), step_end]
  rfl

theorem Tokenize_sourceJRun (run : List Nat) (target : Nat) (hne : run ≠ [])
    (hrun : ∀ c ∈ run, c = 32 ∨ c = 9) (ht : target ≤ 0x3FFFFFF) :
    Tokenize (sourceJRun run target) =
      some (0,
        [⟨TOKEN_TYPE_OPCODE, 1, OPCODE_JUMP⟩, ⟨TOKEN_TYPE_WHITESPACE, 1, 0⟩,
          ⟨TOKEN_TYPE_NUMBER, 1, target⟩, ⟨TOKEN_TYPE_EOF, 1, 0⟩]) := by
  have c1 : cstr "J" = [74] := by decide
  have htext : sourceJRun run target = 74 :: (run ++ (decimal target ++ [])) := by
    simp only [sourceJRun, c1, List.append_assoc, List.cons_append, List.nil_append,
      List.append_nil]
  have hv : IsValidNameChar ((run ++ (decimal target ++ [])).headD 0) = false := by
    rcases run_headD run _ hne hrun with h | h <;> rw [h] <;> decide
  apply Tokenize_of_fuel _ 4
  rw [htext, step_J _ _ _ hv, step_run _ _ _ _ hne hrun (decimal_not_space _ _),
    step_number _ _ _ _ (by omega) (by simp [digitValue]), step_end]
  rfl

theorem Tokenize_glued_J (target : Nat) :
    Tokenize (sourceJRun [] target) =
      some (1, [{ type := TOKEN_TYPE_INVALID, lineNumber := 1, data := 0 }]) := by
  obtain ⟨d, ds, hd, h1, h2, _⟩ := decimal_head target
  have c1 : cstr "J" = [74] := by decide
  have htext : sourceJRun [] target = 74 :: d :: ds := by
    simp only [sourceJRun, c1, List.append_nil, hd, List.cons_append, List.nil_append]
  have hvd : IsValidNameChar d = true := by
    simp only [IsValidNameChar, Bool.or_eq_true, Bool.and_eq_true, decide_eq_true_eq]
    omega
  have h74 : IsValidNameChar 74 = true := by decide
  have hrun : ∃ c cs, (List.drop 0 (74 :: d :: ds)).takeWhile IsValidNameChar = 74 :: c :: cs :=
    ⟨d, ds.takeWhile IsValidNameChar, by simp [List.takeWhile_cons, h74, hvd]⟩
  obtain ⟨c, cs, hr⟩ := hrun
  apply Tokenize_of_fuel _ 1
  rw [htext]
  have hletter : (65 ≤ charAt (74 :: d :: ds) 0 ∧ charAt (74 :: d :: ds) 0 ≤ 90) ∨
      (97 ≤ charAt (74 :: d :: ds) 0 ∧ charAt (74 :: d :: ds) 0 ≤ 122) := by
    simp [charAt]
  simp only [TokenizeLoop, ParseToken_letter 0 _ freshToken 1 hletter, ParseOpcodeToken_run, hr]
  simp [freshToken]

/-- For `LW` and `J` lines with decimal operands within their bounds, every
non-empty run of space and tab characters between the mnemonic and the first
operand is accepted and gives the same word; with no character there
assembly fails. -/
theorem mnemonic_spacing_templates (run : List Nat) (rs rt imm target : Nat)
    (hrun : ∀ c ∈ run, c = 32 ∨ c = 9) (hrs : rs ≤ 31) (hrt : rt ≤ 31) (himm : imm ≤ 0xFFFF)
    (ht : target ≤ 0x3FFFFFF) :
    (run ≠ [] →
        Assemble (sourceLWRun run rs rt imm) =
            some { status := 0, exit := AssembleExit.writerCalled,
                   written := some [(0b100011 <<< 26) ||| (rs <<< 21) ||| (rt <<< 16) ||| imm] } ∧
          Assemble (sourceJRun run target) =
            some { status := 0, exit := AssembleExit.writerCalled,
                   written := some [(0b000010 <<< 26) ||| target] }) ∧
      Assemble (sourceLWRun [] rs rt imm) =
        some { status := 1, exit := AssembleExit.generateFailed, written := none } ∧
      Assemble (sourceJRun [] target) =
        some { status := 1, exit := AssembleExit.lexFailed, written := none } := by
  have hgt : ¬ (65535 < imm) := by omega
  have hgt2 : ¬ (67108863 < target) := by omega
  refine ⟨fun hne => ⟨?_, ?_⟩, ?_, ?_⟩
  · have hlex := Tokenize_sourceLWRun run rs rt imm hne hrun hrs hrt himm
    rw [← word_LW rs rt imm hrs hrt]
    simp only [Assemble, hlex]
    simp [CountTokensOfType, CountTokensLoop, GenerateMachineCode, GenerateLoop,
      instructionProperties, OPCODE_LW, dispatchParser, ParseITypeInstr, GetParams,
      GetParamsLoop, hgt, WriteToDst]
  · have hlex := Tokenize_sourceJRun run target hne hrun ht
    rw [← word_J target]
    simp only [Assemble, hlex]
    simp [CountTokensOfType, CountTokensLoop, GenerateMachineCode, GenerateLoop,
      instructionProperties, OPCODE_JUMP, dispatchParser, ParseJTypeInstr, GetParams,
      GetParamsLoop, hgt2, WriteToDst]
  · have hsrc : sourceLWRun [] rs rt imm = sourceLWGlued rs rt imm := by
      have c1 : cstr "LW" = [76, 87] := by decide
      have c2 : cstr "LW$" = [76, 87, 36] := by decide
      have c4 : cstr "$" = [36] := by decide
      simp [sourceLWRun, sourceLWGlued, c1, c2, c4]
    have hlex := Tokenize_sourceLWGlued rs rt imm hrs hrt himm
    rw [hsrc]
    simp only [Assemble, hlex]
    simp [CountTokensOfType, CountTokensLoop, GenerateMachineCode, GenerateLoop,
      instructionProperties, OPCODE_LW]
  · simp only [Assemble, Tokenize_glued_J target]
    rfl

/-! ## Line numbers along the chain -/

theorem charAt_append_nul (s junk : List Nat) (p : Nat) (hp : p ≤ s.length) :
    charAt (s ++ 0 :: junk) p = charAt s p := by
  simp only [charAt, List.getD_eq_getElem?_getD]
  rcases Nat.lt_or_eq_of_le hp with h | h
  · rw [List.getElem?_append_left h]
  · rw [List.getElem?_append_right (by omega), List.getElem?_eq_none (by omega : s.length ≤ p)]
    simp [h]

theorem takeWhile_append_nul (q : Nat → Bool) (hq : q 0 = false) (s junk : List Nat) :
    (s ++ 0 :: junk).takeWhile q = s.takeWhile q := by
  induction s with
  | nil => simp [List.takeWhile_cons, hq]
  | cons c cs ih =>
    simp only [List.cons_append, List.takeWhile_cons, ih]

theorem head?_append_nul (s junk : List Nat) (c : Nat) (hc : c ≠ 0) :
    ((s ++ 0 :: junk).head? == some c) = (s.head? == some c) := by
  cases s with
  | nil => simp [Ne.symm hc]
  | cons a t => simp

theorem hexIntro_ne (a : Nat) (t : List Nat) (h : a ≠ 48) : hexIntro (a :: t) = false := by
  unfold hexIntro
  split
  · rename_i heq
    simp only [List.cons.injEq] at heq
    exact absurd heq.1 h
  · rfl

theorem hexIntro_append_nul (s junk : List Nat) :
    hexIntro (s ++ 0 :: junk) = hexIntro s := by
  have d0 : decide (digitValue 0 < 16) = false := by decide
  rcases s with _ | ⟨a, _ | ⟨b, _ | ⟨c, r⟩⟩⟩
  · rfl
  · by_cases ha : a = 48
    · subst ha
      cases junk <;> simp [hexIntro]
    · rw [List.singleton_append, hexIntro_ne a _ ha, hexIntro_ne a _ ha]
  · by_cases ha : a = 48
    · subst ha
      simp [hexIntro, d0]
    · show hexIntro (a :: b :: 0 :: junk) = hexIntro [a, b]
      rw [hexIntro_ne a _ ha, hexIntro_ne a _ ha]
  · by_cases ha : a = 48
    · subst ha
      simp [hexIntro]
    · show hexIntro (a :: b :: c :: (r ++ 0 :: junk)) = hexIntro (a :: b :: c :: r)
      rw [hexIntro_ne a _ ha, hexIntro_ne a _ ha]

theorem strtoulDigits_append_nul (b : Nat) (hb : b ≤ 36) (s junk : List Nat) (acc n : Nat) :
    strtoulDigits b (s ++ 0 :: junk) acc n = strtoulDigits b s acc n := by
  induction s generalizing acc n with
  | nil =>
    have h0 : digitValue 0 = 36 := by decide
    simp only [List.nil_append, strtoulDigits, h0]
    rw [if_neg (by omega)]
  | cons c cs ih =>
    show strtoulDigits b (c :: (cs ++ 0 :: junk)) acc n = _
    simp only [strtoulDigits]
    split_ifs
    · exact ih _ _
    · rfl

theorem drop_append_nul (s junk : List Nat) (k : Nat) (hk : k ≤ s.length) :
    (s ++ 0 :: junk).drop k = s.drop k ++ 0 :: junk := by
  rw [List.drop_append_eq_append_drop, Nat.sub_eq_zero_of_le hk, List.drop_zero]

theorem strtoulBody_append_nul (base : Nat) (hb : base ≤ 36) (s junk : List Nat) :
    strtoulBody (s ++ 0 :: junk) base = strtoulBody s base := by
  have hhex := hexIntro_append_nul s junk
  have hhead := head?_append_nul s junk 48 (by decide)
  simp only [strtoulBody, hhex, hhead]
  by_cases hx : ((base == 0 || base == 16) && hexIntro s) = true
  · have hl := hexIntro_length s (by simp at hx; exact hx.2)
    simp only [hx, if_true]
    rw [drop_append_nul s junk 2 (by omega), strtoulDigits_append_nul 16 (by omega)]
  · have hb2 : (if (base == 0) = true then if (s.head? == some 48) = true then 8 else 10
        else base) ≤ 36 := by
      split_ifs <;> omega
    simp only [hx, Bool.false_eq_true, if_false, List.drop_zero]
    rw [strtoulDigits_append_nul _ hb2]

theorem strtoul_append_nul (base : Nat) (hb : base ≤ 36) (s junk : List Nat) :
    strtoul (s ++ 0 :: junk) base = strtoul s base := by
  have hsp : isspace 0 = false := by decide
  have htw := takeWhile_append_nul isspace hsp s junk
  have hle : (s.takeWhile isspace).length ≤ s.length := (List.takeWhile_sublist _).length_le
  simp only [strtoul, htw]
  rw [drop_append_nul s junk _ hle]
  generalize s.drop (s.takeWhile isspace).length = s1
  have h45 := head?_append_nul s1 junk 45 (by decide)
  have h43 := head?_append_nul s1 junk 43 (by decide)
  simp only [h45, h43]
  have hsgn : (if (s1.head? == some 45 || s1.head? == some 43) = true then 1 else 0) ≤
      s1.length := by
    cases s1 with
    | nil => simp
    | cons a t => simp only [List.length_cons]; split_ifs <;> omega
  rw [drop_append_nul s1 junk _ hsgn, strtoulBody_append_nul base hb]

theorem skipWhitespace_append_nul (s junk : List Nat) (p : Nat) :
    skipWhitespace (s ++ 0 :: junk) p = skipWhitespace s p := by
  induction s generalizing p with
  | nil =>
    have : IsWhitespaceChar 0 = false := by decide
    simp [skipWhitespace, this]
  | cons c cs ih =>
    show skipWhitespace (c :: (cs ++ 0 :: junk)) p = _
    simp only [skipWhitespace]
    split_ifs
    · exact ih _
    · rfl

theorem readOpcodeName_append_nul (s junk : List Nat) (k : Nat) :
    ∀ (i p : Nat) (name : List Nat), p ≤ s.length →
      readOpcodeName (s ++ 0 :: junk) k i p name = readOpcodeName s k i p name := by
  induction k with
  | zero => intro i p name _; rfl
  | succ k ih =>
    intro i p name hp
    simp only [readOpcodeName, charAt_append_nul s junk p hp]
    split_ifs with hv
    · have hne : charAt s p ≠ 0 := IsValidNameChar_ne_zero _ hv
      have hlt := charAt_ne_zero_lt s p hne
      exact ih _ _ _ (by omega)
    · rfl

theorem ParseTokenSwitch_append_nul (s junk : List Nat) (token : Token) (line : Nat) :
    ParseTokenSwitch 0 (s ++ 0 :: junk) token line = ParseTokenSwitch 0 s token line := by
  have hc := charAt_append_nul s junk 0 (Nat.zero_le _)
  have hreg : charAt s 0 = 36 →
      ParseRegisterToken 0 (s ++ 0 :: junk) token = ParseRegisterToken 0 s token := by
    intro h
    have hlt := charAt_ne_zero_lt s 0 (by omega)
    simp only [ParseRegisterToken]
    rw [drop_append_nul s junk _ (by omega), strtoul_append_nul 10 (by omega)]
  have hws : ParseWhitespaceToken 0 (s ++ 0 :: junk) token = ParseWhitespaceToken 0 s token := by
    simp only [ParseWhitespaceToken, List.drop_zero, skipWhitespace_append_nul]
  have hnum : ParseNumberToken 0 (s ++ 0 :: junk) token = ParseNumberToken 0 s token := by
    simp only [ParseNumberToken, List.drop_zero, strtoul_append_nul 0 (by omega)]
  have hop : ParseOpcodeToken 0 (s ++ 0 :: junk) token = ParseOpcodeToken 0 s token := by
    simp only [ParseOpcodeToken, readOpcodeName_append_nul s junk _ _ _ _ (Nat.zero_le _)]
  simp only [ParseTokenSwitch, hc, hws, hnum, hop]
  split_ifs with h1
  · rw [hreg h1]
  all_goals rfl

theorem ParseToken_append_nul (s junk : List Nat) (token : Token) (line : Nat) :
    ParseToken 0 (s ++ 0 :: junk) token line = ParseToken 0 s token line := by
  simp only [ParseToken, ParseTokenSwitch_append_nul]

/-- The lexer loop on a buffer does not depend on what lies behind the
terminating NUL. -/
theorem TokenizeLoop_append_nul (fuel : Nat) :
    ∀ (s junk : List Nat) (line : Nat),
      TokenizeLoop (s ++ 0 :: junk) fuel 0 line = TokenizeLoop s fuel 0 line := by
  induction fuel with
  | zero => intro s junk line; rfl
  | succ f ih =>
    intro s junk line
    rw [TokenizeLoop, TokenizeLoop]
    simp only [ParseToken_append_nul]
    split_ifs with h1 h2
    · rfl
    · rfl
    · obtain ⟨_, _, hle⟩ := ParseToken_facts 0 s freshToken line h1
      rw [TokenizeLoop_shift (s ++ 0 :: junk), TokenizeLoop_shift s,
        drop_append_nul s junk _ (hle h2), ih]

theorem ParseTokenSwitch_eof (p : Nat) (text : List Nat) (token : Token) (line : Nat)
    (h : (ParseTokenSwitch p text token line).1.token.type = TOKEN_TYPE_EOF) :
    (ParseTokenSwitch p text token line).1.p = p + 1 := by
  revert h
  simp only [ParseTokenSwitch]
  split_ifs
  · simp only [ParseRegisterToken]; split_ifs <;> simp
  · simp [ParseWhitespaceToken]
  · simp [ParseWhitespaceToken]
  · simp
  · simp
  · simp
  · simp only [ParseNumberToken]; split_ifs <;> simp
  · simp only [ParseOpcodeToken]; split <;> simp
  · simp

theorem TokenizeLoop_length (text : List Nat) (fuel : Nat) :
    ∀ (p line res : Nat) (toks : List Token),
      TokenizeLoop text fuel p line = some (res, toks) → toks.length ≤ fuel := by
  induction fuel with
  | zero => intro p line res toks h; simp [TokenizeLoop] at h
  | succ f ih =>
    intro p line res toks h
    simp only [TokenizeLoop] at h
    split_ifs at h with h1 h2
    · simp only [Option.some.injEq, Prod.mk.injEq] at h
      rw [← h.2]; simp
    · simp only [Option.some.injEq, Prod.mk.injEq] at h
      rw [← h.2]; simp
    · cases hr : TokenizeLoop text f (ParseToken p text freshToken line).p
          (ParseToken p text freshToken line).lineNumber with
      | none => rw [hr] at h; simp at h
      | some r' =>
        rw [hr] at h
        obtain ⟨res', rest⟩ := r'
        simp only [Option.some.injEq, Prod.mk.injEq] at h
        rw [← h.2]
        have := ih _ _ _ _ hr
        simp only [List.length_cons]
        omega

/-- The chain stops at the first Invalid or End-of-input token. -/
theorem TokenizeLoop_stop (text : List Nat) (fuel : Nat) :
    ∀ (p line res : Nat) (toks : List Token),
      TokenizeLoop text fuel p line = some (res, toks) →
      ∃ init last, toks = init ++ [last] ∧
        (∀ t ∈ init, t.type ≠ TOKEN_TYPE_INVALID ∧ t.type ≠ TOKEN_TYPE_EOF) ∧
        ((res = 1 ∧ last.type = TOKEN_TYPE_INVALID) ∨
          (res = 0 ∧ last.type = TOKEN_TYPE_EOF)) := by
  induction fuel with
  | zero => intro p line res toks h; simp [TokenizeLoop] at h
  | succ f ih =>
    intro p line res toks h
    have hret := ParseToken_ret p text freshToken line
    simp only [TokenizeLoop] at h
    split_ifs at h with h1 h2
    · simp only [Option.some.injEq, Prod.mk.injEq] at h
      obtain ⟨rfl, rfl⟩ := h
      refine ⟨[], _, rfl, by simp, Or.inl ⟨rfl, ?_⟩⟩
      by_contra hc
      rw [if_neg hc] at hret
      omega
    · simp only [Option.some.injEq, Prod.mk.injEq] at h
      obtain ⟨rfl, rfl⟩ := h
      exact ⟨[], _, rfl, by simp, Or.inr ⟨rfl, h2⟩⟩
    · cases hr : TokenizeLoop text f (ParseToken p text freshToken line).p
          (ParseToken p text freshToken line).lineNumber with
      | none => rw [hr] at h; simp at h
      | some r' =>
        rw [hr] at h
        obtain ⟨res', rest⟩ := r'
        simp only [Option.some.injEq, Prod.mk.injEq] at h
        obtain ⟨rfl, rfl⟩ := h
        obtain ⟨init, last, rfl, hall, hlast⟩ := ih _ _ _ _ hr
        have hinv : (ParseToken p text freshToken line).token.type ≠ TOKEN_TYPE_INVALID := by
          intro hc
          rw [if_pos hc] at hret
          exact h1 hret
        refine ⟨_ :: init, last, rfl, ?_, hlast⟩
        intro t ht
        rcases List.mem_cons.1 ht with rfl | ht
        · exact ⟨hinv, h2⟩
        · exact hall t ht

theorem Tokenize_append_nul (text junk : List Nat) :
    Tokenize (text ++ 0 :: junk) = Tokenize text := by
  obtain ⟨r, hr⟩ := Tokenize_total text
  rw [hr]
  have hbig := TokenizeLoop_fuel text (text.length + 1) (junk.length + 1) 0 1 r hr
  rw [Tokenize, TokenizeLoop_append_nul]
  have hlen : (text ++ 0 :: junk).length + 1 = text.length + 1 + (junk.length + 1) := by
    simp only [List.length_append, List.length_cons]
    omega
  rw [hlen]
  exact hbig

/-- C20 (lexer progress and termination).  On a text of length `n`, every
call of `ParseToken` at a position `p <= n` that does not report Invalid
moves `p` forward by at least one character and not past `n + 1`;
`Tokenize` returns on every text, with at most `n + 1` tokens, the last of
which is the only Invalid or End-of-input token of the chain (Invalid
exactly when the result is 1); and its result does not depend on the bytes
that lie behind the terminating NUL. -/
theorem lexer_progress (text : List Nat) :
    (∀ p token line, p ≤ text.length → (ParseToken p text token line).ret ≠ 1 →
        p + 1 ≤ (ParseToken p text token line).p ∧
          (ParseToken p text token line).p ≤ text.length + 1) ∧
      (∃ res toks, Tokenize text = some (res, toks) ∧ toks.length ≤ text.length + 1 ∧
        ∃ init last, toks = init ++ [last] ∧
          (∀ t ∈ init, t.type ≠ TOKEN_TYPE_INVALID ∧ t.type ≠ TOKEN_TYPE_EOF) ∧
          ((res = 1 ∧ last.type = TOKEN_TYPE_INVALID) ∨
            (res = 0 ∧ last.type = TOKEN_TYPE_EOF))) ∧
      (∀ junk, Tokenize (text ++ 0 :: junk) = Tokenize text) := by
  refine ⟨?_, ?_, Tokenize_append_nul text⟩
  · intro p token line hp hret
    obtain ⟨_, hlt, hle⟩ := ParseToken_facts p text token line hret
    refine ⟨hlt, ?_⟩
    by_cases he : (ParseToken p text token line).token.type = TOKEN_TYPE_EOF
    · have := ParseTokenSwitch_eof p text { token with lineNumber := line } line he
      have hp2 : (ParseToken p text token line).p = p + 1 := this
      omega
    · have := hle he
      omega
  · obtain ⟨⟨res, toks⟩, hr⟩ := Tokenize_total text
    exact ⟨res, toks, hr, TokenizeLoop_length text _ 0 1 res toks hr,
      TokenizeLoop_stop text _ 0 1 res toks hr⟩

/-! ## No null cursor is followed -/

theorem CountTokensLoop_safe (type : TokenType) (toks : List Token) (count : Nat)
    (hw : wellFormed toks = true) : ∃ n, CountTokensLoop type toks count = some n := by
  induction toks generalizing count with
  | nil => simp [wellFormed] at hw
  | cons t rest ih =>
    simp only [CountTokensLoop]
    by_cases h1 : t.type = TOKEN_TYPE_EOF
    · exact ⟨count, by simp [h1]⟩
    · simp only [h1, if_false]
      exact ih _ (wellFormed_tail t rest hw h1)

theorem GetParamsLoop_safe (ks : List TokenType) :
    ∀ (before : List TokenType) (out : List Nat) (toks : List Token),
      wellFormed toks = true → (∀ x ∈ ks, x ≠ TOKEN_TYPE_EOF) →
      ∃ rest o, GetParamsLoop (before.length + ks.length) (before ++ ks) ks.length
          before.length out toks = some (rest, o) ∧
        (rest = [] ∨ (wellFormed rest = true ∧ rest <:+ toks)) := by
  induction ks with
  | nil =>
    intro before out toks hw _
    exact ⟨toks, out, rfl, Or.inr ⟨hw, List.suffix_refl _⟩⟩
  | cons k ks ih =>
    intro before out toks hw hE
    have hget : (before ++ k :: ks).get? before.length = some k := by
      rw [List.get?_eq_getElem?, List.getElem?_append_right (le_refl _)]
      simp
    have hE2 : ∀ x ∈ ks, x ≠ TOKEN_TYPE_EOF := fun x hx => hE x (List.mem_cons_of_mem _ hx)
    have hrw : before ++ k :: ks = (before ++ [k]) ++ ks := by simp
    have hlen : before.length + (ks.length + 1) = (before ++ [k]).length + ks.length := by
      simp only [List.length_append, List.length_cons, List.length_nil]; omega
    have hi : before.length + 1 = (before ++ [k]).length := by simp
    cases toks with
    | nil => simp [wellFormed] at hw
    | cons t next =>
      simp only [List.length_cons, GetParamsLoop, hget]
      by_cases ht : t.type = k
      · have htE : t.type ≠ TOKEN_TYPE_EOF := ht ▸ hE k (by simp)
        have hwn := wellFormed_tail t next hw htE
        simp only [ht, ne_eq, not_true_eq_false, if_false]
        by_cases hlast : before.length < before.length + (ks.length + 1) - 1
        · simp only [hlast, if_true]
          cases next with
          | nil => simp [wellFormed] at hwn
          | cons c next2 =>
            by_cases hc : c.type = TOKEN_TYPE_COMMA
            · have hcE : c.type ≠ TOKEN_TYPE_EOF := by rw [hc]; decide
              have hwn2 := wellFormed_tail c next2 hwn hcE
              simp only [hc, ne_eq, not_true_eq_false, if_false]
              cases next2 with
              | nil => simp [wellFormed] at hwn2
              | cons w next3 =>
                simp only []
                by_cases hws : w.type = TOKEN_TYPE_WHITESPACE
                · have hwE : w.type ≠ TOKEN_TYPE_EOF := by rw [hws]; decide
                  have hwn3 := wellFormed_tail w next3 hwn2 hwE
                  simp only [hws, if_true]
                  rw [hrw, hlen, hi]
                  obtain ⟨rest, o, h1, h2⟩ := ih (before ++ [k]) (out.set before.length t.data)
                    next3 hwn3 hE2
                  refine ⟨rest, o, h1, ?_⟩
                  rcases h2 with h2 | ⟨h2, h3⟩
                  · exact Or.inl h2
                  · exact Or.inr ⟨h2, h3.trans ⟨[t, c, w], rfl⟩⟩
                · simp only [hws, if_false]
                  rw [hrw, hlen, hi]
                  obtain ⟨rest, o, h1, h2⟩ := ih (before ++ [k]) (out.set before.length t.data)
                    (w :: next3) hwn2 hE2
                  refine ⟨rest, o, h1, ?_⟩
                  rcases h2 with h2 | ⟨h2, h3⟩
                  · exact Or.inl h2
                  · exact Or.inr ⟨h2, h3.trans ⟨[t, c], rfl⟩⟩
            · exact ⟨[], out.set before.length t.data, by simp [hc], Or.inl rfl⟩
        · simp only [hlast, if_false]
          rw [hrw, hlen, hi]
          obtain ⟨rest, o, h1, h2⟩ := ih (before ++ [k]) (out.set before.length t.data)
            next hwn hE2
          refine ⟨rest, o, h1, ?_⟩
          rcases h2 with h2 | ⟨h2, h3⟩
          · exact Or.inl h2
          · exact Or.inr ⟨h2, h3.trans ⟨[t], rfl⟩⟩
      · exact ⟨[], out, by simp [ht], Or.inl rfl⟩

theorem GetParams_safe (ks : List TokenType) (out : List Nat) (cur : Token)
    (toks : List Token) (hw : wellFormed toks = true) (hE : ∀ x ∈ ks, x ≠ TOKEN_TYPE_EOF) :
    ∃ rest o, GetParams ks.length ks out (cur :: toks) = some (rest, o) ∧
      (rest = [] ∨ (wellFormed rest = true ∧ rest <:+ toks)) := by
  have h := GetParamsLoop_safe ks [] out toks hw hE
  simp only [List.length_nil, Nat.zero_add, List.nil_append] at h
  exact h

theorem dispatchParser_safe (type : InstrType) (w : Token) (next1 : List Token)
    (hw : wellFormed next1 = true) :
    ∃ tok v, dispatchParser type (w :: next1) = some (tok, v) ∧
      (tok = [] ∨ (wellFormed tok = true ∧ tok <:+ next1)) := by
  cases type with
  | INSTR_TYPE_I =>
    obtain ⟨rest, o, h1, h2⟩ := GetParams_safe
      [TOKEN_TYPE_REGISTER, TOKEN_TYPE_REGISTER, TOKEN_TYPE_NUMBER] [0, 0, 0] w next1 hw
      (by simp)
    simp only [List.length_cons, List.length_nil, Nat.zero_add] at h1
    simp only [dispatchParser, ParseITypeInstr, h1]
    split_ifs
    · exact ⟨_, _, rfl, Or.inl rfl⟩
    · exact ⟨_, _, rfl, Or.inl rfl⟩
    · exact ⟨_, _, rfl, h2⟩
  | INSTR_TYPE_J =>
    obtain ⟨rest, o, h1, h2⟩ := GetParams_safe [TOKEN_TYPE_NUMBER] [0] w next1 hw (by simp)
    simp only [List.length_cons, List.length_nil, Nat.zero_add] at h1
    simp only [dispatchParser, ParseJTypeInstr, h1]
    split_ifs
    · exact ⟨_, _, rfl, Or.inl rfl⟩
    · exact ⟨_, _, rfl, Or.inl rfl⟩
    · exact ⟨_, _, rfl, h2⟩
  | INSTR_TYPE_R =>
    obtain ⟨rest, o, h1, h2⟩ := GetParams_safe
      [TOKEN_TYPE_REGISTER, TOKEN_TYPE_REGISTER, TOKEN_TYPE_REGISTER, TOKEN_TYPE_NUMBER,
        TOKEN_TYPE_NUMBER] [0, 0, 0, 0, 0] w next1 hw (by simp)
    simp only [List.length_cons, List.length_nil, Nat.zero_add] at h1
    simp only [dispatchParser, ParseRTypeInstr, h1]
    split_ifs
    · exact ⟨_, _, rfl, Or.inl rfl⟩
    · exact ⟨_, _, rfl, Or.inl rfl⟩
    · exact ⟨_, _, rfl, Or.inl rfl⟩
    · exact ⟨_, _, rfl, h2⟩

/-- The driver loop on a well-formed chain whose Opcode tokens index the
format table: it returns, and it stores only into the slots
`i .. i + k - 1` of the buffer. -/
theorem GenerateLoop_safe (k : Nat) :
    ∀ (i : Nat) (token : List Token) (binary : List Nat),
      wellFormed token = true →
      (∀ t ∈ token, t.type = TOKEN_TYPE_OPCODE → t.data < NUM_OPCODES) →
      ∃ res r, GenerateLoop k i token binary = some (res, r) ∧ (res = 0 ∨ res = 1) ∧
        r.length = binary.length ∧ ∀ j, (j < i ∨ i + k ≤ j) → r[j]? = binary[j]? := by
  induction k with
  | zero => intro i token binary _ _; exact ⟨0, binary, rfl, Or.inl rfl, rfl, fun _ _ => rfl⟩
  | succ k ih =>
    intro i token binary hw hop
    cases token with
    | nil => simp [wellFormed] at hw
    | cons t next =>
      by_cases ht : t.type = TOKEN_TYPE_OPCODE
      · have hd : t.data < NUM_OPCODES := hop t (by simp) ht
        obtain ⟨props, hp⟩ : ∃ props, instructionProperties.get? t.data = some props := by
          simp only [NUM_OPCODES] at hd
          have h2 : t.data = 0 ∨ t.data = 1 := by omega
          rcases h2 with h | h <;> rw [h] <;> simp [instructionProperties]
        have htE : t.type ≠ TOKEN_TYPE_EOF := by rw [ht]; decide
        have hwn := wellFormed_tail t next hw htE
        cases next with
        | nil => simp [wellFormed] at hwn
        | cons w next1 =>
          by_cases hws : w.type = TOKEN_TYPE_WHITESPACE
          · have hwE : w.type ≠ TOKEN_TYPE_EOF := by rw [hws]; decide
            have hwn1 := wellFormed_tail w next1 hwn hwE
            obtain ⟨tok, v, hd, hsafe⟩ := dispatchParser_safe props.type w next1 hwn1
            simp only [GenerateLoop, ht, hp, hws, hd, ne_eq, not_true_eq_false, if_false]
            cases tok with
            | nil => exact ⟨1, binary, rfl, Or.inr rfl, rfl, fun _ _ => rfl⟩
            | cons e next2 =>
              rcases hsafe with hsafe | ⟨hwt, hsuf⟩
              · simp at hsafe
              simp only []
              have hset : ∀ j, (j < i ∨ i + (k + 1) ≤ j) →
                  (binary.set i (CreateInstruction props.opcode v.rs v.rt v.imm v.target v.rd
                    v.shift v.function props.type))[j]? = binary[j]? := by
                intro j hj
                exact List.getElem?_set_ne (by omega)
              by_cases he : e.type = TOKEN_TYPE_EOF
              · simp only [he, if_true]
                exact ⟨0, _, rfl, Or.inl rfl, by simp, hset⟩
              · by_cases hnl : e.type = TOKEN_TYPE_NEW_LINE
                · simp only [he, hnl, if_false, ne_eq, not_true_eq_false]
                  have hop2 : ∀ x ∈ next2, x.type = TOKEN_TYPE_OPCODE →
                      x.data < NUM_OPCODES := by
                    intro x hx
                    apply hop x
                    have h1 : x ∈ e :: next2 := List.mem_cons_of_mem _ hx
                    have h2 : x ∈ next1 := hsuf.subset h1
                    exact List.mem_cons_of_mem _ (List.mem_cons_of_mem _ h2)
                  obtain ⟨res, r, h1, h2, h3, h4⟩ := ih (i + 1) next2
                    (binary.set i (CreateInstruction props.opcode v.rs v.rt v.imm v.target v.rd
                      v.shift v.function props.type))
                    (wellFormed_tail e next2 hwt he) hop2
                  refine ⟨res, r, h1, h2, by rw [h3, List.length_set], ?_⟩
                  intro j hj
                  rw [h4 j (by omega), hset j hj]
                · simp only [he, hnl, if_false, ne_eq, not_false_eq_true, if_true]
                  exact ⟨1, _, rfl, Or.inr rfl, by simp, hset⟩
          · refine ⟨1, binary, ?_, Or.inr rfl, rfl, fun _ _ => rfl⟩
            simp only [GenerateLoop, ht, hp, hws, ne_eq, not_true_eq_false, not_false_eq_true,
              if_true, if_false]
      · exact ⟨1, binary, by simp [GenerateLoop, ht], Or.inr rfl, rfl, fun _ _ => rfl⟩

/-- C19 (cursor and buffer safety).  On a chain that ends in its only
End-of-input token and whose Opcode tokens hold a value of `enum _Opcode`,
`CountTokensOfType` and `GenerateMachineCode` return for every kind and
every `numInstr` (no null cursor is followed, the format table is indexed
inside its 2 entries), and `GenerateMachineCode` changes no slot
`binary[j]` with `j >= numInstr`; from a cursor token that has a successor,
`GetParams` for kinds other than End-of-input and the three shape parsers
return as well. -/
theorem cursor_and_buffer_safety (toks : List Token) (hw : wellFormed toks = true)
    (hop : ∀ t ∈ toks, t.type = TOKEN_TYPE_OPCODE → t.data < NUM_OPCODES) :
    (∀ type, ∃ n, CountTokensOfType toks type = some n) ∧
      (∀ numInstr binary, ∃ res r,
        GenerateMachineCode toks binary numInstr = some (res, r) ∧ (res = 0 ∨ res = 1) ∧
          r.length = binary.length ∧ ∀ j, numInstr ≤ j → r[j]? = binary[j]?) ∧
      (∀ cur rest, toks = cur :: rest → cur.type ≠ TOKEN_TYPE_EOF →
        (∀ kinds out, (∀ k ∈ kinds, k ≠ TOKEN_TYPE_EOF) →
          ∃ r, GetParams kinds.length kinds out toks = some r) ∧
        (∀ a b c, ∃ r, ParseITypeInstr a b c toks = some r) ∧
        (∀ a, ∃ r, ParseJTypeInstr a toks = some r) ∧
        (∀ a b c d e, ∃ r, ParseRTypeInstr a b c d e toks = some r)) := by
  refine ⟨fun type => CountTokensLoop_safe type toks 0 hw, ?_, ?_⟩
  · intro numInstr binary
    obtain ⟨res, r, h1, h2, h3, h4⟩ := GenerateLoop_safe numInstr 0 toks binary hw hop
    exact ⟨res, r, h1, h2, h3, fun j hj => h4 j (Or.inr (by omega))⟩
  · intro cur rest htoks hcur
    subst htoks
    have hwr := wellFormed_tail cur rest hw hcur
    refine ⟨?_, ?_, ?_, ?_⟩
    · intro kinds out hk
      obtain ⟨r, o, h, _⟩ := GetParams_safe kinds out cur rest hwr hk
      exact ⟨_, h⟩
    · intro a b c
      rcases ParseITypeInstr_spec a b c cur rest hwr with ⟨_, x, hx⟩ | ⟨_, _, _, _, _, _, hx⟩
      · exact ⟨_, hx⟩
      · exact ⟨_, hx⟩
    · intro a
      rcases ParseJTypeInstr_spec a cur rest hwr with ⟨_, x, hx⟩ | ⟨_, _, _, _, hx⟩
      · exact ⟨_, hx⟩
      · exact ⟨_, hx⟩
    · intro a b c d e
      rcases ParseRTypeInstr_spec a b c d e cur rest hwr with
        ⟨_, x, hx⟩ | ⟨_, _, _, _, _, _, _, _, hx⟩
      · exact ⟨_, hx⟩
      · exact ⟨_, hx⟩

theorem cursor_and_buffer_safety_witness :
    wellFormed [⟨TOKEN_TYPE_OPCODE, 1, 0⟩, ⟨TOKEN_TYPE_WHITESPACE, 1, 0⟩,
        ⟨TOKEN_TYPE_NUMBER, 1, 10⟩, ⟨TOKEN_TYPE_NEW_LINE, 1, 0⟩, ⟨TOKEN_TYPE_EOF, 2, 0⟩] = true ∧
      ∃ res r,
        GenerateMachineCode [⟨TOKEN_TYPE_OPCODE, 1, 0⟩, ⟨TOKEN_TYPE_WHITESPACE, 1, 0⟩,
            ⟨TOKEN_TYPE_NUMBER, 1, 10⟩, ⟨TOKEN_TYPE_NEW_LINE, 1, 0⟩, ⟨TOKEN_TYPE_EOF, 2, 0⟩]
          [7, 7, 7] 2 = some (res, r) ∧ (res = 0 ∨ res = 1) ∧
          r.length = [7, 7, 7].length ∧ ∀ j, 2 ≤ j → r[j]? = [7, 7, 7][j]? :=
  ⟨by decide,
    (cursor_and_buffer_safety
      [⟨TOKEN_TYPE_OPCODE, 1, 0⟩, ⟨TOKEN_TYPE_WHITESPACE, 1, 0⟩,
        ⟨TOKEN_TYPE_NUMBER, 1, 10⟩, ⟨TOKEN_TYPE_NEW_LINE, 1, 0⟩, ⟨TOKEN_TYPE_EOF, 2, 0⟩]
      (by decide) (by decide)).2.1 2 [7, 7, 7]⟩

/-! ## Tokens after the last instruction -/

/-- The field loop never looks behind a Newline token: on `A ++ nl :: X`
and on `A ++ nl :: Y` it fails alike, or stops alike inside `A ++ [nl]`
after tokens none of which is an Opcode token. -/
theorem GetParamsLoop_local (nl : Token) (X Y : List Token)
    (hnl : nl.type = TOKEN_TYPE_NEW_LINE) (ks : List TokenType) :
    ∀ (before : List TokenType) (out : List Nat) (A : List Token),
      (∀ x ∈ ks, x ≠ TOKEN_TYPE_NEW_LINE ∧ x ≠ TOKEN_TYPE_OPCODE) →
      (∃ o,
        GetParamsLoop (before.length + ks.length) (before ++ ks) ks.length before.length out
            (A ++ nl :: X) = some ([], o) ∧
          GetParamsLoop (before.length + ks.length) (before ++ ks) ks.length before.length out
            (A ++ nl :: Y) = some ([], o)) ∨
      (∃ A1 o,
        A1.countP (fun t => t.type = TOKEN_TYPE_OPCODE) =
            A.countP (fun t => t.type = TOKEN_TYPE_OPCODE) ∧
          GetParamsLoop (before.length + ks.length) (before ++ ks) ks.length before.length out
            (A ++ nl :: X) = some (A1 ++ nl :: X, o) ∧
          GetParamsLoop (before.length + ks.length) (before ++ ks) ks.length before.length out
            (A ++ nl :: Y) = some (A1 ++ nl :: Y, o)) := by
  induction ks with
  | nil =>
    intro before out A _
    exact Or.inr ⟨A, out, rfl, rfl, rfl⟩
  | cons k ks ih =>
    intro before out A hks
    have hget : (before ++ k :: ks).get? before.length = some k := by
      rw [List.get?_eq_getElem?, List.getElem?_append_right (le_refl _)]
      simp
    have hks2 : ∀ x ∈ ks, x ≠ TOKEN_TYPE_NEW_LINE ∧ x ≠ TOKEN_TYPE_OPCODE :=
      fun x hx => hks x (List.mem_cons_of_mem _ hx)
    have hk := hks k (by simp)
    have hnlk : nl.type ≠ k := by rw [hnl]; exact fun h => hk.1 h.symm
    have hnlc : nl.type ≠ TOKEN_TYPE_COMMA := by rw [hnl]; decide
    have hnlw : nl.type ≠ TOKEN_TYPE_WHITESPACE := by rw [hnl]; decide
    have hrw : before ++ k :: ks = (before ++ [k]) ++ ks := by simp
    have hlen : before.length + (ks.length + 1) = (before ++ [k]).length + ks.length := by
      simp only [List.length_append, List.length_cons, List.length_nil]; omega
    have hi : before.length + 1 = (before ++ [k]).length := by simp
    cases A with
    | nil =>
      refine Or.inl ⟨out, ?_, ?_⟩ <;>
        simp only [List.nil_append, List.cons_append, List.length_cons, GetParamsLoop, hget, hnlk,
                ne_eq, not_true_eq_false, not_false_eq_true, if_true, if_false]
    | cons t A1 =>
      by_cases ht : t.type = k
      · have hto : t.type ≠ TOKEN_TYPE_OPCODE := by rw [ht]; exact hk.2
        by_cases hlast : before.length < before.length + (ks.length + 1) - 1
        · cases A1 with
          | nil =>
            refine Or.inl ⟨out.set before.length t.data, ?_, ?_⟩ <;>
              simp only [List.nil_append, List.cons_append, List.length_cons, GetParamsLoop,
                hget, ht, hlast, hnlc,
                ne_eq, not_true_eq_false, not_false_eq_true, if_true, if_false]
          | cons c A2 =>
            by_cases hc : c.type = TOKEN_TYPE_COMMA
            · have hco : c.type ≠ TOKEN_TYPE_OPCODE := by rw [hc]; decide
              cases A2 with
              | nil =>
                rcases ih (before ++ [k]) (out.set before.length t.data) [] hks2 with
                  ⟨o, h1, h2⟩ | ⟨A4, o, h0, h1, h2⟩
                · refine Or.inl ⟨o, ?_, ?_⟩
                  · rw [← h1, ← hrw, ← hlen, ← hi]
                    simp only [List.nil_append, List.cons_append, List.length_cons,
                      GetParamsLoop, hget, ht, hlast, hc, hnlw,
                ne_eq, not_true_eq_false, not_false_eq_true, if_true, if_false]
                  · rw [← h2, ← hrw, ← hlen, ← hi]
                    simp only [List.nil_append, List.cons_append, List.length_cons,
                      GetParamsLoop, hget, ht, hlast, hc, hnlw,
                ne_eq, not_true_eq_false, not_false_eq_true, if_true, if_false]
                · refine Or.inr ⟨A4, o, ?_, ?_, ?_⟩
                  · rw [h0]; simp [hto, hco]
                  · rw [← h1, ← hrw, ← hlen, ← hi]
                    simp only [List.nil_append, List.cons_append, List.length_cons,
                      GetParamsLoop, hget, ht, hlast, hc, hnlw,
                ne_eq, not_true_eq_false, not_false_eq_true, if_true, if_false]
                  · rw [← h2, ← hrw, ← hlen, ← hi]
                    simp only [List.nil_append, List.cons_append, List.length_cons,
                      GetParamsLoop, hget, ht, hlast, hc, hnlw,
                ne_eq, not_true_eq_false, not_false_eq_true, if_true, if_false]
              | cons w A3 =>
                by_cases hws : w.type = TOKEN_TYPE_WHITESPACE
                · have hwo : w.type ≠ TOKEN_TYPE_OPCODE := by rw [hws]; decide
                  rcases ih (before ++ [k]) (out.set before.length t.data) A3 hks2 with
                    ⟨o, h1, h2⟩ | ⟨A4, o, h0, h1, h2⟩
                  · refine Or.inl ⟨o, ?_, ?_⟩
                    · rw [← h1, ← hrw, ← hlen, ← hi]
                      simp only [List.nil_append, List.cons_append, List.length_cons,
                        GetParamsLoop, hget, ht, hlast, hc, hws,
                ne_eq, not_true_eq_false, not_false_eq_true, if_true, if_false]
                    · rw [← h2, ← hrw, ← hlen, ← hi]
                      simp only [List.nil_append, List.cons_append, List.length_cons,
                        GetParamsLoop, hget, ht, hlast, hc, hws,
                ne_eq, not_true_eq_false, not_false_eq_true, if_true, if_false]
                  · refine Or.inr ⟨A4, o, ?_, ?_, ?_⟩
                    · rw [h0]; simp [hto, hco, hwo]
                    · rw [← h1, ← hrw, ← hlen, ← hi]
                      simp only [List.nil_append, List.cons_append, List.length_cons,
                        GetParamsLoop, hget, ht, hlast, hc, hws,
                ne_eq, not_true_eq_false, not_false_eq_true, if_true, if_false]
                    · rw [← h2, ← hrw, ← hlen, ← hi]
                      simp only [List.nil_append, List.cons_append, List.length_cons,
                        GetParamsLoop, hget, ht, hlast, hc, hws,
                ne_eq, not_true_eq_false, not_false_eq_true, if_true, if_false]
                · rcases ih (before ++ [k]) (out.set before.length t.data) (w :: A3) hks2 with
                    ⟨o, h1, h2⟩ | ⟨A4, o, h0, h1, h2⟩
                  · refine Or.inl ⟨o, ?_, ?_⟩
                    · rw [← h1, ← hrw, ← hlen, ← hi]
                      simp only [List.nil_append, List.cons_append, List.length_cons,
                        GetParamsLoop, hget, ht, hlast, hc, hws,
                ne_eq, not_true_eq_false, not_false_eq_true, if_true, if_false]
                    · rw [← h2, ← hrw, ← hlen, ← hi]
                      simp only [List.nil_append, List.cons_append, List.length_cons,
                        GetParamsLoop, hget, ht, hlast, hc, hws,
                ne_eq, not_true_eq_false, not_false_eq_true, if_true, if_false]
                  · refine Or.inr ⟨A4, o, ?_, ?_, ?_⟩
                    · rw [h0]; simp [hto, hco]
                    · rw [← h1, ← hrw, ← hlen, ← hi]
                      simp only [List.nil_append, List.cons_append, List.length_cons,
                        GetParamsLoop, hget, ht, hlast, hc, hws,
                ne_eq, not_true_eq_false, not_false_eq_true, if_true, if_false]
                    · rw [← h2, ← hrw, ← hlen, ← hi]
                      simp only [List.nil_append, List.cons_append, List.length_cons,
                        GetParamsLoop, hget, ht, hlast, hc, hws,
                ne_eq, not_true_eq_false, not_false_eq_true, if_true, if_false]
            · refine Or.inl ⟨out.set before.length t.data, ?_, ?_⟩ <;>
                simp only [List.nil_append, List.cons_append, List.length_cons, GetParamsLoop,
                  hget, ht, hlast, hc,
                ne_eq, not_true_eq_false, not_false_eq_true, if_true, if_false]
        · rcases ih (before ++ [k]) (out.set before.length t.data) A1 hks2 with
            ⟨o, h1, h2⟩ | ⟨A4, o, h0, h1, h2⟩
          · refine Or.inl ⟨o, ?_, ?_⟩
            · rw [← h1, ← hrw, ← hlen, ← hi]
              simp only [List.nil_append, List.cons_append, List.length_cons, GetParamsLoop,
                hget, ht, hlast,
                ne_eq, not_true_eq_false, not_false_eq_true, if_true, if_false]
            · rw [← h2, ← hrw, ← hlen, ← hi]
              simp only [List.nil_append, List.cons_append, List.length_cons, GetParamsLoop,
                hget, ht, hlast,
                ne_eq, not_true_eq_false, not_false_eq_true, if_true, if_false]
          · refine Or.inr ⟨A4, o, ?_, ?_, ?_⟩
            · rw [h0]; simp [hto]
            · rw [← h1, ← hrw, ← hlen, ← hi]
              simp only [List.nil_append, List.cons_append, List.length_cons, GetParamsLoop,
                hget, ht, hlast,
                ne_eq, not_true_eq_false, not_false_eq_true, if_true, if_false]
            · rw [← h2, ← hrw, ← hlen, ← hi]
              simp only [List.nil_append, List.cons_append, List.length_cons, GetParamsLoop,
                hget, ht, hlast,
                ne_eq, not_true_eq_false, not_false_eq_true, if_true, if_false]
      · refine Or.inl ⟨out, ?_, ?_⟩ <;>
          simp only [List.nil_append, List.cons_append, List.length_cons, GetParamsLoop, hget, ht,
                ne_eq, not_true_eq_false, not_false_eq_true, if_true, if_false]

theorem dispatchParser_local (nl : Token) (X Y : List Token)
    (hnl : nl.type = TOKEN_TYPE_NEW_LINE) (type : InstrType) (w : Token) (A : List Token) :
    (∃ v, dispatchParser type (w :: (A ++ nl :: X)) = some ([], v) ∧
        dispatchParser type (w :: (A ++ nl :: Y)) = some ([], v)) ∨
      (∃ A1 v,
        A1.countP (fun t => t.type = TOKEN_TYPE_OPCODE) =
            A.countP (fun t => t.type = TOKEN_TYPE_OPCODE) ∧
          dispatchParser type (w :: (A ++ nl :: X)) = some (A1 ++ nl :: X, v) ∧
          dispatchParser type (w :: (A ++ nl :: Y)) = some (A1 ++ nl :: Y, v)) := by
  have hne : ∀ (B Z : List Token), (B ++ nl :: Z = []) = False := by
    intro B Z; simp
  cases type with
  | INSTR_TYPE_I =>
    have h := GetParamsLoop_local nl X Y hnl
      [TOKEN_TYPE_REGISTER, TOKEN_TYPE_REGISTER, TOKEN_TYPE_NUMBER] [] [0, 0, 0] A (by simp)
    simp only [List.length_cons, List.length_nil, Nat.zero_add, List.nil_append,
      Nat.reduceAdd] at h
    rcases h with ⟨o, h1, h2⟩ | ⟨A1, o, h0, h1, h2⟩
    · refine Or.inl ⟨(⟨o.getD 0 0, o.getD 1 0, o.getD 2 0, 0, 0, 0, 0⟩ : Operands), ?_, ?_⟩
      · simp only [dispatchParser, ParseITypeInstr, GetParams, h1, if_true]
      · simp only [dispatchParser, ParseITypeInstr, GetParams, h2, if_true]
    · by_cases hv : o.getD 2 0 > 0xFFFF
      · refine Or.inl ⟨(⟨o.getD 0 0, o.getD 1 0, o.getD 2 0, 0, 0, 0, 0⟩ : Operands), ?_, ?_⟩
        · simp only [dispatchParser, ParseITypeInstr, GetParams, h1, hne, hv, if_true, if_false]
        · simp only [dispatchParser, ParseITypeInstr, GetParams, h2, hne, hv, if_true, if_false]
      · refine Or.inr ⟨A1, (⟨o.getD 0 0, o.getD 1 0, o.getD 2 0, 0, 0, 0, 0⟩ : Operands),
          h0, ?_, ?_⟩
        · simp only [dispatchParser, ParseITypeInstr, GetParams, h1, hne, hv, if_false]
        · simp only [dispatchParser, ParseITypeInstr, GetParams, h2, hne, hv, if_false]
  | INSTR_TYPE_J =>
    have h := GetParamsLoop_local nl X Y hnl
      [TOKEN_TYPE_NUMBER] [] [0] A (by simp)
    simp only [List.length_cons, List.length_nil, Nat.zero_add, List.nil_append,
      Nat.reduceAdd] at h
    rcases h with ⟨o, h1, h2⟩ | ⟨A1, o, h0, h1, h2⟩
    · refine Or.inl ⟨(⟨0, 0, 0, o.getD 0 0, 0, 0, 0⟩ : Operands), ?_, ?_⟩
      · simp only [dispatchParser, ParseJTypeInstr, GetParams, h1, if_true]
      · simp only [dispatchParser, ParseJTypeInstr, GetParams, h2, if_true]
    · by_cases hv : o.getD 0 0 > 0x3FFFFFF
      · refine Or.inl ⟨(⟨0, 0, 0, o.getD 0 0, 0, 0, 0⟩ : Operands), ?_, ?_⟩
        · simp only [dispatchParser, ParseJTypeInstr, GetParams, h1, hne, hv, if_true, if_false]
        · simp only [dispatchParser, ParseJTypeInstr, GetParams, h2, hne, hv, if_true, if_false]
      · refine Or.inr ⟨A1, (⟨0, 0, 0, o.getD 0 0, 0, 0, 0⟩ : Operands), h0, ?_, ?_⟩
        · simp only [dispatchParser, ParseJTypeInstr, GetParams, h1, hne, hv, if_false]
        · simp only [dispatchParser, ParseJTypeInstr, GetParams, h2, hne, hv, if_false]
  | INSTR_TYPE_R =>
    have h := GetParamsLoop_local nl X Y hnl
      [TOKEN_TYPE_REGISTER, TOKEN_TYPE_REGISTER, TOKEN_TYPE_REGISTER,
        TOKEN_TYPE_NUMBER, TOKEN_TYPE_NUMBER] [] [0, 0, 0, 0, 0] A (by simp)
    simp only [List.length_cons, List.length_nil, Nat.zero_add, List.nil_append,
      Nat.reduceAdd] at h
    rcases h with ⟨o, h1, h2⟩ | ⟨A1, o, h0, h1, h2⟩
    · refine Or.inl ⟨(⟨o.getD 0 0, o.getD 1 0, 0, 0, o.getD 2 0, o.getD 3 0, o.getD 4 0⟩ : Operands),
        ?_, ?_⟩
      · simp only [dispatchParser, ParseRTypeInstr, GetParams, h1, if_true]
      · simp only [dispatchParser, ParseRTypeInstr, GetParams, h2, if_true]
    · by_cases hv : o.getD 3 0 > 0x1F
      · refine Or.inl ⟨(⟨o.getD 0 0, o.getD 1 0, 0, 0, o.getD 2 0, o.getD 3 0, o.getD 4 0⟩ : Operands),
          ?_, ?_⟩
        · simp only [dispatchParser, ParseRTypeInstr, GetParams, h1, hne, hv, if_true, if_false]
        · simp only [dispatchParser, ParseRTypeInstr, GetParams, h2, hne, hv, if_true, if_false]
      · by_cases hf : o.getD 4 0 > 0x3F
        · refine Or.inl ⟨(⟨o.getD 0 0, o.getD 1 0, 0, 0, o.getD 2 0, o.getD 3 0, o.getD 4 0⟩ : Operands),
            ?_, ?_⟩
          · simp only [dispatchParser, ParseRTypeInstr, GetParams, h1, hne, hv, hf,
              if_true, if_false]
          · simp only [dispatchParser, ParseRTypeInstr, GetParams, h2, hne, hv, hf,
              if_true, if_false]
        · refine Or.inr ⟨A1, (⟨o.getD 0 0, o.getD 1 0, 0, 0, o.getD 2 0, o.getD 3 0, o.getD 4 0⟩ : Operands),
            h0, ?_, ?_⟩
          · simp only [dispatchParser, ParseRTypeInstr, GetParams, h1, hne, hv, hf, if_false]
          · simp only [dispatchParser, ParseRTypeInstr, GetParams, h2, hne, hv, hf, if_false]

/-- The driver loop with at most as many iterations as there are Opcode
tokens in `A` never looks behind a Newline token that follows `A`. -/
theorem GenerateLoop_local (nl : Token) (X Y : List Token)
    (hnl : nl.type = TOKEN_TYPE_NEW_LINE) (k : Nat) :
    ∀ (i : Nat) (A : List Token) (binary : List Nat),
      k ≤ A.countP (fun t => t.type = TOKEN_TYPE_OPCODE) →
      GenerateLoop k i (A ++ nl :: X) binary = GenerateLoop k i (A ++ nl :: Y) binary := by
  have hnlw : nl.type ≠ TOKEN_TYPE_WHITESPACE := by rw [hnl]; decide
  have hnle : nl.type ≠ TOKEN_TYPE_EOF := by rw [hnl]; decide
  induction k with
  | zero => intro i A binary _; rfl
  | succ k ih =>
    intro i A binary hk
    cases A with
    | nil => simp at hk
    | cons t A1 =>
      by_cases ht : t.type = TOKEN_TYPE_OPCODE
      · have hk1 : k ≤ A1.countP (fun t => t.type = TOKEN_TYPE_OPCODE) := by
          rw [List.countP_cons_of_pos _ _ (by simpa using ht)] at hk
          omega
        cases hp : instructionProperties.get? t.data with
        | none => simp only [List.cons_append, GenerateLoop, hp]
        | some props =>
          cases A1 with
          | nil =>
            simp only [List.cons_append, List.nil_append, GenerateLoop, hp, ht, hnlw, ne_eq,
              not_true_eq_false, not_false_eq_true, if_true, if_false]
          | cons w A2 =>
            by_cases hws : w.type = TOKEN_TYPE_WHITESPACE
            · have hwo : w.type ≠ TOKEN_TYPE_OPCODE := by rw [hws]; decide
              have hk2 : k ≤ A2.countP (fun t => t.type = TOKEN_TYPE_OPCODE) := by
                rw [List.countP_cons_of_neg _ _ (by simpa using hwo)] at hk1
                exact hk1
              rcases dispatchParser_local nl X Y hnl props.type w A2 with
                ⟨v, h1, h2⟩ | ⟨A3, v, h0, h1, h2⟩
              · simp only [List.cons_append, GenerateLoop, hp, ht, hws, h1, h2, ne_eq,
                  not_true_eq_false, if_false]
              · cases A3 with
                | nil =>
                  have hk0 : k = 0 := by
                    rw [← h0] at hk2
                    simpa using hk2
                  subst hk0
                  simp only [List.cons_append, List.nil_append, GenerateLoop, hp, ht, hws, h1,
                    h2, hnl, hnle, ne_eq, not_true_eq_false, if_false]
                | cons e A4 =>
                  by_cases he : e.type = TOKEN_TYPE_EOF
                  · simp only [List.cons_append, GenerateLoop, hp, ht, hws, h1, h2, he, ne_eq,
                      not_true_eq_false, if_true, if_false]
                  · by_cases hen : e.type = TOKEN_TYPE_NEW_LINE
                    · have heo : e.type ≠ TOKEN_TYPE_OPCODE := by rw [hen]; decide
                      have hk4 : k ≤ A4.countP (fun t => t.type = TOKEN_TYPE_OPCODE) := by
                        rw [← h0, List.countP_cons_of_neg _ _ (by simpa using heo)] at hk2
                        exact hk2
                      simp only [List.cons_append, GenerateLoop, hp, ht, hws, h1, h2, he, hen,
                        ne_eq, not_true_eq_false, if_false]
                      exact ih _ A4 _ hk4
                    · simp only [List.cons_append, GenerateLoop, hp, ht, hws, h1, h2, he, hen,
                        ne_eq, not_true_eq_false, not_false_eq_true, if_true, if_false]
            · simp only [List.cons_append, GenerateLoop, hp, ht, hws, ne_eq,
                not_true_eq_false, not_false_eq_true, if_true, if_false]
      · simp only [List.cons_append, GenerateLoop, ht, ne_eq, not_false_eq_true, if_true]

theorem CountTokensLoop_tail (tail : List Token) (e : Token) (he : e.type = TOKEN_TYPE_EOF)
    (h : ∀ t ∈ tail, t.type ≠ TOKEN_TYPE_OPCODE) (c : Nat) :
    CountTokensLoop TOKEN_TYPE_OPCODE (tail ++ [e]) c = some c := by
  induction tail with
  | nil => simp [CountTokensLoop, he]
  | cons t tail ih =>
    have ht := h t (by simp)
    have ih2 := ih (fun x hx => h x (List.mem_cons_of_mem _ hx))
    show CountTokensLoop TOKEN_TYPE_OPCODE (t :: (tail ++ [e])) c = some c
    rw [CountTokensLoop]
    by_cases hE : t.type = TOKEN_TYPE_EOF
    · simp only [hE, if_true]
    · simp only [hE, ht, if_false]
      exact ih2

theorem CountTokensLoop_prefix (R1 R2 : List Token)
    (hR : ∀ c, CountTokensLoop TOKEN_TYPE_OPCODE R1 c = some c ∧
      CountTokensLoop TOKEN_TYPE_OPCODE R2 c = some c) (pre : List Token) :
    ∀ c, ∃ n, n ≤ c + pre.countP (fun t => t.type = TOKEN_TYPE_OPCODE) ∧
      CountTokensLoop TOKEN_TYPE_OPCODE (pre ++ R1) c = some n ∧
      CountTokensLoop TOKEN_TYPE_OPCODE (pre ++ R2) c = some n := by
  induction pre with
  | nil => intro c; exact ⟨c, by simp, (hR c).1, (hR c).2⟩
  | cons t pre ih =>
    intro c
    by_cases hE : t.type = TOKEN_TYPE_EOF
    · exact ⟨c, by omega, by simp [CountTokensLoop, hE], by simp [CountTokensLoop, hE]⟩
    · by_cases ht : t.type = TOKEN_TYPE_OPCODE
      · obtain ⟨n, h0, h1, h2⟩ := ih ((c + 1) % 2 ^ 32)
        refine ⟨n, ?_, ?_, ?_⟩
        · rw [List.countP_cons_of_pos _ _ (by simpa using ht)]
          have := Nat.mod_le (c + 1) (2 ^ 32)
          omega
        · show CountTokensLoop TOKEN_TYPE_OPCODE (t :: (pre ++ R1)) c = some n
          rw [CountTokensLoop, if_neg hE, if_pos ht]
          exact h1
        · show CountTokensLoop TOKEN_TYPE_OPCODE (t :: (pre ++ R2)) c = some n
          rw [CountTokensLoop, if_neg hE, if_pos ht]
          exact h2
      · obtain ⟨n, h0, h1, h2⟩ := ih c
        refine ⟨n, ?_, ?_, ?_⟩
        · rw [List.countP_cons_of_neg _ _ (by simpa using ht)]
          exact h0
        · show CountTokensLoop TOKEN_TYPE_OPCODE (t :: (pre ++ R1)) c = some n
          rw [CountTokensLoop, if_neg hE, if_neg ht]
          exact h1
        · show CountTokensLoop TOKEN_TYPE_OPCODE (t :: (pre ++ R2)) c = some n
          rw [CountTokensLoop, if_neg hE, if_neg ht]
          exact h2

/-- C18 (tokens after the last instruction).  Let a Newline token `nl`
follow the tokens `pre`.  `GenerateMachineCode` run for at most as many
instructions as `pre` has Opcode tokens returns the same result and buffer
whatever follows `nl`.  When what follows `nl` up to the End-of-input token
holds no Opcode token (`nl` is behind the last instruction), the two chains
have the same Opcode count `n`, `GenerateMachineCode` returns the same
result and words for `n` on both, and two source texts that lex to them
are assembled to the same outcome. -/
theorem trailing_tokens_ignored (pre tail1 tail2 : List Token) (nl e1 e2 : Token)
    (hnl : nl.type = TOKEN_TYPE_NEW_LINE)
    (he1 : e1.type = TOKEN_TYPE_EOF) (he2 : e2.type = TOKEN_TYPE_EOF)
    (h1 : ∀ t ∈ tail1, t.type ≠ TOKEN_TYPE_OPCODE)
    (h2 : ∀ t ∈ tail2, t.type ≠ TOKEN_TYPE_OPCODE) :
    (∀ k X Y binary, k ≤ pre.countP (fun t => t.type = TOKEN_TYPE_OPCODE) →
        GenerateMachineCode (pre ++ nl :: X) binary k =
          GenerateMachineCode (pre ++ nl :: Y) binary k) ∧
      (∃ n, CountTokensOfType (pre ++ nl :: (tail1 ++ [e1])) TOKEN_TYPE_OPCODE = some n ∧
        CountTokensOfType (pre ++ nl :: (tail2 ++ [e2])) TOKEN_TYPE_OPCODE = some n ∧
        ∀ binary, GenerateMachineCode (pre ++ nl :: (tail1 ++ [e1])) binary n =
          GenerateMachineCode (pre ++ nl :: (tail2 ++ [e2])) binary n) ∧
      (∀ text1 text2, Tokenize text1 = some (0, pre ++ nl :: (tail1 ++ [e1])) →
        Tokenize text2 = some (0, pre ++ nl :: (tail2 ++ [e2])) →
        Assemble text1 = Assemble text2) := by
  have hloc : ∀ k X Y binary, k ≤ pre.countP (fun t => t.type = TOKEN_TYPE_OPCODE) →
      GenerateMachineCode (pre ++ nl :: X) binary k =
        GenerateMachineCode (pre ++ nl :: Y) binary k :=
    fun k X Y binary hk => GenerateLoop_local nl X Y hnl k 0 pre binary hk
  have hnle : nl.type ≠ TOKEN_TYPE_EOF := by rw [hnl]; decide
  have hnlo : nl.type ≠ TOKEN_TYPE_OPCODE := by rw [hnl]; decide
  have hR : ∀ c, CountTokensLoop TOKEN_TYPE_OPCODE (nl :: (tail1 ++ [e1])) c = some c ∧
      CountTokensLoop TOKEN_TYPE_OPCODE (nl :: (tail2 ++ [e2])) c = some c := by
    intro c
    simp only [CountTokensLoop, hnle, hnlo, if_false, CountTokensLoop_tail tail1 e1 he1 h1,
      CountTokensLoop_tail tail2 e2 he2 h2, and_self]
  obtain ⟨n, hn, hc1, hc2⟩ := CountTokensLoop_prefix _ _ hR pre 0
  have hgen := fun binary => hloc n (tail1 ++ [e1]) (tail2 ++ [e2]) binary (by omega)
  refine ⟨hloc, ⟨n, hc1, hc2, hgen⟩, ?_⟩
  intro text1 text2 ht1 ht2
  have hc1b : CountTokensOfType (pre ++ nl :: (tail1 ++ [e1])) TOKEN_TYPE_OPCODE = some n := hc1
  have hc2b : CountTokensOfType (pre ++ nl :: (tail2 ++ [e2])) TOKEN_TYPE_OPCODE = some n := hc2
  simp only [Assemble, ht1, ht2, hc1b, hc2b, hgen]

theorem trailing_tokens_ignored_witness :
    Tokenize (cstr "J 10\n") =
        some (0, [⟨TOKEN_TYPE_OPCODE, 1, 0⟩, ⟨TOKEN_TYPE_WHITESPACE, 1, 0⟩,
          ⟨TOKEN_TYPE_NUMBER, 1, 10⟩] ++ ⟨TOKEN_TYPE_NEW_LINE, 1, 0⟩ ::
            ([] ++ [⟨TOKEN_TYPE_EOF, 2, 0⟩])) ∧
      Tokenize (cstr "J 10\n,,$5 7\n\n") =
        some (0, [⟨TOKEN_TYPE_OPCODE, 1, 0⟩, ⟨TOKEN_TYPE_WHITESPACE, 1, 0⟩,
          ⟨TOKEN_TYPE_NUMBER, 1, 10⟩] ++ ⟨TOKEN_TYPE_NEW_LINE, 1, 0⟩ ::
            ([⟨TOKEN_TYPE_COMMA, 2, 0⟩, ⟨TOKEN_TYPE_COMMA, 2, 0⟩, ⟨TOKEN_TYPE_REGISTER, 2, 5⟩,
              ⟨TOKEN_TYPE_WHITESPACE, 2, 0⟩, ⟨TOKEN_TYPE_NUMBER, 2, 7⟩,
              ⟨TOKEN_TYPE_NEW_LINE, 2, 0⟩, ⟨TOKEN_TYPE_NEW_LINE, 3, 0⟩] ++
              [⟨TOKEN_TYPE_EOF, 4, 0⟩])) ∧
      Assemble (cstr "J 10\n") =
        some { status := 0, exit := AssembleExit.writerCalled, written := some [0x0800000A] } ∧
      Assemble (cstr "J 10\n") = Assemble (cstr "J 10\n,,$5 7\n\n") :=
  ⟨by decide, by decide, by decide,
    (trailing_tokens_ignored
      [⟨TOKEN_TYPE_OPCODE, 1, 0⟩, ⟨TOKEN_TYPE_WHITESPACE, 1, 0⟩, ⟨TOKEN_TYPE_NUMBER, 1, 10⟩]
      []
      [⟨TOKEN_TYPE_COMMA, 2, 0⟩, ⟨TOKEN_TYPE_COMMA, 2, 0⟩, ⟨TOKEN_TYPE_REGISTER, 2, 5⟩,
        ⟨TOKEN_TYPE_WHITESPACE, 2, 0⟩, ⟨TOKEN_TYPE_NUMBER, 2, 7⟩,
        ⟨TOKEN_TYPE_NEW_LINE, 2, 0⟩, ⟨TOKEN_TYPE_NEW_LINE, 3, 0⟩]
      ⟨TOKEN_TYPE_NEW_LINE, 1, 0⟩ ⟨TOKEN_TYPE_EOF, 2, 0⟩ ⟨TOKEN_TYPE_EOF, 4, 0⟩
      (by decide) (by decide) (by decide) (by decide) (by decide)).2.2
      (cstr "J 10\n") (cstr "J 10\n,,$5 7\n\n") (by decide) (by decide)⟩

/-! ## One instruction per line -/

/-- C17 as stated fails for the Opcode count 0: the text of one newline
lexes to a Newline token and the End-of-input token, its Opcode count is 0,
and `GenerateMachineCode` run for 0 instructions returns 0 although the
first token is not an Opcode token. -/
theorem instruction_per_line_counterexample :
    Tokenize (cstr "\n") =
        some (0, [{ type := TOKEN_TYPE_NEW_LINE, lineNumber := 1, data := 0 },
          { type := TOKEN_TYPE_EOF, lineNumber := 2, data := 0 }]) ∧
      CountTokensOfType [{ type := TOKEN_TYPE_NEW_LINE, lineNumber := 1, data := 0 },
          { type := TOKEN_TYPE_EOF, lineNumber := 2, data := 0 }] TOKEN_TYPE_OPCODE = some 0 ∧
      GenerateMachineCode [{ type := TOKEN_TYPE_NEW_LINE, lineNumber := 1, data := 0 },
          { type := TOKEN_TYPE_EOF, lineNumber := 2, data := 0 }] [] 0 = some (0, []) := by
  refine ⟨?_, ?_, ?_⟩ <;> decide

theorem wellFormed_suffix (A B : List Token) (h : wellFormed (A ++ B) = true)
    (hB : B ≠ []) : wellFormed B = true := by
  induction A with
  | nil => exact h
  | cons x A ih =>
    by_cases hx : x.type = TOKEN_TYPE_EOF
    · have := wellFormed_eof x (A ++ B) h hx
      simp [hB] at this
    · exact ih (wellFormed_tail x (A ++ B) h hx)

theorem instructions_length (toks : List Token) :
    (instructions toks).length = toks.countP (fun t => t.type = TOKEN_TYPE_OPCODE) := by
  induction toks with
  | nil => rfl
  | cons t rest ih =>
    by_cases ht : t.type = TOKEN_TYPE_OPCODE
    · rw [List.countP_cons_of_pos _ _ (by simpa using ht)]
      simp [instructions, ht, ih]
    · rw [List.countP_cons_of_neg _ _ (by simpa using ht)]
      simp [instructions, ht, ih]

/-- An Opcode token that is not the first token of `(t0 :: M) ++ rest`,
where `M` holds no Opcode token, lies in `rest`. -/
theorem opcode_after_prefix (t0 t : Token) (M rest pre post : List Token)
    (hM : ∀ x ∈ M, x.type ≠ TOKEN_TYPE_OPCODE) (ht : t.type = TOKEN_TYPE_OPCODE)
    (hpre : pre ≠ []) (h : (t0 :: M) ++ rest = pre ++ t :: post) :
    ∃ pre1, pre = (t0 :: M) ++ pre1 ∧ rest = pre1 ++ t :: post := by
  rcases List.append_eq_append_iff.mp h with ⟨a1, h1, h2⟩ | ⟨c1, h1, h2⟩
  · exact ⟨a1, h1, h2⟩
  · cases c1 with
    | nil =>
      refine ⟨[], ?_, ?_⟩
      · simpa using h1.symm
      · simpa using h2.symm
    | cons x c2 =>
      exfalso
      simp only [List.cons_append, List.cons.injEq] at h2
      cases pre with
      | nil => exact hpre rfl
      | cons p ps =>
        simp only [List.cons_append, List.cons.injEq] at h1
        have hx : x ∈ M := by rw [h1.2]; simp
        exact hM x hx (h2.1 ▸ ht)

theorem afterLastOpcode_none (l : List Token) (h : ∀ t ∈ l, t.type ≠ TOKEN_TYPE_OPCODE) :
    afterLastOpcode l = none := by
  induction l with
  | nil => rfl
  | cons t rest ih =>
    have h1 := ih (fun x hx => h x (List.mem_cons_of_mem _ hx))
    have h2 := h t (by simp)
    simp [afterLastOpcode, h1, h2]

theorem afterLastOpcode_append (A B : List Token) (r : Token × List Token)
    (h : afterLastOpcode B = some r) : afterLastOpcode (A ++ B) = some r := by
  induction A with
  | nil => exact h
  | cons a A ih =>
    show afterLastOpcode (a :: (A ++ B)) = some r
    simp [afterLastOpcode, ih]

theorem separatedByOneNewline_append (A B : List Token)
    (h : separatedByOneNewline B = true) : separatedByOneNewline (A ++ B) = true := by
  unfold separatedByOneNewline at h ⊢
  cases hB : afterLastOpcode B with
  | none => rw [hB] at h; simp at h
  | some r =>
    rw [afterLastOpcode_append A B r hB]
    rw [hB] at h
    exact h

/-- A match of operand fields reads a stretch of tokens that holds no Opcode
token, and it matches that stretch whatever follows it. -/
theorem fieldMatches_split (ks : List TokenType) :
    ∀ (toks : List Token) (vals : List Nat) (rest : List Token),
      (vals, rest) ∈ fieldMatches ks toks →
      (∀ k ∈ ks, k = TOKEN_TYPE_REGISTER ∨ k = TOKEN_TYPE_NUMBER) →
      ∃ fields, toks = fields ++ rest ∧ (∀ t ∈ fields, t.type ≠ TOKEN_TYPE_OPCODE) ∧
        ∀ X, (vals, X) ∈ fieldMatches ks (fields ++ X) := by
  induction ks with
  | nil => intro toks vals rest h; simp [fieldMatches] at h
  | cons k ks ih =>
    intro toks vals rest h hk
    have hk1 := hk k (by simp)
    cases ks with
    | nil =>
      cases toks with
      | nil => simp [fieldMatches] at h
      | cons t next =>
        simp only [fieldMatches] at h
        split_ifs at h with ht
        · simp only [List.mem_singleton, Prod.mk.injEq] at h
          obtain ⟨rfl, rfl⟩ := h
          refine ⟨[t], rfl, ?_, ?_⟩
          · intro x hx
            simp only [List.mem_singleton] at hx
            subst hx
            rcases hk1 with h | h <;> rw [ht, h] <;> decide
          · intro X
            simp [fieldMatches, ht]
        · simp at h
    | cons k2 ks2 =>
      have hk' : ∀ x ∈ k2 :: ks2, x = TOKEN_TYPE_REGISTER ∨ x = TOKEN_TYPE_NUMBER :=
        fun x hx => hk x (List.mem_cons_of_mem _ hx)
      cases toks with
      | nil => simp [fieldMatches] at h
      | cons t next =>
        cases next with
        | nil => simp [fieldMatches] at h
        | cons c after =>
          simp only [fieldMatches] at h
          split_ifs at h with htc
          · obtain ⟨ht, hc⟩ := htc
            simp only [List.mem_map, List.mem_append, Prod.mk.injEq] at h
            obtain ⟨m, hm, rfl, rfl⟩ := h
            have hnt : t.type ≠ TOKEN_TYPE_OPCODE := by
              rcases hk1 with h | h <;> rw [ht, h] <;> decide
            have hnc : c.type ≠ TOKEN_TYPE_OPCODE := by rw [hc]; decide
            rcases hm with hm | hm
            · obtain ⟨fields, h1, h2, h3⟩ := ih after m.1 m.2 hm hk'
              refine ⟨t :: c :: fields, by simp [h1], ?_, ?_⟩
              · intro x hx
                simp only [List.mem_cons] at hx
                rcases hx with rfl | rfl | hx
                · exact hnt
                · exact hnc
                · exact h2 x hx
              · intro X
                show (t.data :: m.1, X) ∈ fieldMatches (k :: k2 :: ks2) (t :: c :: (fields ++ X))
                simp only [fieldMatches, ht, hc, and_self, if_true, List.mem_map,
                  List.mem_append, Prod.mk.injEq]
                exact ⟨(m.1, X), Or.inl (h3 X), rfl, rfl⟩
            · cases after with
              | nil => simp at hm
              | cons w after2 =>
                simp only [] at hm
                split_ifs at hm with hw
                · obtain ⟨fields, h1, h2, h3⟩ := ih after2 m.1 m.2 hm hk'
                  have hnw : w.type ≠ TOKEN_TYPE_OPCODE := by rw [hw]; decide
                  refine ⟨t :: c :: w :: fields, by simp [h1], ?_, ?_⟩
                  · intro x hx
                    simp only [List.mem_cons] at hx
                    rcases hx with rfl | rfl | rfl | hx
                    · exact hnt
                    · exact hnc
                    · exact hnw
                    · exact h2 x hx
                  · intro X
                    show (t.data :: m.1, X) ∈
                      fieldMatches (k :: k2 :: ks2) (t :: c :: w :: (fields ++ X))
                    simp only [fieldMatches, ht, hc, hw, and_self, if_true, List.mem_map,
                      List.mem_append, Prod.mk.injEq]
                    exact ⟨(m.1, X), Or.inr (h3 X), rfl, rfl⟩
                · simp at hm
          · simp at h

theorem shapeKinds_operands (type : InstrType) :
    ∀ k ∈ shapeKinds type, k = TOKEN_TYPE_REGISTER ∨ k = TOKEN_TYPE_NUMBER := by
  cases type <;> simp [shapeKinds]

/-- When the parser of a shape returns a cursor, the tokens behind the
Whitespace token match the operand fields of the shape up to that cursor. -/
theorem dispatchParser_fields (type : InstrType) (w e : Token) (next1 next2 : List Token)
    (v : Operands) (hw : wellFormed next1 = true)
    (h : dispatchParser type (w :: next1) = some (e :: next2, v)) :
    ∃ vals, fieldMatches (shapeKinds type) next1 = [(vals, e :: next2)] := by
  cases type with
  | INSTR_TYPE_I =>
    rcases ParseITypeInstr_spec 0 0 0 w next1 hw with ⟨_, x, hx⟩ | ⟨rs, rt, imm, rest, hm, _, hx⟩
    · simp [dispatchParser, hx] at h
    · simp only [dispatchParser, hx] at h
      by_cases hv : imm > 0xFFFF
      · simp [hv] at h
      · simp only [hv, if_false, Option.some.injEq, Prod.mk.injEq] at h
        exact ⟨_, by rw [← h.1]; exact hm⟩
  | INSTR_TYPE_J =>
    rcases ParseJTypeInstr_spec 0 w next1 hw with ⟨_, x, hx⟩ | ⟨target, rest, hm, _, hx⟩
    · simp [dispatchParser, hx] at h
    · simp only [dispatchParser, hx] at h
      by_cases hv : target > 0x3FFFFFF
      · simp [hv] at h
      · simp only [hv, if_false, Option.some.injEq, Prod.mk.injEq] at h
        exact ⟨_, by rw [← h.1]; exact hm⟩
  | INSTR_TYPE_R =>
    rcases ParseRTypeInstr_spec 0 0 0 0 0 w next1 hw with
      ⟨_, x, hx⟩ | ⟨rs, rt, rd, shift, function, rest, hm, _, hx⟩
    · simp [dispatchParser, hx] at h
    · simp only [dispatchParser, hx] at h
      by_cases hv : shift > 0x1F ∨ function > 0x3F
      · simp [hv] at h
      · simp only [hv, if_false, Option.some.injEq, Prod.mk.injEq] at h
        exact ⟨_, by rw [← h.1]; exact hm⟩

theorem separatedByOneNewline_line (t0 w e : Token) (props : InstrProperties)
    (fields : List Token) (vals : List Nat) (ht0 : t0.type = TOKEN_TYPE_OPCODE)
    (hp : instructionProperties.get? t0.data = some props)
    (hws : w.type = TOKEN_TYPE_WHITESPACE) (he : e.type = TOKEN_TYPE_NEW_LINE)
    (hf : ∀ t ∈ fields, t.type ≠ TOKEN_TYPE_OPCODE)
    (hm : (vals, [e]) ∈ fieldMatches (shapeKinds props.type) (fields ++ [e])) :
    separatedByOneNewline (t0 :: w :: (fields ++ [e])) = true := by
  have hnone : afterLastOpcode (w :: (fields ++ [e])) = none := by
    apply afterLastOpcode_none
    intro x hx
    simp only [List.mem_cons, List.mem_append, List.mem_singleton, List.not_mem_nil,
      or_false] at hx
    rcases hx with rfl | hx | rfl
    · rw [hws]; decide
    · exact hf x hx
    · rw [he]; decide
  have hlast : afterLastOpcode (t0 :: w :: (fields ++ [e])) =
      some (t0, w :: (fields ++ [e])) := by
    rw [afterLastOpcode, hnone]
    simp [ht0]
  unfold separatedByOneNewline
  rw [hlast]
  simp only [hp, hws, beq_self_eq_true, Bool.true_and, List.any_eq_true]
  exact ⟨(vals, [e]), hm, by simp [he]⟩

/-- When the driver loop, run for at least as many instructions as there
are Opcode tokens, returns 0, the first token is an Opcode token, every
Opcode token is directly followed by a Whitespace token, and every later
Opcode token stands exactly one Newline token behind the last operand token
of the preceding instruction. -/
theorem GenerateLoop_grammar (k : Nat) :
    ∀ (i : Nat) (toks : List Token) (binary out : List Nat),
      wellFormed toks = true →
      toks.countP (fun t => t.type = TOKEN_TYPE_OPCODE) ≤ k →
      GenerateLoop k i toks binary = some (0, out) →
      (∀ t ∈ toks, t.type ≠ TOKEN_TYPE_OPCODE) ∨
        ((∃ t rest, toks = t :: rest ∧ t.type = TOKEN_TYPE_OPCODE) ∧
          ∀ pre t post, toks = pre ++ t :: post → t.type = TOKEN_TYPE_OPCODE →
            (∃ w post1, post = w :: post1 ∧ w.type = TOKEN_TYPE_WHITESPACE) ∧
              (pre ≠ [] → separatedByOneNewline pre = true)) := by
  induction k with
  | zero =>
    intro i toks binary out _ hc _
    left
    intro t ht
    have h0 : toks.countP (fun t => t.type = TOKEN_TYPE_OPCODE) = 0 := by omega
    have := (List.countP_eq_zero.mp h0) t ht
    simpa using this
  | succ k ih =>
    intro i toks binary out hw hc h
    cases toks with
    | nil => simp [wellFormed] at hw
    | cons t0 next =>
      by_cases ht0 : t0.type = TOKEN_TYPE_OPCODE
      · right
        refine ⟨⟨t0, next, rfl, ht0⟩, ?_⟩
        cases hp : instructionProperties.get? t0.data with
        | none =>
          simp only [GenerateLoop, ht0, hp, ne_eq, not_true_eq_false, if_false,
            reduceCtorEq] at h
        | some props =>
          cases next with
          | nil =>
            simp only [GenerateLoop, ht0, hp, ne_eq, not_true_eq_false, if_false,
              reduceCtorEq] at h
          | cons w next1 =>
            by_cases hws : w.type = TOKEN_TYPE_WHITESPACE
            · have hwo : w.type ≠ TOKEN_TYPE_OPCODE := by rw [hws]; decide
              have hwE : w.type ≠ TOKEN_TYPE_EOF := by rw [hws]; decide
              have ht0E : t0.type ≠ TOKEN_TYPE_EOF := by rw [ht0]; decide
              have hw1 : wellFormed next1 = true :=
                wellFormed_tail w next1 (wellFormed_tail t0 _ hw ht0E) hwE
              cases hd : dispatchParser props.type (w :: next1) with
              | none =>
                simp only [GenerateLoop, ht0, hp, hws, hd, ne_eq, not_true_eq_false, if_false,
                  reduceCtorEq] at h
              | some r =>
                obtain ⟨tok, v⟩ := r
                cases tok with
                | nil =>
                  simp only [GenerateLoop, ht0, hp, hws, hd, ne_eq, not_true_eq_false,
                    if_false, reduceCtorEq, Option.some.injEq, Prod.mk.injEq, one_ne_zero,
                    false_and] at h
                | cons e next2 =>
                  obtain ⟨vals, hfm⟩ := dispatchParser_fields props.type w e next1 next2 v hw1 hd
                  obtain ⟨fields, hn1, hfields, hany⟩ :=
                    fieldMatches_split (shapeKinds props.type) next1 vals (e :: next2)
                      (by rw [hfm]; simp) (shapeKinds_operands props.type)
                  have hM : ∀ x ∈ w :: fields, x.type ≠ TOKEN_TYPE_OPCODE := by
                    intro x hx
                    simp only [List.mem_cons] at hx
                    rcases hx with rfl | hx
                    · exact hwo
                    · exact hfields x hx
                  have hshape : t0 :: w :: next1 = (t0 :: w :: fields) ++ e :: next2 := by
                    rw [hn1]; simp
                  have hwe : wellFormed (e :: next2) = true :=
                    wellFormed_suffix (t0 :: w :: fields) (e :: next2)
                      (by rw [← hshape]; exact hw) (by simp)
                  intro pre t post hsplit ht
                  cases pre with
                  | nil =>
                    simp only [List.nil_append, List.cons.injEq] at hsplit
                    exact ⟨⟨w, next1, hsplit.2.symm, hws⟩, fun hne => absurd rfl hne⟩
                  | cons p0 ps =>
                    rw [hshape] at hsplit
                    obtain ⟨pre1, hpre1, hrest⟩ :=
                      opcode_after_prefix t0 t (w :: fields) (e :: next2) (p0 :: ps) post hM ht
                        (by simp) hsplit
                    cases pre1 with
                    | nil =>
                      exfalso
                      simp only [List.nil_append, List.cons.injEq] at hrest
                      have hte : e.type = TOKEN_TYPE_OPCODE := by rw [hrest.1]; exact ht
                      simp only [GenerateLoop, ht0, hp, hws, hd, hte, ne_eq, not_true_eq_false,
                        not_false_eq_true, if_true, if_false, reduceCtorEq, Option.some.injEq,
                        Prod.mk.injEq, one_ne_zero, false_and] at h
                    | cons x pre2 =>
                      simp only [List.cons_append, List.cons.injEq] at hrest
                      obtain ⟨hxe, hnext2⟩ := hrest
                      subst hxe
                      by_cases he : e.type = TOKEN_TYPE_EOF
                      · exfalso
                        have := wellFormed_eof e next2 hwe he
                        rw [this] at hnext2
                        simp at hnext2
                      · by_cases hen : e.type = TOKEN_TYPE_NEW_LINE
                        · simp only [GenerateLoop, ht0, hp, hws, hd, he, hen, ne_eq,
                            not_true_eq_false, if_false, reduceCtorEq] at h
                          have hw2 : wellFormed next2 = true := wellFormed_tail e next2 hwe he
                          have hc2 : next2.countP (fun t => t.type = TOKEN_TYPE_OPCODE) ≤ k := by
                            rw [List.countP_cons_of_pos _ _ (by simpa using ht0)] at hc
                            have hsub : List.Sublist next2 (w :: next1) := by
                              rw [hn1]
                              exact (List.sublist_cons_self e next2).trans
                                ((List.sublist_append_right fields _).trans
                                  (List.sublist_cons_self w _))
                            have := hsub.countP_le (fun t => t.type = TOKEN_TYPE_OPCODE)
                            omega
                          have hline : separatedByOneNewline (t0 :: w :: (fields ++ [e])) = true :=
                            separatedByOneNewline_line t0 w e props fields vals ht0 hp hws hen
                              hfields (hany [e])
                          rcases ih (i + 1) next2 _ out hw2 hc2 h with hno | ⟨_, hE⟩
                          · exfalso
                            exact hno t (by rw [hnext2]; simp) ht
                          · obtain ⟨h3, h4⟩ := hE pre2 t post hnext2 ht
                            refine ⟨h3, fun _ => ?_⟩
                            rw [hpre1]
                            cases pre2 with
                            | nil =>
                              have : (t0 :: w :: fields) ++ [e] = t0 :: w :: (fields ++ [e]) := by
                                simp
                              rw [this]
                              exact hline
                            | cons y pre3 =>
                              have : (t0 :: w :: fields) ++ e :: y :: pre3 =
                                  (t0 :: w :: (fields ++ [e])) ++ (y :: pre3) := by simp
                              rw [this]
                              exact separatedByOneNewline_append _ _ (h4 (by simp))
                        · exfalso
                          simp only [GenerateLoop, ht0, hp, hws, hd, he, hen, ne_eq,
                            not_true_eq_false, not_false_eq_true, if_true, if_false,
                            reduceCtorEq, Option.some.injEq, Prod.mk.injEq, one_ne_zero,
                            false_and] at h
            · simp only [GenerateLoop, ht0, hp, hws, ne_eq, not_true_eq_false,
                not_false_eq_true, if_true, if_false, reduceCtorEq, Option.some.injEq,
                Prod.mk.injEq, one_ne_zero, false_and] at h
      · simp only [GenerateLoop, ht0, ne_eq, not_false_eq_true, if_true, reduceCtorEq,
          Option.some.injEq, Prod.mk.injEq, one_ne_zero, false_and] at h

/-- After a successful `Tokenize`, with at least one and fewer than 2^32
Opcode tokens: the Opcode count is their number, `GenerateMachineCode` run
for it returns 0 or 1, and when it returns 0 the token sequence has the
line structure of `GenerateLoop_grammar`. -/
theorem GenerateMachineCode_grammar (text : List Nat) (toks : List Token)
    (hlex : Tokenize text = some (0, toks))
    (hpos : 0 < toks.countP (fun t => t.type = TOKEN_TYPE_OPCODE))
    (hcount : toks.countP (fun t => t.type = TOKEN_TYPE_OPCODE) < 2 ^ 32) :
    CountTokensOfType toks TOKEN_TYPE_OPCODE =
        some (toks.countP (fun t => t.type = TOKEN_TYPE_OPCODE)) ∧
      ∀ b, ∃ res out, GenerateMachineCode toks b
          (toks.countP (fun t => t.type = TOKEN_TYPE_OPCODE)) = some (res, out) ∧
        (res = 0 ∨ res = 1) ∧
        (res = 0 →
          (∃ t rest, toks = t :: rest ∧ t.type = TOKEN_TYPE_OPCODE) ∧
            ∀ pre t post, toks = pre ++ t :: post → t.type = TOKEN_TYPE_OPCODE →
              (∃ w post1, post = w :: post1 ∧ w.type = TOKEN_TYPE_WHITESPACE) ∧
                (pre ≠ [] → separatedByOneNewline pre = true)) := by
  obtain ⟨hw, hv⟩ := Tokenize_ok text toks hlex
  refine ⟨by rw [CountTokensOfType_opcode toks hw, instructions_length,
    Nat.mod_eq_of_lt hcount], ?_⟩
  intro b
  obtain ⟨res, r, hg, hres⟩ := GenerateLoop_total
    (toks.countP (fun t => t.type = TOKEN_TYPE_OPCODE)) 0 toks b hw hv
  refine ⟨res, r, hg, hres, ?_⟩
  intro h0
  subst h0
  rcases GenerateLoop_grammar _ 0 toks b r hw (le_refl _) hg with hno | hE
  · have h0 : toks.countP (fun t => t.type = TOKEN_TYPE_OPCODE) = 0 :=
      List.countP_eq_zero.mpr (fun t ht => by simpa using hno t ht)
    omega
  · exact hE

/-- C17 amended (one instruction per line).  For the token sequence of a
successfully lexed text that holds at least one and fewer than 2^32 Opcode
tokens, the Opcode count `n` is their number, and when the first token is
not an Opcode token, or the tokens between the preceding Opcode token and
some later Opcode token are not a Whitespace token, the operand fields of
the preceding instruction's shape and then exactly one Newline token,
`GenerateMachineCode` for `n` instructions returns 1 and `Assemble` fails
with status 1 without calling the writer. -/
theorem one_instruction_per_line (text : List Nat) (toks : List Token) (binary : List Nat)
    (hlex : Tokenize text = some (0, toks))
    (hpos : 0 < toks.countP (fun t => t.type = TOKEN_TYPE_OPCODE))
    (hcount : toks.countP (fun t => t.type = TOKEN_TYPE_OPCODE) < 2 ^ 32)
    (hbad : (∃ t rest, toks = t :: rest ∧ t.type ≠ TOKEN_TYPE_OPCODE) ∨
      ∃ pre t post, toks = pre ++ t :: post ∧ t.type = TOKEN_TYPE_OPCODE ∧ pre ≠ [] ∧
        separatedByOneNewline pre = false) :
    CountTokensOfType toks TOKEN_TYPE_OPCODE =
        some (toks.countP (fun t => t.type = TOKEN_TYPE_OPCODE)) ∧
      (∃ out, GenerateMachineCode toks binary
        (toks.countP (fun t => t.type = TOKEN_TYPE_OPCODE)) = some (1, out)) ∧
      Assemble text =
        some { status := 1, exit := AssembleExit.generateFailed, written := none } := by
  obtain ⟨hn, hall⟩ := GenerateMachineCode_grammar text toks hlex hpos hcount
  have hfail : ∀ b, ∃ out, GenerateMachineCode toks b
      (toks.countP (fun t => t.type = TOKEN_TYPE_OPCODE)) = some (1, out) := by
    intro b
    obtain ⟨res, r, hg, hres, hE⟩ := hall b
    rcases hres with rfl | rfl
    · exfalso
      obtain ⟨⟨t, rest, h1, h2⟩, hE2⟩ := hE rfl
      rcases hbad with ⟨t1, rest1, h3, h4⟩ | ⟨pre, t1, post, h3, h4, h5, h6⟩
      · rw [h1] at h3
        simp only [List.cons.injEq] at h3
        exact h4 (h3.1 ▸ h2)
      · have := (hE2 pre t1 post h3 h4).2 h5
        rw [h6] at this
        exact absurd this (by decide)
    · exact ⟨r, hg⟩
  refine ⟨hn, hfail binary, ?_⟩
  obtain ⟨out, hg⟩ := hfail (List.replicate (toks.countP (fun t => t.type = TOKEN_TYPE_OPCODE)) 0)
  have hne : ¬ toks.countP (fun t => t.type = TOKEN_TYPE_OPCODE) = 0 := by omega
  simp only [Assemble, hlex, hn, hg, hne, if_true, if_false]
  rfl

theorem one_instruction_per_line_witness :
    (Tokenize (cstr "J 10\n\nJ 11\n") =
        some (0, [⟨TOKEN_TYPE_OPCODE, 1, 0⟩, ⟨TOKEN_TYPE_WHITESPACE, 1, 0⟩,
          ⟨TOKEN_TYPE_NUMBER, 1, 10⟩, ⟨TOKEN_TYPE_NEW_LINE, 1, 0⟩, ⟨TOKEN_TYPE_NEW_LINE, 2, 0⟩,
          ⟨TOKEN_TYPE_OPCODE, 3, 0⟩, ⟨TOKEN_TYPE_WHITESPACE, 3, 0⟩, ⟨TOKEN_TYPE_NUMBER, 3, 11⟩,
          ⟨TOKEN_TYPE_NEW_LINE, 3, 0⟩, ⟨TOKEN_TYPE_EOF, 4, 0⟩]) ∧
        separatedByOneNewline [⟨TOKEN_TYPE_OPCODE, 1, 0⟩, ⟨TOKEN_TYPE_WHITESPACE, 1, 0⟩,
          ⟨TOKEN_TYPE_NUMBER, 1, 10⟩, ⟨TOKEN_TYPE_NEW_LINE, 1, 0⟩,
          ⟨TOKEN_TYPE_NEW_LINE, 2, 0⟩] = false ∧
        Assemble (cstr "J 10\n\nJ 11\n") =
          some { status := 1, exit := AssembleExit.generateFailed, written := none }) ∧
      (Tokenize (cstr "J 10\n,5\nJ 11\n") =
        some (0, [⟨TOKEN_TYPE_OPCODE, 1, 0⟩, ⟨TOKEN_TYPE_WHITESPACE, 1, 0⟩,
          ⟨TOKEN_TYPE_NUMBER, 1, 10⟩, ⟨TOKEN_TYPE_NEW_LINE, 1, 0⟩, ⟨TOKEN_TYPE_COMMA, 2, 0⟩,
          ⟨TOKEN_TYPE_NUMBER, 2, 5⟩, ⟨TOKEN_TYPE_NEW_LINE, 2, 0⟩,
          ⟨TOKEN_TYPE_OPCODE, 3, 0⟩, ⟨TOKEN_TYPE_WHITESPACE, 3, 0⟩, ⟨TOKEN_TYPE_NUMBER, 3, 11⟩,
          ⟨TOKEN_TYPE_NEW_LINE, 3, 0⟩, ⟨TOKEN_TYPE_EOF, 4, 0⟩]) ∧
        separatedByOneNewline [⟨TOKEN_TYPE_OPCODE, 1, 0⟩, ⟨TOKEN_TYPE_WHITESPACE, 1, 0⟩,
          ⟨TOKEN_TYPE_NUMBER, 1, 10⟩, ⟨TOKEN_TYPE_NEW_LINE, 1, 0⟩, ⟨TOKEN_TYPE_COMMA, 2, 0⟩,
          ⟨TOKEN_TYPE_NUMBER, 2, 5⟩, ⟨TOKEN_TYPE_NEW_LINE, 2, 0⟩] = false ∧
        Assemble (cstr "J 10\n,5\nJ 11\n") =
          some { status := 1, exit := AssembleExit.generateFailed, written := none }) ∧
      separatedByOneNewline [⟨TOKEN_TYPE_OPCODE, 1, 0⟩, ⟨TOKEN_TYPE_WHITESPACE, 1, 0⟩,
        ⟨TOKEN_TYPE_NUMBER, 1, 10⟩, ⟨TOKEN_TYPE_NEW_LINE, 1, 0⟩] = true :=
  ⟨⟨by decide, by decide,
      (one_instruction_per_line (cstr "J 10\n\nJ 11\n")
        [⟨TOKEN_TYPE_OPCODE, 1, 0⟩, ⟨TOKEN_TYPE_WHITESPACE, 1, 0⟩,
          ⟨TOKEN_TYPE_NUMBER, 1, 10⟩, ⟨TOKEN_TYPE_NEW_LINE, 1, 0⟩, ⟨TOKEN_TYPE_NEW_LINE, 2, 0⟩,
          ⟨TOKEN_TYPE_OPCODE, 3, 0⟩, ⟨TOKEN_TYPE_WHITESPACE, 3, 0⟩, ⟨TOKEN_TYPE_NUMBER, 3, 11⟩,
          ⟨TOKEN_TYPE_NEW_LINE, 3, 0⟩, ⟨TOKEN_TYPE_EOF, 4, 0⟩] [0, 0]
        (by decide) (by decide) (by decide)
        (Or.inr ⟨[⟨TOKEN_TYPE_OPCODE, 1, 0⟩, ⟨TOKEN_TYPE_WHITESPACE, 1, 0⟩,
            ⟨TOKEN_TYPE_NUMBER, 1, 10⟩, ⟨TOKEN_TYPE_NEW_LINE, 1, 0⟩,
            ⟨TOKEN_TYPE_NEW_LINE, 2, 0⟩],
          ⟨TOKEN_TYPE_OPCODE, 3, 0⟩,
          [⟨TOKEN_TYPE_WHITESPACE, 3, 0⟩, ⟨TOKEN_TYPE_NUMBER, 3, 11⟩,
            ⟨TOKEN_TYPE_NEW_LINE, 3, 0⟩, ⟨TOKEN_TYPE_EOF, 4, 0⟩],
          by decide, by decide, by decide, by decide⟩)).2.2⟩,
    ⟨by decide, by decide,
      (one_instruction_per_line (cstr "J 10\n,5\nJ 11\n")
        [⟨TOKEN_TYPE_OPCODE, 1, 0⟩, ⟨TOKEN_TYPE_WHITESPACE, 1, 0⟩,
          ⟨TOKEN_TYPE_NUMBER, 1, 10⟩, ⟨TOKEN_TYPE_NEW_LINE, 1, 0⟩, ⟨TOKEN_TYPE_COMMA, 2, 0⟩,
          ⟨TOKEN_TYPE_NUMBER, 2, 5⟩, ⟨TOKEN_TYPE_NEW_LINE, 2, 0⟩,
          ⟨TOKEN_TYPE_OPCODE, 3, 0⟩, ⟨TOKEN_TYPE_WHITESPACE, 3, 0⟩, ⟨TOKEN_TYPE_NUMBER, 3, 11⟩,
          ⟨TOKEN_TYPE_NEW_LINE, 3, 0⟩, ⟨TOKEN_TYPE_EOF, 4, 0⟩] [0, 0]
        (by decide) (by decide) (by decide)
        (Or.inr ⟨[⟨TOKEN_TYPE_OPCODE, 1, 0⟩, ⟨TOKEN_TYPE_WHITESPACE, 1, 0⟩,
            ⟨TOKEN_TYPE_NUMBER, 1, 10⟩, ⟨TOKEN_TYPE_NEW_LINE, 1, 0⟩, ⟨TOKEN_TYPE_COMMA, 2, 0⟩,
            ⟨TOKEN_TYPE_NUMBER, 2, 5⟩, ⟨TOKEN_TYPE_NEW_LINE, 2, 0⟩],
          ⟨TOKEN_TYPE_OPCODE, 3, 0⟩,
          [⟨TOKEN_TYPE_WHITESPACE, 3, 0⟩, ⟨TOKEN_TYPE_NUMBER, 3, 11⟩,
            ⟨TOKEN_TYPE_NEW_LINE, 3, 0⟩, ⟨TOKEN_TYPE_EOF, 4, 0⟩],
          by decide, by decide, by decide, by decide⟩)).2.2⟩,
    by decide⟩

/-- The four texts of C17 on the code: a leading blank line, a leading
space, a blank line between two instructions and a space after the last
operand each make `Assemble` fail in `GenerateMachineCode`. -/
theorem instruction_per_line_texts :
    Assemble (cstr "\nJ 10\n") = some { status := 1, exit := AssembleExit.generateFailed, written := none } ∧
      Assemble (cstr " J 10\n") = some { status := 1, exit := AssembleExit.generateFailed, written := none } ∧
      Assemble (cstr "J 10\n\nJ 11\n") = some { status := 1, exit := AssembleExit.generateFailed, written := none } ∧
      Assemble (cstr "J 10 \nJ 11\n") = some { status := 1, exit := AssembleExit.generateFailed, written := none } := by
  refine ⟨?_, ?_, ?_, ?_⟩ <;> decide

theorem lexer_progress_witness :
    0 ≤ (cstr "J 10\n").length ∧ (ParseToken 0 (cstr "J 10\n") freshToken 1).ret ≠ 1 ∧
      0 + 1 ≤ (ParseToken 0 (cstr "J 10\n") freshToken 1).p ∧
      (ParseToken 0 (cstr "J 10\n") freshToken 1).p ≤ (cstr "J 10\n").length + 1 :=
  ⟨by decide, by decide,
    (lexer_progress (cstr "J 10\n")).1 0 freshToken 1 (by decide) (by decide)⟩

/-! ## Runs of spaces and tabs anywhere in the text -/

theorem digitValue_space (c : Nat) (h : c = 32 ∨ c = 9) : digitValue c = 36 := by
  rcases h with rfl | rfl <;> decide

theorem isspace_space (c : Nat) (h : c = 32 ∨ c = 9) : isspace c = true := by
  rcases h with rfl | rfl <;> decide

theorem IsWhitespaceChar_space (c : Nat) (h : c = 32 ∨ c = 9) : IsWhitespaceChar c = true := by
  rcases h with rfl | rfl <;> decide

theorem IsValidNameChar_space (c : Nat) (h : c = 32 ∨ c = 9) : IsValidNameChar c = false := by
  rcases h with rfl | rfl <;> decide

theorem drop_append_stop (s t : List Nat) (k : Nat) (hk : k ≤ s.length) :
    (s ++ t).drop k = s.drop k ++ t := by
  rw [List.drop_append_eq_append_drop, Nat.sub_eq_zero_of_le hk, List.drop_zero]

theorem head?_append_stop (s junk : List Nat) (c0 c : Nat) (hc : c ≠ c0) :
    ((s ++ c0 :: junk).head? == some c) = (s.head? == some c) := by
  cases s with
  | nil => simp [Ne.symm hc]
  | cons a t => simp

theorem strtoulDigits_append_stop (b : Nat) (hb : b ≤ 36) (c0 : Nat)
    (h0 : digitValue c0 = 36) (s junk : List Nat) (acc n : Nat) :
    strtoulDigits b (s ++ c0 :: junk) acc n = strtoulDigits b s acc n := by
  induction s generalizing acc n with
  | nil =>
    simp only [List.nil_append, strtoulDigits, h0]
    rw [if_neg (by omega)]
  | cons c cs ih =>
    show strtoulDigits b (c :: (cs ++ c0 :: junk)) acc n = _
    simp only [strtoulDigits]
    split_ifs
    · exact ih _ _
    · rfl

theorem hexIntro_append_stop (c0 : Nat) (h0 : digitValue c0 = 36) (s junk : List Nat) :
    hexIntro (s ++ c0 :: junk) = hexIntro s := by
  have d0 : decide (digitValue c0 < 16) = false := by simp [h0]
  have h48 : c0 ≠ 48 := by rintro rfl; simp [digitValue] at h0
  have h120 : (c0 == 120) = false := by
    apply beq_false_of_ne
    rintro rfl
    simp [digitValue] at h0
  have h88 : (c0 == 88) = false := by
    apply beq_false_of_ne
    rintro rfl
    simp [digitValue] at h0
  rcases s with _ | ⟨a, _ | ⟨b, _ | ⟨c, r⟩⟩⟩
  · show hexIntro (c0 :: junk) = hexIntro []
    rw [hexIntro_ne c0 _ h48]
    rfl
  · by_cases ha : a = 48
    · subst ha
      cases junk <;> simp [hexIntro, h120, h88]
    · rw [List.singleton_append, hexIntro_ne a _ ha, hexIntro_ne a _ ha]
  · by_cases ha : a = 48
    · subst ha
      simp [hexIntro, d0]
    · show hexIntro (a :: b :: c0 :: junk) = hexIntro [a, b]
      rw [hexIntro_ne a _ ha, hexIntro_ne a _ ha]
  · by_cases ha : a = 48
    · subst ha
      simp [hexIntro]
    · show hexIntro (a :: b :: c :: (r ++ c0 :: junk)) = hexIntro (a :: b :: c :: r)
      rw [hexIntro_ne a _ ha, hexIntro_ne a _ ha]

theorem strtoulBody_append_stop (base : Nat) (hb : base ≤ 36) (c0 : Nat)
    (h0 : digitValue c0 = 36) (s junk : List Nat) :
    strtoulBody (s ++ c0 :: junk) base = strtoulBody s base := by
  have h48 : (48 : Nat) ≠ c0 := by rintro rfl; simp [digitValue] at h0
  have hhex := hexIntro_append_stop c0 h0 s junk
  have hhead := head?_append_stop s junk c0 48 h48
  simp only [strtoulBody, hhex, hhead]
  by_cases hx : ((base == 0 || base == 16) && hexIntro s) = true
  · have hl := hexIntro_length s (by simp at hx; exact hx.2)
    simp only [hx, if_true]
    rw [drop_append_stop s (c0 :: junk) 2 (by omega),
      strtoulDigits_append_stop 16 (by omega) c0 h0]
  · have hb2 : (if (base == 0) = true then if (s.head? == some 48) = true then 8 else 10
        else base) ≤ 36 := by
      split_ifs <;> omega
    simp only [hx, Bool.false_eq_true, if_false, List.drop_zero]
    rw [strtoulDigits_append_stop _ hb2 c0 h0]

/-- A number that starts with a character other than white space ends before
a space or tab: `strtoul` does not look behind it. -/
theorem strtoul_append_stop (base : Nat) (hb : base ≤ 36) (c0 : Nat) (h0 : c0 = 32 ∨ c0 = 9)
    (d : Nat) (y junk : List Nat) (hd : isspace d = false) :
    strtoul ((d :: y) ++ c0 :: junk) base = strtoul (d :: y) base := by
  have hdv := digitValue_space c0 h0
  have h45 : (45 : Nat) ≠ c0 := by rcases h0 with rfl | rfl <;> decide
  have h43 : (43 : Nat) ≠ c0 := by rcases h0 with rfl | rfl <;> decide
  have htw1 : ((d :: y) ++ c0 :: junk).takeWhile isspace = [] := by
    simp [List.takeWhile_cons, hd]
  have htw2 : (d :: y).takeWhile isspace = [] := by
    simp [List.takeWhile_cons, hd]
  simp only [strtoul, htw1, htw2, List.length_nil, List.drop_zero]
  have e45 := head?_append_stop (d :: y) junk c0 45 h45
  have e43 := head?_append_stop (d :: y) junk c0 43 h43
  simp only [e45, e43]
  have hsgn : (if ((d :: y).head? == some 45 || (d :: y).head? == some 43) = true then 1
      else 0) ≤ (d :: y).length := by
    simp only [List.length_cons]; split_ifs <;> omega
  rw [drop_append_stop (d :: y) (c0 :: junk) _ hsgn, strtoulBody_append_stop base hb c0 hdv]

theorem strtoul_cons_space (base c : Nat) (x : List Nat) (hc : isspace c = true) :
    strtoul (c :: x) base =
      ((strtoul x base).1, if (strtoul x base).2 = 0 then 0 else (strtoul x base).2 + 1) := by
  have htw : (c :: x).takeWhile isspace = c :: x.takeWhile isspace := by
    simp [List.takeWhile_cons, hc]
  simp only [strtoul, htw, List.length_cons, List.drop_succ_cons]
  generalize (x.takeWhile isspace).length = ws
  generalize x.drop ws = s1
  generalize (if (s1.head? == some 45 || s1.head? == some 43) = true then 1 else 0) = sgn
  generalize strtoulBody (s1.drop sgn) base = r
  by_cases hr : r.2 = 0
  · simp [hr]
  · have hne : ¬ (ws + sgn + r.2 = 0) := by omega
    simp only [hr, hne, if_false, Prod.mk.injEq, true_and]
    omega

theorem strtoul_run (base : Nat) (r post : List Nat) (hr : ∀ c ∈ r, c = 32 ∨ c = 9) :
    strtoul (r ++ post) base =
      ((strtoul post base).1,
        if (strtoul post base).2 = 0 then 0 else (strtoul post base).2 + r.length) := by
  induction r with
  | nil =>
    simp only [List.nil_append, List.length_nil, Nat.add_zero]
    split_ifs with h
    · rw [← h]
    · rfl
  | cons c r ih =>
    have hc := isspace_space c (hr c (by simp))
    have ih2 := ih (fun x hx => hr x (List.mem_cons_of_mem _ hx))
    show strtoul (c :: (r ++ post)) base = _
    rw [strtoul_cons_space base c _ hc, ih2]
    simp only [List.length_cons]
    by_cases h : (strtoul post base).2 = 0
    · simp [h]
    · have hne : ¬ ((strtoul post base).2 + r.length = 0) := by omega
      simp only [h, hne, if_false, Prod.mk.injEq, true_and]
      omega

/-- The function `strtoul` on two texts that differ in a run of spaces and
tabs: the same value, and what remains behind the number differs at most in
that run. -/
theorem strtoul_runs (base : Nat) (hb : base ≤ 36) (r1 r2 post : List Nat)
    (h1 : r1 ≠ []) (h2 : r2 ≠ []) (hr1 : ∀ c ∈ r1, c = 32 ∨ c = 9)
    (hr2 : ∀ c ∈ r2, c = 32 ∨ c = 9) (a : List Nat) :
    (strtoul (a ++ (r1 ++ post)) base).1 = (strtoul (a ++ (r2 ++ post)) base).1 ∧
      ((strtoul (a ++ (r1 ++ post)) base).2 = 0 ↔ (strtoul (a ++ (r2 ++ post)) base).2 = 0) ∧
      ((strtoul (a ++ (r1 ++ post)) base).2 ≠ 0 →
        runVariants r1 r2 post
          ((a ++ (r1 ++ post)).drop (strtoul (a ++ (r1 ++ post)) base).2)
          ((a ++ (r2 ++ post)).drop (strtoul (a ++ (r2 ++ post)) base).2)) := by
  induction a with
  | nil =>
    simp only [List.nil_append]
    rw [strtoul_run base r1 post hr1, strtoul_run base r2 post hr2]
    refine ⟨rfl, ?_, ?_⟩
    · constructor <;> intro h <;> split_ifs at h ⊢ <;> first | rfl | omega
    · intro h
      left
      by_cases hz : (strtoul post base).2 = 0
      · simp [hz] at h
      · simp only [hz, if_false]
        rw [Nat.add_comm _ r1.length, Nat.add_comm _ r2.length, ← List.drop_drop,
          ← List.drop_drop, List.drop_left, List.drop_left]
  | cons d y ih =>
    by_cases hd : isspace d = true
    · show (strtoul (d :: (y ++ (r1 ++ post))) base).1 =
          (strtoul (d :: (y ++ (r2 ++ post))) base).1 ∧
        ((strtoul (d :: (y ++ (r1 ++ post))) base).2 = 0 ↔
          (strtoul (d :: (y ++ (r2 ++ post))) base).2 = 0) ∧
        ((strtoul (d :: (y ++ (r1 ++ post))) base).2 ≠ 0 →
          runVariants r1 r2 post
            ((d :: (y ++ (r1 ++ post))).drop (strtoul (d :: (y ++ (r1 ++ post))) base).2)
            ((d :: (y ++ (r2 ++ post))).drop (strtoul (d :: (y ++ (r2 ++ post))) base).2))
      rw [strtoul_cons_space base d _ hd, strtoul_cons_space base d _ hd]
      obtain ⟨e1, e2, e3⟩ := ih
      refine ⟨e1, ?_, ?_⟩
      · simp only
        constructor
        · intro h
          have : (strtoul (y ++ (r1 ++ post)) base).2 = 0 := by
            by_contra hne; simp [hne] at h
          simp [e2.mp this]
        · intro h
          have : (strtoul (y ++ (r2 ++ post)) base).2 = 0 := by
            by_contra hne; simp [hne] at h
          simp [e2.mpr this]
      · simp only
        intro h
        have hne1 : (strtoul (y ++ (r1 ++ post)) base).2 ≠ 0 := by
          intro hz; simp [hz] at h
        have hne2 : (strtoul (y ++ (r2 ++ post)) base).2 ≠ 0 := fun hz => hne1 (e2.mpr hz)
        simp only [hne1, hne2, if_false, List.drop_succ_cons]
        exact e3 hne1
    · have hd2 : isspace d = false := by simpa using hd
      obtain ⟨c1, t1, rfl⟩ := List.exists_cons_of_ne_nil h1
      obtain ⟨c2, t2, rfl⟩ := List.exists_cons_of_ne_nil h2
      have s1 : strtoul ((d :: y) ++ (c1 :: t1 ++ post)) base = strtoul (d :: y) base :=
        strtoul_append_stop base hb c1 (hr1 c1 (by simp)) d y (t1 ++ post) hd2
      have s2 : strtoul ((d :: y) ++ (c2 :: t2 ++ post)) base = strtoul (d :: y) base :=
        strtoul_append_stop base hb c2 (hr2 c2 (by simp)) d y (t2 ++ post) hd2
      rw [s1, s2]
      refine ⟨rfl, Iff.rfl, fun _ => Or.inr ⟨(d :: y).drop (strtoul (d :: y) base).2, ?_, ?_⟩⟩
      · exact drop_append_stop _ _ _ (strtoul_end_le _ _)
      · exact drop_append_stop _ _ _ (strtoul_end_le _ _)

theorem drop_skipWhitespace (s : List Nat) :
    s.drop (skipWhitespace s 0) = s.dropWhile IsWhitespaceChar := by
  induction s with
  | nil => rfl
  | cons c cs ih =>
    by_cases hc : IsWhitespaceChar c = true
    · rw [List.dropWhile_cons_of_pos hc, ← ih]
      simp only [skipWhitespace, hc, if_true]
      rw [skipWhitespace_shift cs (0 + 1), Nat.zero_add, Nat.add_comm, List.drop_succ_cons]
    · rw [List.dropWhile_cons_of_neg hc]
      simp [skipWhitespace, hc]

theorem dropWhile_run (r post : List Nat) (hr : ∀ c ∈ r, c = 32 ∨ c = 9) :
    (r ++ post).dropWhile IsWhitespaceChar = post.dropWhile IsWhitespaceChar := by
  induction r with
  | nil => rfl
  | cons c r ih =>
    show (c :: (r ++ post)).dropWhile IsWhitespaceChar = _
    rw [List.dropWhile_cons_of_pos (IsWhitespaceChar_space c (hr c (by simp)))]
    exact ih (fun x hx => hr x (List.mem_cons_of_mem _ hx))

theorem dropWhile_runs (r1 r2 post : List Nat) (hr1 : ∀ c ∈ r1, c = 32 ∨ c = 9)
    (hr2 : ∀ c ∈ r2, c = 32 ∨ c = 9) (a : List Nat) :
    runVariants r1 r2 post ((a ++ (r1 ++ post)).dropWhile IsWhitespaceChar)
      ((a ++ (r2 ++ post)).dropWhile IsWhitespaceChar) := by
  induction a with
  | nil =>
    left
    simp only [List.nil_append]
    rw [dropWhile_run r1 post hr1, dropWhile_run r2 post hr2]
  | cons d y ih =>
    by_cases hd : IsWhitespaceChar d = true
    · show runVariants r1 r2 post ((d :: (y ++ (r1 ++ post))).dropWhile IsWhitespaceChar)
        ((d :: (y ++ (r2 ++ post))).dropWhile IsWhitespaceChar)
      rw [List.dropWhile_cons_of_pos hd, List.dropWhile_cons_of_pos hd]
      exact ih
    · show runVariants r1 r2 post ((d :: (y ++ (r1 ++ post))).dropWhile IsWhitespaceChar)
        ((d :: (y ++ (r2 ++ post))).dropWhile IsWhitespaceChar)
      rw [List.dropWhile_cons_of_neg hd, List.dropWhile_cons_of_neg hd]
      exact Or.inr ⟨d :: y, rfl, rfl⟩

theorem charAt_append_stop (s junk : List Nat) (c0 p : Nat) (hp : p ≤ s.length) :
    charAt (s ++ c0 :: junk) p = if p < s.length then charAt s p else c0 := by
  simp only [charAt, List.getD_eq_getElem?_getD]
  rcases Nat.lt_or_eq_of_le hp with h | h
  · rw [List.getElem?_append_left h, if_pos h]
  · rw [List.getElem?_append_right (by omega), if_neg (by omega)]
    simp [h]

theorem readOpcodeName_append_stop (s junk : List Nat) (c0 : Nat)
    (h0 : IsValidNameChar c0 = false) (k : Nat) :
    ∀ (i p : Nat) (name : List Nat), p ≤ s.length →
      readOpcodeName (s ++ c0 :: junk) k i p name = readOpcodeName s k i p name := by
  induction k with
  | zero => intro i p name _; rfl
  | succ k ih =>
    intro i p name hp
    simp only [readOpcodeName, charAt_append_stop s junk c0 p hp]
    by_cases hlt : p < s.length
    · simp only [hlt, if_true]
      split_ifs with hv
      · exact ih _ _ _ (by omega)
      · rfl
    · have hps : charAt s p = 0 := by
        by_contra hne
        exact hlt (charAt_ne_zero_lt s p hne)
      have hz : IsValidNameChar 0 = false := by decide
      simp only [hlt, if_false, h0, hps, hz, Bool.false_eq_true]

/-- The register token on two texts that differ in a run of spaces and tabs
behind the `$`. -/
theorem ParseRegisterToken_runs (r1 r2 post : List Nat)
    (h1 : r1 ≠ []) (h2 : r2 ≠ []) (hr1 : ∀ c ∈ r1, c = 32 ∨ c = 9)
    (hr2 : ∀ c ∈ r2, c = 32 ∨ c = 9) (c : Nat) (a : List Nat) (token : Token) :
    (ParseRegisterToken 0 (c :: (a ++ (r1 ++ post))) token).token =
        (ParseRegisterToken 0 (c :: (a ++ (r2 ++ post))) token).token ∧
      ((ParseRegisterToken 0 (c :: (a ++ (r1 ++ post))) token).token.type ≠
          TOKEN_TYPE_INVALID →
        runVariants r1 r2 post
          ((c :: (a ++ (r1 ++ post))).drop
            (ParseRegisterToken 0 (c :: (a ++ (r1 ++ post))) token).p)
          ((c :: (a ++ (r2 ++ post))).drop
            (ParseRegisterToken 0 (c :: (a ++ (r2 ++ post))) token).p)) := by
  obtain ⟨e1, e2, e3⟩ := strtoul_runs 10 (by omega) r1 r2 post h1 h2 hr1 hr2 a
  simp only [ParseRegisterToken, Nat.zero_add, List.drop_succ_cons, List.drop_zero]
  split_ifs with c1 c2 c2
  · exact ⟨rfl, fun h => absurd rfl h⟩
  · exfalso
    simp only [e1, e2] at c1
    exact c2 c1
  · exfalso
    simp only [e1, e2] at c1
    exact c1 c2
  · refine ⟨by rw [e1], fun _ => ?_⟩
    have hz : (strtoul (a ++ (r1 ++ post)) 10).2 ≠ 0 := fun h => c1 (Or.inl h)
    show runVariants r1 r2 post
      ((c :: (a ++ (r1 ++ post))).drop (1 + (strtoul (a ++ (r1 ++ post)) 10).2))
      ((c :: (a ++ (r2 ++ post))).drop (1 + (strtoul (a ++ (r2 ++ post)) 10).2))
    rw [Nat.add_comm 1, Nat.add_comm 1, List.drop_succ_cons, List.drop_succ_cons]
    exact e3 hz

theorem ParseNumberToken_runs (r1 r2 post : List Nat)
    (h1 : r1 ≠ []) (h2 : r2 ≠ []) (hr1 : ∀ c ∈ r1, c = 32 ∨ c = 9)
    (hr2 : ∀ c ∈ r2, c = 32 ∨ c = 9) (a : List Nat) (token : Token) :
    (ParseNumberToken 0 (a ++ (r1 ++ post)) token).token =
        (ParseNumberToken 0 (a ++ (r2 ++ post)) token).token ∧
      ((ParseNumberToken 0 (a ++ (r1 ++ post)) token).token.type ≠ TOKEN_TYPE_INVALID →
        runVariants r1 r2 post
          ((a ++ (r1 ++ post)).drop (ParseNumberToken 0 (a ++ (r1 ++ post)) token).p)
          ((a ++ (r2 ++ post)).drop (ParseNumberToken 0 (a ++ (r2 ++ post)) token).p)) := by
  obtain ⟨e1, e2, e3⟩ := strtoul_runs 0 (by omega) r1 r2 post h1 h2 hr1 hr2 a
  simp only [ParseNumberToken, Nat.zero_add, List.drop_zero]
  split_ifs with c1 c2 c2
  · exact ⟨rfl, fun h => absurd rfl h⟩
  · exact absurd (e2.mp c1) c2
  · exact absurd (e2.mpr c2) c1
  · exact ⟨by rw [e1], fun _ => e3 c1⟩

theorem ParseWhitespaceToken_runs (r1 r2 post : List Nat)
    (hr1 : ∀ c ∈ r1, c = 32 ∨ c = 9) (hr2 : ∀ c ∈ r2, c = 32 ∨ c = 9) (a : List Nat)
    (token : Token) :
    (ParseWhitespaceToken 0 (a ++ (r1 ++ post)) token).token =
        (ParseWhitespaceToken 0 (a ++ (r2 ++ post)) token).token ∧
      runVariants r1 r2 post
        ((a ++ (r1 ++ post)).drop (ParseWhitespaceToken 0 (a ++ (r1 ++ post)) token).p)
        ((a ++ (r2 ++ post)).drop (ParseWhitespaceToken 0 (a ++ (r2 ++ post)) token).p) := by
  simp only [ParseWhitespaceToken, List.drop_zero, drop_skipWhitespace, true_and]
  exact dropWhile_runs r1 r2 post hr1 hr2 a

theorem ParseOpcodeToken_runs (r1 r2 post : List Nat)
    (h1 : r1 ≠ []) (h2 : r2 ≠ []) (hr1 : ∀ c ∈ r1, c = 32 ∨ c = 9)
    (hr2 : ∀ c ∈ r2, c = 32 ∨ c = 9) (a : List Nat) (token : Token) :
    (ParseOpcodeToken 0 (a ++ (r1 ++ post)) token).token =
        (ParseOpcodeToken 0 (a ++ (r2 ++ post)) token).token ∧
      runVariants r1 r2 post
        ((a ++ (r1 ++ post)).drop (ParseOpcodeToken 0 (a ++ (r1 ++ post)) token).p)
        ((a ++ (r2 ++ post)).drop (ParseOpcodeToken 0 (a ++ (r2 ++ post)) token).p) := by
  obtain ⟨c1, t1, rfl⟩ := List.exists_cons_of_ne_nil h1
  obtain ⟨c2, t2, rfl⟩ := List.exists_cons_of_ne_nil h2
  have n1 := readOpcodeName_append_stop a (t1 ++ post) c1
    (IsValidNameChar_space c1 (hr1 c1 (by simp))) MAX_OPCODE_LENGTH 0 0
    (List.replicate MAX_OPCODE_LENGTH 0) (Nat.zero_le _)
  have n2 := readOpcodeName_append_stop a (t2 ++ post) c2
    (IsValidNameChar_space c2 (hr2 c2 (by simp))) MAX_OPCODE_LENGTH 0 0
    (List.replicate MAX_OPCODE_LENGTH 0) (Nat.zero_le _)
  have hb := (readOpcodeName_bounds a MAX_OPCODE_LENGTH 0 0
    (List.replicate MAX_OPCODE_LENGTH 0)).2 (Nat.zero_le _)
  have hp : ∀ x : List Nat, (ParseOpcodeToken 0 x token).p =
      (readOpcodeName x MAX_OPCODE_LENGTH 0 0 (List.replicate MAX_OPCODE_LENGTH 0)).1 := by
    intro x
    simp only [ParseOpcodeToken]
    split <;> rfl
  have ht : ∀ x y : List Nat,
      readOpcodeName x MAX_OPCODE_LENGTH 0 0 (List.replicate MAX_OPCODE_LENGTH 0) =
        readOpcodeName y MAX_OPCODE_LENGTH 0 0 (List.replicate MAX_OPCODE_LENGTH 0) →
      (ParseOpcodeToken 0 x token).token = (ParseOpcodeToken 0 y token).token := by
    intro x y hxy
    simp only [ParseOpcodeToken, hxy]
  refine ⟨ht _ _ ?_, ?_⟩
  · show readOpcodeName (a ++ c1 :: (t1 ++ post)) _ _ _ _ =
      readOpcodeName (a ++ c2 :: (t2 ++ post)) _ _ _ _
    rw [n1, n2]
  · rw [hp, hp]
    show runVariants _ _ post
      ((a ++ c1 :: (t1 ++ post)).drop (readOpcodeName (a ++ c1 :: (t1 ++ post)) _ _ _ _).1)
      ((a ++ c2 :: (t2 ++ post)).drop (readOpcodeName (a ++ c2 :: (t2 ++ post)) _ _ _ _).1)
    rw [n1, n2]
    exact Or.inr ⟨a.drop (readOpcodeName a MAX_OPCODE_LENGTH 0 0
      (List.replicate MAX_OPCODE_LENGTH 0)).1, drop_append_stop _ _ _ hb,
      drop_append_stop _ _ _ hb⟩

theorem ParseTokenSwitch_space (s : List Nat) (token : Token) (line : Nat)
    (h : charAt s 0 = 32 ∨ charAt s 0 = 9) :
    ParseTokenSwitch 0 s token line = (ParseWhitespaceToken 0 s token, line) := by
  rcases h with h | h <;> simp [ParseTokenSwitch, h]

theorem ParseTokenSwitch_runs_cons (r1 r2 post : List Nat)
    (h1 : r1 ≠ []) (h2 : r2 ≠ []) (hr1 : ∀ c ∈ r1, c = 32 ∨ c = 9)
    (hr2 : ∀ c ∈ r2, c = 32 ∨ c = 9) (c : Nat) (a : List Nat) (token : Token) (line : Nat) :
    (ParseTokenSwitch 0 (c :: (a ++ (r1 ++ post))) token line).1.token =
        (ParseTokenSwitch 0 (c :: (a ++ (r2 ++ post))) token line).1.token ∧
      (ParseTokenSwitch 0 (c :: (a ++ (r1 ++ post))) token line).2 =
        (ParseTokenSwitch 0 (c :: (a ++ (r2 ++ post))) token line).2 ∧
      ((ParseTokenSwitch 0 (c :: (a ++ (r1 ++ post))) token line).1.token.type ≠
          TOKEN_TYPE_INVALID →
        (ParseTokenSwitch 0 (c :: (a ++ (r1 ++ post))) token line).1.token.type ≠
          TOKEN_TYPE_EOF →
        runVariants r1 r2 post
          ((c :: (a ++ (r1 ++ post))).drop
            (ParseTokenSwitch 0 (c :: (a ++ (r1 ++ post))) token line).1.p)
          ((c :: (a ++ (r2 ++ post))).drop
            (ParseTokenSwitch 0 (c :: (a ++ (r2 ++ post))) token line).1.p)) := by
  have hws := ParseWhitespaceToken_runs r1 r2 post hr1 hr2 (c :: a) token
  by_cases h36 : c = 36
  · have e : ∀ x : List Nat, ParseTokenSwitch 0 (c :: x) token line =
        (ParseRegisterToken 0 (c :: x) token, line) := by
      intro x; simp [ParseTokenSwitch, charAt, h36]
    rw [e, e]
    obtain ⟨g1, g2⟩ := ParseRegisterToken_runs r1 r2 post h1 h2 hr1 hr2 c a token
    exact ⟨g1, rfl, fun h _ => g2 h⟩
  by_cases hsp : c = 32 ∨ c = 9
  · rw [ParseTokenSwitch_space (c :: (a ++ (r1 ++ post))) token line hsp,
      ParseTokenSwitch_space (c :: (a ++ (r2 ++ post))) token line hsp]
    exact ⟨hws.1, rfl, fun _ _ => hws.2⟩
  have h32 : ¬ c = 32 := fun h => hsp (Or.inl h)
  have h9 : ¬ c = 9 := fun h => hsp (Or.inr h)
  by_cases h44 : c = 44
  · have e : ∀ x : List Nat, ParseTokenSwitch 0 (c :: x) token line =
        ({ p := 0 + 1, token := { token with type := TOKEN_TYPE_COMMA } }, line) := by
      intro x; simp [ParseTokenSwitch, charAt, h44]
    rw [e, e]
    exact ⟨rfl, rfl, fun _ _ => Or.inr ⟨a, rfl, rfl⟩⟩
  by_cases h10 : c = 10
  · have e : ∀ x : List Nat, ParseTokenSwitch 0 (c :: x) token line =
        ({ p := 0 + 1, token := { token with type := TOKEN_TYPE_NEW_LINE } },
          (line + 1) % 2 ^ 32) := by
      intro x; simp [ParseTokenSwitch, charAt, h10]
    rw [e, e]
    exact ⟨rfl, rfl, fun _ _ => Or.inr ⟨a, rfl, rfl⟩⟩
  by_cases h0 : c = 0
  · have e : ∀ x : List Nat, ParseTokenSwitch 0 (c :: x) token line =
        ({ p := 0 + 1, token := { token with type := TOKEN_TYPE_EOF } }, line) := by
      intro x; simp [ParseTokenSwitch, charAt, h0]
    rw [e, e]
    exact ⟨rfl, rfl, fun _ h => absurd rfl h⟩
  by_cases hdig : 48 ≤ c ∧ c ≤ 57
  · have e : ∀ x : List Nat, ParseTokenSwitch 0 (c :: x) token line =
        (ParseNumberToken 0 (c :: x) token, line) := by
      intro x
      simp only [ParseTokenSwitch, charAt, List.getD_cons_zero, h36, h32, h9, h44, h10, h0,
        hdig, and_self, if_true, if_false]
    rw [e, e]
    obtain ⟨g1, g2⟩ := ParseNumberToken_runs r1 r2 post h1 h2 hr1 hr2 (c :: a) token
    exact ⟨g1, rfl, fun h _ => g2 h⟩
  by_cases hlet : (65 ≤ c ∧ c ≤ 90) ∨ (97 ≤ c ∧ c ≤ 122)
  · have e : ∀ x : List Nat, ParseTokenSwitch 0 (c :: x) token line =
        (ParseOpcodeToken 0 (c :: x) token, line) := by
      intro x
      simp only [ParseTokenSwitch, charAt, List.getD_cons_zero, h36, h32, h9, h44, h10, h0,
        hdig, hlet, if_true, if_false]
    rw [e, e]
    obtain ⟨g1, g2⟩ := ParseOpcodeToken_runs r1 r2 post h1 h2 hr1 hr2 (c :: a) token
    exact ⟨g1, rfl, fun _ _ => g2⟩
  · have e : ∀ x : List Nat, ParseTokenSwitch 0 (c :: x) token line =
        ({ p := 0, token := { token with type := TOKEN_TYPE_INVALID } }, line) := by
      intro x
      simp only [ParseTokenSwitch, charAt, List.getD_cons_zero, h36, h32, h9, h44, h10, h0,
        hdig, hlet, if_false]
    rw [e, e]
    exact ⟨rfl, rfl, fun h _ => absurd rfl h⟩

/-- One step of the lexer on two texts that differ in a run of spaces and
tabs: the same token and line counter, and what remains differs at most in
that run. -/
theorem ParseTokenSwitch_runs (r1 r2 post : List Nat)
    (h1 : r1 ≠ []) (h2 : r2 ≠ []) (hr1 : ∀ c ∈ r1, c = 32 ∨ c = 9)
    (hr2 : ∀ c ∈ r2, c = 32 ∨ c = 9) (a : List Nat) (token : Token) (line : Nat) :
    (ParseTokenSwitch 0 (a ++ (r1 ++ post)) token line).1.token =
        (ParseTokenSwitch 0 (a ++ (r2 ++ post)) token line).1.token ∧
      (ParseTokenSwitch 0 (a ++ (r1 ++ post)) token line).2 =
        (ParseTokenSwitch 0 (a ++ (r2 ++ post)) token line).2 ∧
      ((ParseTokenSwitch 0 (a ++ (r1 ++ post)) token line).1.token.type ≠ TOKEN_TYPE_INVALID →
        (ParseTokenSwitch 0 (a ++ (r1 ++ post)) token line).1.token.type ≠ TOKEN_TYPE_EOF →
        runVariants r1 r2 post
          ((a ++ (r1 ++ post)).drop (ParseTokenSwitch 0 (a ++ (r1 ++ post)) token line).1.p)
          ((a ++ (r2 ++ post)).drop
            (ParseTokenSwitch 0 (a ++ (r2 ++ post)) token line).1.p)) := by
  cases a with
  | nil =>
    have hws := ParseWhitespaceToken_runs r1 r2 post hr1 hr2 [] token
    obtain ⟨c1, t1, rfl⟩ := List.exists_cons_of_ne_nil h1
    obtain ⟨c2, t2, rfl⟩ := List.exists_cons_of_ne_nil h2
    have k1 : charAt ([] ++ (c1 :: t1 ++ post)) 0 = 32 ∨ charAt ([] ++ (c1 :: t1 ++ post)) 0 = 9 :=
      hr1 c1 (by simp)
    have k2 : charAt ([] ++ (c2 :: t2 ++ post)) 0 = 32 ∨ charAt ([] ++ (c2 :: t2 ++ post)) 0 = 9 :=
      hr2 c2 (by simp)
    rw [ParseTokenSwitch_space _ token line k1, ParseTokenSwitch_space _ token line k2]
    exact ⟨hws.1, rfl, fun _ _ => hws.2⟩
  | cons c a => exact ParseTokenSwitch_runs_cons r1 r2 post h1 h2 hr1 hr2 c a token line

theorem ParseToken_runs (r1 r2 post : List Nat)
    (h1 : r1 ≠ []) (h2 : r2 ≠ []) (hr1 : ∀ c ∈ r1, c = 32 ∨ c = 9)
    (hr2 : ∀ c ∈ r2, c = 32 ∨ c = 9) (a : List Nat) (token : Token) (line : Nat) :
    (ParseToken 0 (a ++ (r1 ++ post)) token line).ret =
        (ParseToken 0 (a ++ (r2 ++ post)) token line).ret ∧
      (ParseToken 0 (a ++ (r1 ++ post)) token line).token =
        (ParseToken 0 (a ++ (r2 ++ post)) token line).token ∧
      (ParseToken 0 (a ++ (r1 ++ post)) token line).lineNumber =
        (ParseToken 0 (a ++ (r2 ++ post)) token line).lineNumber ∧
      ((ParseToken 0 (a ++ (r1 ++ post)) token line).ret ≠ 1 →
        (ParseToken 0 (a ++ (r1 ++ post)) token line).token.type ≠ TOKEN_TYPE_EOF →
        runVariants r1 r2 post
          ((a ++ (r1 ++ post)).drop (ParseToken 0 (a ++ (r1 ++ post)) token line).p)
          ((a ++ (r2 ++ post)).drop (ParseToken 0 (a ++ (r2 ++ post)) token line).p)) := by
  obtain ⟨g1, g2, g3⟩ := ParseTokenSwitch_runs r1 r2 post h1 h2 hr1 hr2 a
    { token with lineNumber := line } line
  simp only [ParseToken]
  refine ⟨by rw [g1], g1, g2, ?_⟩
  intro hret heof
  apply g3 _ heof
  intro hinv
  exact hret (by simp [hinv])

/-- The lexer loop on two texts that differ in a run of spaces and tabs
builds the same chain. -/
theorem TokenizeLoop_runs (r1 r2 post : List Nat)
    (h1 : r1 ≠ []) (h2 : r2 ≠ []) (hr1 : ∀ c ∈ r1, c = 32 ∨ c = 9)
    (hr2 : ∀ c ∈ r2, c = 32 ∨ c = 9) (fuel : Nat) :
    ∀ (s1 s2 : List Nat) (line : Nat) (res : Nat × List Token),
      runVariants r1 r2 post s1 s2 → TokenizeLoop s1 fuel 0 line = some res →
      ∃ fuel2, TokenizeLoop s2 fuel2 0 line = some res := by
  induction fuel with
  | zero => intro s1 s2 line res _ h; simp [TokenizeLoop] at h
  | succ f ih =>
    intro s1 s2 line res hrel h
    rcases hrel with rfl | ⟨a, rfl, rfl⟩
    · exact ⟨f + 1, h⟩
    · obtain ⟨g1, g2, g3, g4⟩ := ParseToken_runs r1 r2 post h1 h2 hr1 hr2 a freshToken line
      rw [TokenizeLoop] at h
      by_cases hret : (ParseToken 0 (a ++ (r1 ++ post)) freshToken line).ret = 1
      · simp only [hret, if_true] at h
        refine ⟨1, ?_⟩
        rw [TokenizeLoop]
        simp only [← g1, ← g2, hret, if_true]
        exact h
      · by_cases heof : (ParseToken 0 (a ++ (r1 ++ post)) freshToken line).token.type =
            TOKEN_TYPE_EOF
        · simp only [hret, heof, if_true, if_false] at h
          refine ⟨1, ?_⟩
          rw [TokenizeLoop]
          simp only [← g1, ← g2, hret, heof, if_true, if_false]
          exact h
        · simp only [hret, heof, if_false] at h
          cases hrec : TokenizeLoop (a ++ (r1 ++ post)) f
              (ParseToken 0 (a ++ (r1 ++ post)) freshToken line).p
              (ParseToken 0 (a ++ (r1 ++ post)) freshToken line).lineNumber with
          | none => simp [hrec] at h
          | some r =>
            obtain ⟨result, rest⟩ := r
            simp only [hrec, Option.some.injEq] at h
            rw [TokenizeLoop_shift] at hrec
            obtain ⟨fuel2, hrec2⟩ := ih _ _ _ _ (g4 hret heof) hrec
            refine ⟨fuel2 + 1, ?_⟩
            rw [TokenizeLoop]
            simp only [← g1, ← g2, ← g3, hret, heof, if_false]
            rw [TokenizeLoop_shift, hrec2]
            exact congrArg some h

/-- The token chain does not depend on the length of a run of spaces and
tabs, nor on which of the two characters it holds. -/
theorem Tokenize_runs (pre post r1 r2 : List Nat)
    (h1 : r1 ≠ []) (h2 : r2 ≠ []) (hr1 : ∀ c ∈ r1, c = 32 ∨ c = 9)
    (hr2 : ∀ c ∈ r2, c = 32 ∨ c = 9) :
    Tokenize (pre ++ (r1 ++ post)) = Tokenize (pre ++ (r2 ++ post)) := by
  obtain ⟨res, hres⟩ := Tokenize_total (pre ++ (r1 ++ post))
  obtain ⟨fuel2, h⟩ := TokenizeLoop_runs r1 r2 post h1 h2 hr1 hr2 _ _ _ 1 res
    (Or.inr ⟨pre, rfl, rfl⟩) hres
  rw [hres, Tokenize_of_fuel _ fuel2 res h]

theorem ParseRegisterToken_not_space (p : Nat) (text : List Nat) (token : Token) :
    (ParseRegisterToken p text token).token.type ≠ TOKEN_TYPE_WHITESPACE := by
  simp only [ParseRegisterToken]
  split_ifs <;> simp

theorem ParseNumberToken_not_space (p : Nat) (text : List Nat) (token : Token) :
    (ParseNumberToken p text token).token.type ≠ TOKEN_TYPE_WHITESPACE := by
  simp only [ParseNumberToken]
  split_ifs <;> simp

theorem ParseOpcodeToken_not_space (p : Nat) (text : List Nat) (token : Token) :
    (ParseOpcodeToken p text token).token.type ≠ TOKEN_TYPE_WHITESPACE := by
  simp only [ParseOpcodeToken]
  split <;> simp

/-- A Whitespace token starts at a space or a tab. -/
theorem ParseTokenSwitch_whitespace_char (p : Nat) (text : List Nat) (token : Token)
    (line : Nat)
    (h : (ParseTokenSwitch p text token line).1.token.type = TOKEN_TYPE_WHITESPACE) :
    charAt text p = 32 ∨ charAt text p = 9 := by
  by_contra hc
  have h32 : ¬ charAt text p = 32 := fun e => hc (Or.inl e)
  have h9 : ¬ charAt text p = 9 := fun e => hc (Or.inr e)
  simp only [ParseTokenSwitch, h32, h9, if_false] at h
  split_ifs at h
  all_goals
    simp [ParseRegisterToken_not_space, ParseNumberToken_not_space,
      ParseOpcodeToken_not_space] at h

theorem TokenizeLoop_head (text : List Nat) (fuel q line res : Nat) (toks : List Token)
    (h : TokenizeLoop text fuel q line = some (res, toks)) :
    toks.head? = some (ParseToken q text freshToken line).token := by
  cases fuel with
  | zero => simp [TokenizeLoop] at h
  | succ f =>
    rw [TokenizeLoop] at h
    split_ifs at h with h1 h2
    · simp only [Option.some.injEq, Prod.mk.injEq] at h
      rw [← h.2]; rfl
    · simp only [Option.some.injEq, Prod.mk.injEq] at h
      rw [← h.2]; rfl
    · cases hrec : TokenizeLoop text f (ParseToken q text freshToken line).p
          (ParseToken q text freshToken line).lineNumber with
      | none => simp [hrec] at h
      | some r =>
        simp only [hrec, Option.some.injEq, Prod.mk.injEq] at h
        rw [← h.2]; rfl

/-- When the lexer, standing at `p` after `k` tokens, reads a mnemonic and
the character directly behind the mnemonic is neither a space nor a tab,
assembly fails. -/
theorem mnemonic_not_followed (text : List Nat) (k p line res : Nat) (toks : List Token)
    (hlex : Tokenize text = some (res, toks))
    (hcount : toks.countP (fun t => t.type = TOKEN_TYPE_OPCODE) < 2 ^ 32)
    (hreach : lexerStateFrom text k 0 1 = some (p, line))
    (hop : (ParseToken p text freshToken line).token.type = TOKEN_TYPE_OPCODE)
    (hch : ¬ (charAt text (ParseToken p text freshToken line).p = 32 ∨
      charAt text (ParseToken p text freshToken line).p = 9)) :
    Assemble text = some { status := 1, exit := AssembleExit.lexFailed, written := none } ∨
      Assemble text =
        some { status := 1, exit := AssembleExit.generateFailed, written := none } := by
  have hinv : (ParseToken p text freshToken line).token.type ≠ TOKEN_TYPE_INVALID := by
    rw [hop]; decide
  have heof : (ParseToken p text freshToken line).token.type ≠ TOKEN_TYPE_EOF := by
    rw [hop]; decide
  have hret : (ParseToken p text freshToken line).ret ≠ 1 := by
    rw [ParseToken_ret, if_neg hinv]; decide
  obtain ⟨_, hlt, hle⟩ := ParseToken_facts p text freshToken line hret
  have hq := hle heof
  obtain ⟨r, hr⟩ := TokenizeLoop_total text (text.length + 1)
    (ParseToken p text freshToken line).p (ParseToken p text freshToken line).lineNumber hq
    (by omega)
  obtain ⟨res1, rest⟩ := r
  have hstep : TokenizeLoop text (text.length + 1 + 1) p line =
      some (res1, (ParseToken p text freshToken line).token :: rest) := by
    rw [TokenizeLoop]
    simp only [hret, heof, if_false, hr]
  obtain ⟨_, before, _, _, hloop⟩ := TokenizeLoop_reach text k 0 1 p line hreach
  have hT := Tokenize_of_fuel text _ _ (hloop _ _ _ hstep)
  rw [hlex] at hT
  simp only [Option.some.injEq, Prod.mk.injEq] at hT
  obtain ⟨hres, htoks⟩ := hT
  have hhead := TokenizeLoop_head text _ _ _ _ _ hr
  by_cases h1 : res = 1
  · left
    subst h1
    simp only [Assemble, hlex, if_true]
  · right
    have h0 : res = 0 := by
      obtain ⟨_, _, _, _, hcase⟩ := TokenizeLoop_stop text _ 0 1 res toks hlex
      rcases hcase with ⟨h, _⟩ | ⟨h, _⟩
      · exact absurd h h1
      · exact h
    subst h0
    have hpos : 0 < toks.countP (fun t => t.type = TOKEN_TYPE_OPCODE) := by
      rw [htoks]
      exact List.countP_pos_iff.mpr
        ⟨(ParseToken p text freshToken line).token, by simp, by simpa using hop⟩
    obtain ⟨hn, hall⟩ := GenerateMachineCode_grammar text toks hlex hpos hcount
    obtain ⟨resg, out, hg, hresg, hE⟩ :=
      hall (List.replicate (toks.countP (fun t => t.type = TOKEN_TYPE_OPCODE)) 0)
    have hne : ¬ toks.countP (fun t => t.type = TOKEN_TYPE_OPCODE) = 0 := by omega
    rcases hresg with rfl | rfl
    · exfalso
      obtain ⟨_, hE2⟩ := hE rfl
      obtain ⟨⟨w, post1, hw1, hw2⟩, _⟩ := hE2 before _ rest htoks hop
      rw [hw1] at hhead
      simp only [List.head?_cons, Option.some.injEq] at hhead
      rw [hhead] at hw2
      exact hch (ParseTokenSwitch_whitespace_char _ text _ _ hw2)
    · simp only [Assemble, hlex, hn, hg, hne, if_true, if_false]
      rfl

/-- C16 amended (mnemonic/operand spacing).  For all texts `pre`, `post` and
all non-empty runs `run1`, `run2` of space and tab characters, the texts
`pre run1 post` and `pre run2 post` lex to the same token chain and are
assembled to the same outcome: a line is accepted with a run of any length
between the mnemonic and the first operand exactly when it is accepted with
one space, and with the same words.  With nothing there, `pre post`
(fewer than 2^32 Opcode tokens): when lexing succeeds and some Opcode token
is not directly followed by a Whitespace token, `Assemble` fails in
`GenerateMachineCode`; and when the lexer reads a mnemonic at a position it
reaches and the character directly behind the mnemonic is neither a space
nor a tab, `Assemble` fails.  For `LW` and `J` lines with decimal operands
within their bounds the run `run1` gives the word of the instruction, and
with no character behind the mnemonic `LW` fails in `GenerateMachineCode`
and `J` fails in the lexer. -/
theorem mnemonic_spacing (pre post run1 run2 : List Nat) (rs rt imm target : Nat)
    (h1 : run1 ≠ []) (h2 : run2 ≠ [])
    (hr1 : ∀ c ∈ run1, c = 32 ∨ c = 9) (hr2 : ∀ c ∈ run2, c = 32 ∨ c = 9)
    (hrs : rs ≤ 31) (hrt : rt ≤ 31) (himm : imm ≤ 0xFFFF) (ht : target ≤ 0x3FFFFFF) :
    Tokenize (pre ++ run1 ++ post) = Tokenize (pre ++ run2 ++ post) ∧
      Assemble (pre ++ run1 ++ post) = Assemble (pre ++ run2 ++ post) ∧
      (∀ toks, Tokenize (pre ++ post) = some (0, toks) →
        toks.countP (fun t => t.type = TOKEN_TYPE_OPCODE) < 2 ^ 32 →
        (∃ before t after, toks = before ++ t :: after ∧ t.type = TOKEN_TYPE_OPCODE ∧
          ∀ w rest, after = w :: rest → w.type ≠ TOKEN_TYPE_WHITESPACE) →
        Assemble (pre ++ post) =
          some { status := 1, exit := AssembleExit.generateFailed, written := none }) ∧
      (∀ k p line res toks, Tokenize (pre ++ post) = some (res, toks) →
        toks.countP (fun t => t.type = TOKEN_TYPE_OPCODE) < 2 ^ 32 →
        lexerStateFrom (pre ++ post) k 0 1 = some (p, line) →
        (ParseToken p (pre ++ post) freshToken line).token.type = TOKEN_TYPE_OPCODE →
        ¬ (charAt (pre ++ post) (ParseToken p (pre ++ post) freshToken line).p = 32 ∨
          charAt (pre ++ post) (ParseToken p (pre ++ post) freshToken line).p = 9) →
        Assemble (pre ++ post) =
            some { status := 1, exit := AssembleExit.lexFailed, written := none } ∨
          Assemble (pre ++ post) =
            some { status := 1, exit := AssembleExit.generateFailed, written := none }) ∧
      (Assemble (sourceLWRun run1 rs rt imm) =
          some { status := 0, exit := AssembleExit.writerCalled,
                 written := some [(0b100011 <<< 26) ||| (rs <<< 21) ||| (rt <<< 16) ||| imm] } ∧
        Assemble (sourceJRun run1 target) =
          some { status := 0, exit := AssembleExit.writerCalled,
                 written := some [(0b000010 <<< 26) ||| target] } ∧
        Assemble (sourceLWRun [] rs rt imm) =
          some { status := 1, exit := AssembleExit.generateFailed, written := none } ∧
        Assemble (sourceJRun [] target) =
          some { status := 1, exit := AssembleExit.lexFailed, written := none }) := by
  have hT : Tokenize (pre ++ run1 ++ post) = Tokenize (pre ++ run2 ++ post) := by
    rw [List.append_assoc, List.append_assoc]
    exact Tokenize_runs pre post run1 run2 h1 h2 hr1 hr2
  obtain ⟨t1, t2, t3⟩ := mnemonic_spacing_templates run1 rs rt imm target hr1 hrs hrt himm ht
  refine ⟨hT, by simp only [Assemble, hT], ?_,
    fun k p line res toks hlex hcount hreach hop hch =>
      mnemonic_not_followed (pre ++ post) k p line res toks hlex hcount hreach hop hch,
    (t1 h1).1, (t1 h1).2, t2, t3⟩
  intro toks hlex hcount ⟨before, t, after, hsplit, ht, hafter⟩
  have hpos : 0 < toks.countP (fun t => t.type = TOKEN_TYPE_OPCODE) := by
    rw [hsplit]
    exact List.countP_pos_iff.mpr ⟨t, by simp, by simpa using ht⟩
  obtain ⟨hn, hall⟩ := GenerateMachineCode_grammar (pre ++ post) toks hlex hpos hcount
  obtain ⟨res, out, hg, hres, hE⟩ :=
    hall (List.replicate (toks.countP (fun t => t.type = TOKEN_TYPE_OPCODE)) 0)
  have hne : ¬ toks.countP (fun t => t.type = TOKEN_TYPE_OPCODE) = 0 := by omega
  rcases hres with rfl | rfl
  · exfalso
    obtain ⟨_, hE2⟩ := hE rfl
    obtain ⟨⟨w, post1, hw1, hw2⟩, _⟩ := hE2 before t after hsplit ht
    exact hafter w post1 hw1 hw2
  · simp only [Assemble, hlex, hn, hg, hne, if_true, if_false]
    rfl

theorem mnemonic_spacing_witness :
    (cstr "J 10\nLW" ++ [32] ++ cstr "$1, $2, 100\n" = cstr "J 10\nLW $1, $2, 100\n" ∧
        cstr "J 10\nLW" ++ [32, 9, 32] ++ cstr "$1, $2, 100\n" =
          cstr "J 10\nLW \t $1, $2, 100\n" ∧
        cstr "J 10\nLW" ++ cstr "$1, $2, 100\n" = cstr "J 10\nLW$1, $2, 100\n") ∧
      Assemble (cstr "J 10\nLW" ++ [32] ++ cstr "$1, $2, 100\n") =
        some { status := 0, exit := AssembleExit.writerCalled,
               written := some [0x0800000A, 0x8C220064] } ∧
      Assemble (cstr "J 10\nLW" ++ [32] ++ cstr "$1, $2, 100\n") =
        Assemble (cstr "J 10\nLW" ++ [32, 9, 32] ++ cstr "$1, $2, 100\n") ∧
      (lexerStateFrom (cstr "J 10\nLW" ++ cstr "$1, $2, 100\n") 4 0 1 = some (5, 2) ∧
        (ParseToken 5 (cstr "J 10\nLW" ++ cstr "$1, $2, 100\n") freshToken 2).p = 7 ∧
        charAt (cstr "J 10\nLW" ++ cstr "$1, $2, 100\n") 7 = 36) ∧
      (Assemble (cstr "J 10\nLW" ++ cstr "$1, $2, 100\n") =
          some { status := 1, exit := AssembleExit.lexFailed, written := none } ∨
        Assemble (cstr "J 10\nLW" ++ cstr "$1, $2, 100\n") =
          some { status := 1, exit := AssembleExit.generateFailed, written := none }) :=
  ⟨by decide, by decide,
    (mnemonic_spacing (cstr "J 10\nLW") (cstr "$1, $2, 100\n") [32] [32, 9, 32] 1 2 100 10
      (by decide) (by decide) (by decide) (by decide) (by decide) (by decide) (by decide)
      (by decide)).2.1,
    by decide,
    (mnemonic_spacing (cstr "J 10\nLW") (cstr "$1, $2, 100\n") [32] [32, 9, 32] 1 2 100 10
      (by decide) (by decide) (by decide) (by decide) (by decide) (by decide) (by decide)
      (by decide)).2.2.2.1 4 5 2 0
      [⟨TOKEN_TYPE_OPCODE, 1, 0⟩, ⟨TOKEN_TYPE_WHITESPACE, 1, 0⟩, ⟨TOKEN_TYPE_NUMBER, 1, 10⟩,
        ⟨TOKEN_TYPE_NEW_LINE, 1, 0⟩, ⟨TOKEN_TYPE_OPCODE, 2, 1⟩, ⟨TOKEN_TYPE_REGISTER, 2, 1⟩,
        ⟨TOKEN_TYPE_COMMA, 2, 0⟩, ⟨TOKEN_TYPE_WHITESPACE, 2, 0⟩, ⟨TOKEN_TYPE_REGISTER, 2, 2⟩,
        ⟨TOKEN_TYPE_COMMA, 2, 0⟩, ⟨TOKEN_TYPE_WHITESPACE, 2, 0⟩, ⟨TOKEN_TYPE_NUMBER, 2, 100⟩,
        ⟨TOKEN_TYPE_NEW_LINE, 2, 0⟩, ⟨TOKEN_TYPE_EOF, 3, 0⟩]
      (by decide) (by decide) (by decide) (by decide) (by decide)⟩

end Microasm
